import Mathlib

/-!
Virtual-Machine-Monitor: register machine, live migration and snapshots.

A shallow embedding of the three programs of the repository

* `Live Migration/myvmm.cc`  (the migration sender, namespace `Sender`),
* `Live Migration/server.cc` (the migration receiver, namespace `Server`),
* `Snapshot/myvmm.cc`        (the two-VM scheduler with snapshots, namespace `Snapshot`),

followed by theorems about the embedding.

Conventions of the embedding.

* A `std::string` is a `List Char`; every `Char` stands for the `char` with the same code.
* A `std::vector<char>` buffer, a file and a byte stream are lists of byte values (`List Nat`).
* `int` and `int32_t` values are integers in `[-2^31, 2^31)`; arithmetic on them wraps
  modulo `2^32` (`wrap32`), which is what the targets of the program do.
* `memcpy` of an integer copies its four bytes in the byte order of the host, which is a
  parameter (`Endian`) of every function that touches memory.
* `std::map<std::string, int32_t>` is the list of its entries in iteration order, that is,
  in ascending key order (`RegistersMap.WF`).
-/

namespace VMM

/-! ## Strings, bytes and machine integers -/

/-- A `std::string`: a sequence of `char`. -/
abbrev Str := List Char

/-- Byte order of the host the program runs on. -/
inductive Endian where
  | little
  | big
deriving DecidableEq

/-- Conversion of an integer to `uint32_t`. -/
def toU32 (v : Int) : Nat := (v % 4294967296).toNat

/-- Reinterpretation of a `uint32_t` bit pattern as `int32_t` (two's complement). -/
def toI32 (u : Nat) : Int :=
  if u % 4294967296 < 2147483648 then ((u % 4294967296 : Nat) : Int)
  else ((u % 4294967296 : Nat) : Int) - 4294967296

/-- Reduction of an integer to the `int32_t` range, modulo `2^32`. -/
def wrap32 (v : Int) : Int := toI32 (toU32 v)

/-- Conversion of an `int` to `size_t` (64 bits). -/
def toSizeT (v : Int) : Nat := (v % 18446744073709551616).toNat

/-- Membership in the `int32_t` range. -/
def InI32 (v : Int) : Prop := -2147483648 ≤ v ∧ v < 2147483648

instance (v : Int) : Decidable (InI32 v) := by unfold InI32; infer_instance

/-- The four bytes of a 32-bit pattern, least significant first. -/
def leBytes (u : Nat) : List Nat :=
  [u % 256, u / 256 % 256, u / 65536 % 256, u / 16777216 % 256]

/-- The four bytes of a 32-bit pattern, most significant first (network byte order). -/
def beBytes (u : Nat) : List Nat :=
  [u / 16777216 % 256, u / 65536 % 256, u / 256 % 256, u % 256]

/-- The bytes a 32-bit object occupies in the memory of the host. -/
def hostBytes : Endian → Nat → List Nat
  | .little, u => leBytes u
  | .big, u => beBytes u

/-- The 32-bit pattern held by four bytes of host memory. -/
def ofHostBytes : Endian → List Nat → Nat
  | .little, [a, b, c, d] => a + 256 * b + 65536 * c + 16777216 * d
  | .big, [a, b, c, d] => d + 256 * c + 65536 * b + 16777216 * a
  | _, _ => 0

/-- The bytes of an `int32_t` object in host memory. -/
def int32Bytes (e : Endian) (v : Int) : List Nat := hostBytes e (toU32 v)

/-- The function `htonl`: the value whose host representation is the network-order
representation of the argument. -/
def htonl (e : Endian) (u : Nat) : Nat := ofHostBytes e (beBytes u)

/-- The function `ntohl`, inverse of `htonl`. -/
def ntohl (e : Endian) (u : Nat) : Nat :=
  match hostBytes e u with
  | [a, b, c, d] => d + 256 * c + 65536 * b + 16777216 * a
  | _ => 0

/-- The call `memcpy(buffer.data() + pos, src, src.size())` on a buffer of fixed size: bytes
that would fall behind the end of the buffer are not stored. -/
def memcpy (buffer : List Nat) (pos : Nat) (src : List Nat) : List Nat :=
  (buffer.take pos ++ src ++ buffer.drop (pos + src.length)).take buffer.length

/-- The four bytes of `buffer` that start at `pos`; `none` when the read leaves the buffer. -/
def read4 (buffer : List Nat) (pos : Nat) : Option (List Nat) :=
  if pos + 4 ≤ buffer.length then some ((buffer.drop pos).take 4) else none

/-! ## The register file: `std::map<std::string, int32_t>` -/

/-- The comparison `a < b` of `std::string`: lexicographic on the `char` values. -/
def strLt : Str → Str → Bool
  | [], [] => false
  | [], _ :: _ => true
  | _ :: _, [] => false
  | a :: as, b :: bs =>
    if a.toNat < b.toNat then true
    else if b.toNat < a.toNat then false
    else strLt as bs

/-- The entries of a `std::map<std::string, int32_t>` in iteration order. -/
abbrev RegistersMap := List (Str × Int)

namespace RegistersMap

/-- The statement `registers[k] = v`. -/
def assign (k : Str) (v : Int) : RegistersMap → RegistersMap
  | [] => [(k, v)]
  | (k', v') :: t =>
    if strLt k k' then (k, v) :: (k', v') :: t
    else if strLt k' k then (k', v') :: assign k v t
    else (k', v) :: t

/-- The lookup `registers.find(k)`: the value of the entry with key `k`. -/
def find (k : Str) : RegistersMap → Option Int
  | [] => none
  | (k', v') :: t => if k' = k then some v' else find k t

/-- The value read by `registers[k]`: a missing key reads as `0`. -/
def get (k : Str) (R : RegistersMap) : Int := (R.find k).getD 0

/-- The map after the expression `registers[k]` has been evaluated: a missing key is inserted
with value `0`. -/
def touch (k : Str) (R : RegistersMap) : RegistersMap :=
  match R.find k with
  | some _ => R
  | none => R.assign k 0

/-- The invariant of a register file: keys strictly ascending (the `std::map` invariant), every
value an `int32_t`, every key shorter than `2^31` characters. -/
def WF (R : RegistersMap) : Prop :=
  List.Pairwise (fun a b => strLt a.1 b.1 = true) R ∧
    ∀ x ∈ R, InI32 x.2 ∧ x.1.length < 2147483648

instance (R : RegistersMap) : Decidable (WF R) := by unfold WF; infer_instance

end RegistersMap

/-! ## The migration codec -/

/-- What stops a run other than its normal end. -/
inductive Fault where
  /-- a read outside a buffer or a vector -/
  | outOfBounds
  /-- `std::invalid_argument` thrown by `stoi` and not caught -/
  | invalidArgument
  /-- `std::out_of_range` thrown by `stoi` and not caught -/
  | outOfRange
  /-- a shift by 32 bits or more -/
  | shiftCount
  /-- `asio::read` met the end of the stream; `main` catches the exception and ends -/
  | endOfStream
  /-- the step budget of a loop of the model ran out -/
  | fuel
deriving DecidableEq

/-- The result of a computation that can stop with a fault. -/
inductive Res (α : Type) where
  | ok (a : α)
  | fault (f : Fault)
deriving DecidableEq

/-- Sequencing of computations that can stop with a fault. -/
def Res.bind {α β : Type} (x : Res α) (f : α → Res β) : Res β :=
  match x with
  | .ok a => f a
  | .fault e => .fault e

/-- The result of a computation seen through `f`. -/
def Res.map {α β : Type} (f : α → β) (x : Res α) : Res β :=
  match x with
  | .ok a => .ok (f a)
  | .fault e => .fault e

/-- The body of the second `for` loop of `VirtualMachine::serialize` (`Live Migration/myvmm.cc`),
run over the remaining entries of the map. -/
def serializeLoop (e : Endian) : List (Str × Int) → List Nat → Nat → List Nat
  | [], buffer, _ => buffer
  | reg :: rest, buffer, pos =>
    let keySize : Int := wrap32 reg.1.length
    let buffer := memcpy buffer pos (int32Bytes e keySize)
    let pos := pos + 4
    let buffer := memcpy buffer pos ((reg.1.take (toSizeT keySize)).map Char.toNat)
    let pos := pos + toSizeT keySize
    let value : Int := reg.2
    let buffer := memcpy buffer pos (int32Bytes e value)
    let pos := pos + 4
    serializeLoop e rest buffer pos

/-- The first `for` loop of `VirtualMachine::serialize`: the size of the buffer. -/
def totalSize (registers : RegistersMap) : Nat :=
  registers.foldl (fun acc reg => acc + (4 + reg.1.length + 4)) 4

/-- The function `VirtualMachine::serialize` (`Live Migration/myvmm.cc`). -/
def serialize (e : Endian) (registers : RegistersMap) (programCounter : Int) : List Nat :=
  let buffer := List.replicate (totalSize registers) 0
  let buffer := memcpy buffer 0 (int32Bytes e programCounter)
  serializeLoop e registers buffer 4

/-- The `while` loop of `deserialize` (`Live Migration/server.cc`); the first argument bounds
the number of iterations. -/
def deserializeLoop (e : Endian) (buffer : List Nat) :
    Nat → Nat → RegistersMap → Res RegistersMap
  | 0, pos, registers => if pos < buffer.length then .fault .fuel else .ok registers
  | fuel + 1, pos, registers =>
    if pos < buffer.length then
      match read4 buffer pos with
      | none => .fault .outOfBounds
      | some kb =>
        let keySize : Int := toI32 (ofHostBytes e kb)
        let pos := pos + 4
        if keySize < 0 then .fault .outOfBounds
        else if buffer.length < pos + keySize.toNat then .fault .outOfBounds
        else
          let key : Str := ((buffer.drop pos).take keySize.toNat).map Char.ofNat
          let pos := pos + keySize.toNat
          match read4 buffer pos with
          | none => .fault .outOfBounds
          | some vb =>
            let value : Int := toI32 (ofHostBytes e vb)
            deserializeLoop e buffer fuel (pos + 4) (registers.assign key value)
    else .ok registers

/-- The function `deserialize` (`Live Migration/server.cc`). Every iteration of its loop
consumes at least eight bytes, so `buffer.length` iterations are enough. -/
def deserialize (e : Endian) (buffer : List Nat) : Res (RegistersMap × Int) :=
  match read4 buffer 0 with
  | none => .fault .outOfBounds
  | some pb =>
    let programCounter : Int := toI32 (ofHostBytes e pb)
    (deserializeLoop e buffer buffer.length 4 []).bind
      (fun registers => .ok (registers, programCounter))

/-! ## `std::regex` (ECMAScript grammar), as far as the programs use it -/

/-- The regular expressions the programs use. -/
inductive Regex where
  /-- the empty expression -/
  | eps
  /-- one character of a class -/
  | cls (p : Char → Bool)
  /-- concatenation -/
  | seq (a b : Regex)
  /-- alternation `a|b` -/
  | alt (a b : Regex)
  /-- greedy repetition `a*` -/
  | star (a : Regex)
  /-- capture group number `n` -/
  | group (n : Nat) (a : Regex)

/-- The sub-matches of a `std::smatch`: group number and matched text, newest first. -/
abbrev Caps := List (Nat × Str)

/-- The member `str(n)` of a `std::smatch`: the empty string for a group that did not match. -/
def Caps.str (m : Caps) (n : Nat) : Str :=
  match m.find? (fun x => x.1 == n) with
  | some x => x.2
  | none => []

/-- The member `matched` of the sub-match `m[n]`. -/
def Caps.matched (m : Caps) (n : Nat) : Bool := (m.find? (fun x => x.1 == n)).isSome

/-- Greedy repetition of the matcher `f`: every way to match, longest first; an iteration that
consumes nothing is not repeated. The first argument bounds the number of iterations. -/
def starRun (f : Str → Caps → List (Str × Caps)) : Nat → Str → Caps → List (Str × Caps)
  | 0, s, c => [(s, c)]
  | k + 1, s, c =>
    ((f s c).filter (fun r => decide (r.1.length < s.length))).flatMap
      (fun r => starRun f k r.1 r.2) ++ [(s, c)]

/-- Every way the expression matches a prefix of the input, in the order in which the
backtracking matcher tries them: the rest of the input and the sub-matches. -/
def Regex.run : Regex → Str → Caps → List (Str × Caps)
  | .eps, s, c => [(s, c)]
  | .cls _, [], _ => []
  | .cls p, x :: xs, c => if p x then [(xs, c)] else []
  | .seq a b, s, c => (a.run s c).flatMap (fun r => b.run r.1 r.2)
  | .alt a b, s, c => a.run s c ++ b.run s c
  | .star a, s, c => starRun a.run s.length s c
  | .group n a, s, c =>
    (a.run s c).map (fun r => (r.1, (n, s.take (s.length - r.1.length)) :: r.2))

/-- The function `std::regex_search`: the sub-matches of the leftmost match, with its first way
to match; no sub-match at all when the expression matches nowhere. -/
def regex_search (re : Regex) : Str → Caps
  | [] =>
    match (re.run [] []).head? with
    | some r => r.2
    | none => []
  | x :: xs =>
    match (re.run (x :: xs) []).head? with
    | some r => r.2
    | none => regex_search re xs

namespace Regex

/-- The literal text `w`. -/
def lit : Str → Regex
  | [] => .eps
  | x :: xs => .seq (.cls (fun y => y == x)) (lit xs)

/-- The expression `a+`. -/
def plus (a : Regex) : Regex := .seq a (.star a)

/-- The expression `a?`. -/
def opt (a : Regex) : Regex := .alt a .eps

/-- The expression `a{1,3}`. -/
def rep13 (a : Regex) : Regex := .seq a (opt (.seq a (opt a)))

/-- Concatenation of a list of expressions. -/
def cat : List Regex → Regex
  | [] => .eps
  | [a] => a
  | a :: rest => .seq a (cat rest)

end Regex

/-- The class `\s` in the classic locale. -/
def isSpace (x : Char) : Bool := x.toNat == 32 || (9 ≤ x.toNat && x.toNat ≤ 13)

/-- The class `\d`. -/
def isDigit (x : Char) : Bool := 48 ≤ x.toNat && x.toNat ≤ 57

/-- The class `[a-z]`. -/
def isLower (x : Char) : Bool := 97 ≤ x.toNat && x.toNat ≤ 122

/-- The class `[a-zA-Z]`. -/
def isLetter (x : Char) : Bool := isLower x || (65 ≤ x.toNat && x.toNat ≤ 90)

/-- The expression `\s+`. -/
def reSpaces1 : Regex := Regex.plus (.cls isSpace)

/-- The expression `\s*`. -/
def reSpaces : Regex := .star (.cls isSpace)

/-- The expression `(\$\d+)` as group `n`. -/
def reReg (n : Nat) : Regex := .group n (.seq (Regex.lit ['$']) (Regex.plus (.cls isDigit)))

/-- The expression `(-?\d+)` as group `n`. -/
def reImm (n : Nat) : Regex :=
  .group n (.seq (Regex.opt (Regex.lit ['-'])) (Regex.plus (.cls isDigit)))

/-- The expression `(\d+)` as group `n`. -/
def reNum (n : Nat) : Regex := .group n (Regex.plus (.cls isDigit))

/-- The expression `([a-zA-Z]+)` of `Live Migration/myvmm.cc`. -/
def opCodeRegexUpper : Regex := .group 1 (Regex.plus (.cls isLetter))

/-- The expression `([a-z]+)` of `Live Migration/server.cc` and `Snapshot/myvmm.cc`. -/
def opCodeRegexLower : Regex := .group 1 (Regex.plus (.cls isLower))

/-- The expression `li\s+(\$\d+)\s*,\s*(-?\d+)`. -/
def liRegex : Regex :=
  Regex.cat [Regex.lit "li".toList, reSpaces1, reReg 1, reSpaces, Regex.lit [','], reSpaces,
    reImm 2]

/-- The expression `OP\s+(\$\d+),\s*(\$\d+),\s*(\$\d+)` of `add`, `sub`, `mul`, `and`, `xor`. -/
def rrrRegex (op : Str) : Regex :=
  Regex.cat [Regex.lit op, reSpaces1, reReg 1, Regex.lit [','], reSpaces, reReg 2,
    Regex.lit [','], reSpaces, reReg 3]

/-- The expression `addi\s+(\$\d+),\s*(\$\d+),\s*(-?\d+)`. -/
def addiRegex : Regex :=
  Regex.cat [Regex.lit "addi".toList, reSpaces1, reReg 1, Regex.lit [','], reSpaces, reReg 2,
    Regex.lit [','], reSpaces, reImm 3]

/-- The expression `or\s+(\$\d+),\s*(\$\d+)(?:,\s*(\$\d+)|,\s*(-?\d+))`. -/
def orRegex : Regex :=
  Regex.cat [Regex.lit "or".toList, reSpaces1, reReg 1, Regex.lit [','], reSpaces, reReg 2,
    .alt (Regex.cat [Regex.lit [','], reSpaces, reReg 3])
      (Regex.cat [Regex.lit [','], reSpaces, reImm 4])]

/-- The expression `OP\s+(\$\d+),\s*(\$\d+),\s*(\d+)` of `sll` and `srl`. -/
def shiftRegex (op : Str) : Regex :=
  Regex.cat [Regex.lit op, reSpaces1, reReg 1, Regex.lit [','], reSpaces, reReg 2,
    Regex.lit [','], reSpaces, reNum 3]

/-- The expression `MIGRATE\s+(\d{1,3}(?:\.\d{1,3}){3})`. -/
def migrateRegex : Regex :=
  Regex.cat [Regex.lit "MIGRATE".toList, reSpaces1,
    .group 1 (Regex.cat [Regex.rep13 (.cls isDigit),
      .seq (Regex.lit ['.']) (Regex.rep13 (.cls isDigit)),
      .seq (Regex.lit ['.']) (Regex.rep13 (.cls isDigit)),
      .seq (Regex.lit ['.']) (Regex.rep13 (.cls isDigit))])]

/-! ## `std::stoi` and `std::to_string` -/

/-- The value of a string of decimal digits. -/
def digitsVal (ds : List Char) : Nat := ds.foldl (fun acc x => acc * 10 + (x.toNat - 48)) 0

/-- The function `std::stoi` (base 10): leading white space, an optional sign, then the longest
run of digits; `std::invalid_argument` without a digit, `std::out_of_range` outside `int`. -/
def stoi (s : Str) : Res Int :=
  let s := s.dropWhile isSpace
  let signed : Bool × Str :=
    match s with
    | '-' :: t => (true, t)
    | '+' :: t => (false, t)
    | _ => (false, s)
  let ds := signed.2.takeWhile isDigit
  if ds.isEmpty then .fault .invalidArgument
  else
    let v : Int := if signed.1 then -(digitsVal ds : Int) else (digitsVal ds : Int)
    if InI32 v then .ok v else .fault .outOfRange

/-- The decimal digits of a natural number; the first argument bounds the number of digits. -/
def natDigits : Nat → Nat → List Char
  | 0, _ => []
  | k + 1, n =>
    if n < 10 then [Char.ofNat (48 + n)]
    else natDigits k (n / 10) ++ [Char.ofNat (48 + n % 10)]

/-- The function `std::to_string(int)`. -/
def to_string (i : Int) : Str :=
  if i < 0 then '-' :: natDigits ((-i).toNat + 1) (-i).toNat
  else natDigits (i.toNat + 1) i.toNat

/-- The name `"$" + to_string(i)` of register `i`. -/
def regName (i : Nat) : Str := '$' :: to_string i

/-! ## The virtual machine -/

/-- What a virtual machine does to the outside world. -/
inductive Event where
  /-- the report of `dumpProcessorState`: one row `R<i>: <value>` per pair -/
  | dump (virtualMachineName : Str) (rows : List (Nat × Int))
  /-- the bytes `sendDataToIpAddress` writes to its connection to `ipAddress` -/
  | send (ipAddress : Str) (bytes : List Nat)
  /-- the bytes `createSnapshot` writes to the file `snapshotPath` -/
  | snapshot (snapshotPath : Str) (bytes : List Nat)
deriving DecidableEq

/-- The class `VirtualMachine`. The member `memory` is never used and is left out; the member
`shouldContinue` exists in the sender only; `out` lists the effects so far, oldest first. -/
structure VirtualMachine where
  programCounter : Int
  shouldContinue : Bool
  instructions : List Str
  virtualMachineExecSliceInInstructions : Int
  registers : RegistersMap
  out : List Event
deriving DecidableEq

/-- The constructor `VirtualMachine::VirtualMachine`, the same in the three programs. -/
def VirtualMachine.init : VirtualMachine where
  programCounter := 0
  shouldContinue := true
  instructions := []
  virtualMachineExecSliceInInstructions := 0
  registers :=
    (List.range 32).foldl (fun R i => RegistersMap.assign (regName i) 0 R)
      (RegistersMap.assign "$R0".toList 0 [])
  out := []

/-- The method `configureVirtualMachine`. -/
def VirtualMachine.configureVirtualMachine (vm : VirtualMachine)
    (execSliceInInstructions : Int) : VirtualMachine :=
  { vm with virtualMachineExecSliceInInstructions := execSliceInInstructions }

/-- The method `readAssemblyInstructions`, given the lines of the file (`none`: the file
cannot be opened). -/
def VirtualMachine.readAssemblyInstructions (vm : VirtualMachine)
    (file : Option (List Str)) : VirtualMachine :=
  match file with
  | none => vm
  | some lines => { vm with instructions := vm.instructions ++ lines }

/-- The statement `registers[rd] = registers[rs] OP registers[rt]`. -/
def binop (f : Int → Int → Int) (rd rs rt : Str) (R : RegistersMap) : RegistersMap :=
  let a := R.get rs
  let R := R.touch rs
  let b := R.get rt
  let R := R.touch rt
  R.assign rd (f a b)

/-- The statement `registers[rd] = registers[rs] OP immediate`. -/
def immop (f : Int → Int → Int) (rd rs : Str) (immediate : Int) (R : RegistersMap) :
    RegistersMap :=
  let a := R.get rs
  let R := R.touch rs
  R.assign rd (f a immediate)

/-- The operator `&` on `int32_t`. -/
def and32 (a b : Int) : Int := toI32 (toU32 a &&& toU32 b)

/-- The operator `|` on `int32_t`. -/
def or32 (a b : Int) : Int := toI32 (toU32 a ||| toU32 b)

/-- The operator `^` on `int32_t`. -/
def xor32 (a b : Int) : Int := toI32 (toU32 a ^^^ toU32 b)

/-- The operator `<<` on `int32_t`, for a count below 32. -/
def shl32 (a n : Int) : Int := wrap32 (a * 2 ^ n.toNat)

/-- The operator `>>` on `int32_t`, for a count below 32: the sign bit is shifted in. -/
def shr32 (a n : Int) : Int := a >>> n.toNat

/-- The branches `li` to `srl` of `executeAssemblyInstruction`, the same text in the three
programs: `none` when the opcode is none of theirs. -/
def executeArithmetic (opcode assemblyInstruction : Str) (registers : RegistersMap) :
    Option (Res RegistersMap) :=
  if opcode = "li".toList then
    let liMatch := regex_search liRegex assemblyInstruction
    let reg := liMatch.str 1
    some ((stoi (liMatch.str 2)).bind fun immediate => .ok (registers.assign reg immediate))
  else if opcode = "add".toList then
    let addMatch := regex_search (rrrRegex "add".toList) assemblyInstruction
    some (.ok (binop (fun a b => wrap32 (a + b)) (addMatch.str 1) (addMatch.str 2)
      (addMatch.str 3) registers))
  else if opcode = "addi".toList then
    let addiMatch := regex_search addiRegex assemblyInstruction
    let rt := addiMatch.str 1
    let rs := addiMatch.str 2
    some ((stoi (addiMatch.str 3)).bind fun immediate =>
      .ok (immop (fun a b => wrap32 (a + b)) rt rs immediate registers))
  else if opcode = "sub".toList then
    let subMatch := regex_search (rrrRegex "sub".toList) assemblyInstruction
    some (.ok (binop (fun a b => wrap32 (a - b)) (subMatch.str 1) (subMatch.str 2)
      (subMatch.str 3) registers))
  else if opcode = "mul".toList then
    let mulMatch := regex_search (rrrRegex "mul".toList) assemblyInstruction
    some (.ok (binop (fun a b => wrap32 (a * b)) (mulMatch.str 1) (mulMatch.str 2)
      (mulMatch.str 3) registers))
  else if opcode = "and".toList then
    let andMatch := regex_search (rrrRegex "and".toList) assemblyInstruction
    some (.ok (binop and32 (andMatch.str 1) (andMatch.str 2) (andMatch.str 3) registers))
  else if opcode = "or".toList then
    let orMatch := regex_search orRegex assemblyInstruction
    let rd := orMatch.str 1
    let rs := orMatch.str 2
    if orMatch.matched 3 then
      some (.ok (binop or32 rd rs (orMatch.str 3) registers))
    else if orMatch.matched 4 then
      some ((stoi (orMatch.str 4)).bind fun immediate =>
        .ok (immop or32 rd rs immediate registers))
    else some (.ok registers)
  else if opcode = "xor".toList then
    let xorMatch := regex_search (rrrRegex "xor".toList) assemblyInstruction
    some (.ok (binop xor32 (xorMatch.str 1) (xorMatch.str 2) (xorMatch.str 3) registers))
  else if opcode = "sll".toList then
    let sllMatch := regex_search (shiftRegex "sll".toList) assemblyInstruction
    let rd := sllMatch.str 1
    let rt := sllMatch.str 2
    some ((stoi (sllMatch.str 3)).bind fun shiftAmount =>
      if 32 ≤ shiftAmount then .fault .shiftCount
      else .ok (immop shl32 rd rt shiftAmount registers))
  else if opcode = "srl".toList then
    let srlMatch := regex_search (shiftRegex "srl".toList) assemblyInstruction
    let rd := srlMatch.str 1
    let rt := srlMatch.str 2
    some ((stoi (srlMatch.str 3)).bind fun shiftAmount =>
      if 32 ≤ shiftAmount then .fault .shiftCount
      else .ok (immop shr32 rd rt shiftAmount registers))
  else none

/-- The loop of `dumpProcessorState`, from register `i` on: the rows printed and the map after
the reads `registers[reg]`. -/
def dumpRows : Nat → Nat → RegistersMap → List (Nat × Int) × RegistersMap
  | 0, _, R => ([], R)
  | k + 1, i, R =>
    let v := R.get (regName i)
    let r := dumpRows k (i + 1) (R.touch (regName i))
    ((i, v) :: r.1, r.2)

/-- The method `dumpProcessorState`, the same in the three programs: `for (i = 1; i <= 31; ++i)`. -/
def VirtualMachine.dumpProcessorState (vm : VirtualMachine) (virtualMachineName : Str) :
    VirtualMachine :=
  let r := dumpRows 31 1 vm.registers
  { vm with registers := r.2, out := vm.out ++ [.dump virtualMachineName r.1] }

/-! ## Migration: the sender (`Live Migration/myvmm.cc`) -/

/-- The bytes `sendDataToIpAddress` writes to its socket for the serialized data: the length,
passed through `htonl`, as it lies in host memory, then the data. -/
def sendFrame (e : Endian) (serializedData : List Nat) : List Nat :=
  let dataSize := htonl e (serializedData.length % 4294967296)
  hostBytes e dataSize ++ serializedData

/-- The method `sendDataToIpAddress`, for a connection that is established: the bytes written
are recorded as a `send` event. -/
def VirtualMachine.sendDataToIpAddress (e : Endian) (vm : VirtualMachine) (ipAddress : Str)
    (registers : RegistersMap) (programCounter : Int) : VirtualMachine :=
  { vm with
    out := vm.out ++ [.send ipAddress (sendFrame e (serialize e registers programCounter))] }

namespace Sender

/-- The method `executeAssemblyInstruction` of `Live Migration/myvmm.cc`. -/
def executeAssemblyInstruction (e : Endian) (assemblyInstruction virtualMachineName : Str)
    (vm : VirtualMachine) : Res VirtualMachine :=
  let opcode := (regex_search opCodeRegexUpper assemblyInstruction).str 1
  match executeArithmetic opcode assemblyInstruction vm.registers with
  | some r => r.bind fun registers => .ok { vm with registers := registers }
  | none =>
    if opcode = "DUMP_PROCESSOR_STATE".toList then
      .ok (vm.dumpProcessorState virtualMachineName)
    else if opcode = "MIGRATE".toList then
      let ipAddress := (regex_search migrateRegex assemblyInstruction).str 1
      .ok (vm.sendDataToIpAddress e ipAddress vm.registers vm.programCounter)
    else .ok vm

/-- The index `programCounter - 1` of the halt check, converted to `size_t`. -/
def haltCheckIndex (programCounter : Int) : Nat := toSizeT (programCounter - 1)

/-- The read `instructions[programCounter - 1]`. When the index lies outside the vector the
read is undefined: `stray` is the string it yields, `none` when it traps. -/
def previousInstruction (stray : Option Str) (instructions : List Str) (programCounter : Int) :
    Option Str :=
  match instructions.get? (haltCheckIndex programCounter) with
  | some s => some s
  | none => stray

/-- The `while` loop of `executeAssemblyInstructions` of `Live Migration/myvmm.cc`, with the
local variable `counter`; the first argument bounds the number of iterations. -/
def executeLoop (e : Endian) (stray : Option Str) (virtualMachineName : Str) :
    Nat → Int → VirtualMachine → Res VirtualMachine
  | 0, counter, vm =>
    if toSizeT vm.programCounter < vm.instructions.length
        ∧ counter < vm.virtualMachineExecSliceInInstructions ∧ vm.shouldContinue = true then
      .fault .fuel
    else .ok vm
  | fuel + 1, counter, vm =>
    if toSizeT vm.programCounter < vm.instructions.length
        ∧ counter < vm.virtualMachineExecSliceInInstructions ∧ vm.shouldContinue = true then
      match previousInstruction stray vm.instructions vm.programCounter with
      | none => .fault .outOfBounds
      | some previous =>
        if previous.take 7 = "MIGRATE".toList then .ok { vm with shouldContinue := false }
        else
          match vm.instructions.get? (toSizeT vm.programCounter) with
          | none => .fault .outOfBounds
          | some instruction =>
            (executeAssemblyInstruction e instruction virtualMachineName vm).bind fun vm =>
              executeLoop e stray virtualMachineName fuel (counter + 1)
                { vm with programCounter := vm.programCounter + 1 }
    else .ok vm

/-- The method `executeAssemblyInstructions` of `Live Migration/myvmm.cc`. Every iteration
advances the program counter, so `instructions.size()` iterations are enough. -/
def executeAssemblyInstructions (e : Endian) (stray : Option Str) (virtualMachineName : Str)
    (vm : VirtualMachine) : Res VirtualMachine :=
  executeLoop e stray virtualMachineName vm.instructions.length 0 vm

/-- The run loop of `main` of `Live Migration/myvmm.cc`; the first argument bounds the number
of slices. -/
def runLoop (e : Endian) (stray : Option Str) : Nat → VirtualMachine → Res VirtualMachine
  | 0, vm =>
    if toSizeT vm.programCounter < vm.instructions.length ∧ vm.shouldContinue = true then
      .fault .fuel
    else .ok vm
  | fuel + 1, vm =>
    if toSizeT vm.programCounter < vm.instructions.length ∧ vm.shouldContinue = true then
      (executeAssemblyInstructions e stray "Local Machine".toList vm).bind (runLoop e stray fuel)
    else .ok vm

/-- The function `main` of `Live Migration/myvmm.cc` from the configuration on: the slice and
the lines of the binary are what the configuration file gives. -/
def main (e : Endian) (stray : Option Str) (fuel : Nat) (execSlice : Int)
    (binary : Option (List Str)) : Res VirtualMachine :=
  let vm := (VirtualMachine.init.configureVirtualMachine execSlice).readAssemblyInstructions binary
  (runLoop e stray fuel vm).bind fun vm => .ok (vm.dumpProcessorState "Local Machine".toList)

end Sender

/-! ## Migration: the receiver (`Live Migration/server.cc`) and the shared slice loop -/

/-- The `while` loop of `executeAssemblyInstructions` of `Live Migration/server.cc` and
`Snapshot/myvmm.cc` (the same text), over the method `exec` that runs one instruction; the
first argument bounds the number of iterations. -/
def sliceLoop (exec : Str → VirtualMachine → Res VirtualMachine) :
    Nat → Int → VirtualMachine → Res VirtualMachine
  | 0, counter, vm =>
    if toSizeT vm.programCounter < vm.instructions.length
        ∧ counter < vm.virtualMachineExecSliceInInstructions then
      .fault .fuel
    else .ok vm
  | fuel + 1, counter, vm =>
    if toSizeT vm.programCounter < vm.instructions.length
        ∧ counter < vm.virtualMachineExecSliceInInstructions then
      match vm.instructions.get? (toSizeT vm.programCounter) with
      | none => .fault .outOfBounds
      | some instruction =>
        (exec instruction vm).bind fun vm =>
          sliceLoop exec fuel (counter + 1) { vm with programCounter := vm.programCounter + 1 }
    else .ok vm

namespace Server

/-- The method `setRegisters`. -/
def setRegisters (vm : VirtualMachine) (new_registers : RegistersMap) : VirtualMachine :=
  { vm with registers := new_registers }

/-- The method `executeAssemblyInstruction` of `Live Migration/server.cc`. -/
def executeAssemblyInstruction (assemblyInstruction virtualMachineName : Str)
    (vm : VirtualMachine) : Res VirtualMachine :=
  let opcode := (regex_search opCodeRegexLower assemblyInstruction).str 1
  match executeArithmetic opcode assemblyInstruction vm.registers with
  | some r => r.bind fun registers => .ok { vm with registers := registers }
  | none =>
    if opcode = "DUMP_PROCESSOR_STATE".toList then
      .ok (vm.dumpProcessorState virtualMachineName)
    else .ok vm

/-- The method `executeAssemblyInstructions` of `Live Migration/server.cc`. -/
def executeAssemblyInstructions (virtualMachineName : Str) (vm : VirtualMachine) :
    Res VirtualMachine :=
  sliceLoop (fun i v => executeAssemblyInstruction i virtualMachineName v)
    vm.instructions.length 0 vm

/-- The two reads of `main` from the accepted connection: the length, passed through `ntohl`,
then that many bytes. -/
def recvFrame (e : Endian) (stream : List Nat) : Res (List Nat) :=
  if stream.length < 4 then .fault .endOfStream
  else
    let dataSize := ntohl e (ofHostBytes e (stream.take 4))
    let rest := stream.drop 4
    if rest.length < dataSize then .fault .endOfStream
    else .ok (rest.take dataSize)

/-- The part of `main` that receives the state: read, `deserialize`, `setRegisters`, and
`programCounter = receivedData.second + 1`. -/
def receive (e : Endian) (stream : List Nat) (vm : VirtualMachine) : Res VirtualMachine :=
  (recvFrame e stream).bind fun serializedData =>
    (deserialize e serializedData).bind fun receivedData =>
      .ok { setRegisters vm receivedData.1 with programCounter := wrap32 (receivedData.2 + 1) }

/-- The run loop of `main` of `Live Migration/server.cc`; the first argument bounds the number
of slices. -/
def runLoop : Nat → VirtualMachine → Res VirtualMachine
  | 0, vm =>
    if toSizeT vm.programCounter < vm.instructions.length then .fault .fuel else .ok vm
  | fuel + 1, vm =>
    if toSizeT vm.programCounter < vm.instructions.length then
      (executeAssemblyInstructions "Remote Machine".toList vm).bind (runLoop fuel)
    else .ok vm

/-- The function `main` of `Live Migration/server.cc` from the accepted connection on. -/
def main (e : Endian) (fuel : Nat) (stream : List Nat) (execSlice : Int)
    (binary : Option (List Str)) : Res VirtualMachine :=
  (receive e stream VirtualMachine.init).bind fun vm =>
    let vm := (vm.configureVirtualMachine execSlice).readAssemblyInstructions binary
    (runLoop fuel vm).bind fun vm => .ok (vm.dumpProcessorState "Remote Machine".toList)

end Server

/-! ## Snapshots and the scheduler (`Snapshot/myvmm.cc`) -/

namespace Snapshot

/-- The loop of `createSnapshot`, from register `i` on: the bytes written and the map after the
reads `registers[regName]`. -/
def writeLoop (e : Endian) : Nat → Nat → RegistersMap → List Nat × RegistersMap
  | 0, _, R => ([], R)
  | k + 1, i, R =>
    let bytes := int32Bytes e (R.get (regName i))
    let r := writeLoop e k (i + 1) (R.touch (regName i))
    (bytes ++ r.1, r.2)

/-- The method `createSnapshot`, for a file that can be opened: the bytes written are recorded
as a `snapshot` event. -/
def createSnapshot (e : Endian) (vm : VirtualMachine) (snapshotPath : Str) : VirtualMachine :=
  let r := writeLoop e 32 0 vm.registers
  { vm with registers := r.2, out := vm.out ++ [.snapshot snapshotPath r.1] }

/-- The loop of `loadSnapshot`, from register `i` on. The stream is `none` once a read has
failed; a read that finds fewer than four bytes stores the bytes it finds over the first bytes
of the register and fails. -/
def readLoop (e : Endian) : Nat → Nat → Option (List Nat) → RegistersMap → RegistersMap
  | 0, _, _, R => R
  | k + 1, i, stream, R =>
    let R := R.touch (regName i)
    match stream with
    | none => readLoop e k (i + 1) none R
    | some bytes =>
      if 4 ≤ bytes.length then
        readLoop e k (i + 1) (some (bytes.drop 4))
          (R.assign (regName i) (toI32 (ofHostBytes e (bytes.take 4))))
      else if bytes.isEmpty then readLoop e k (i + 1) none R
      else
        let old := int32Bytes e (R.get (regName i))
        readLoop e k (i + 1) none
          (R.assign (regName i) (toI32 (ofHostBytes e (bytes ++ old.drop bytes.length))))

/-- The method `loadSnapshot`, given the content of the file (`none`: the file cannot be
opened). -/
def loadSnapshot (e : Endian) (vm : VirtualMachine) (file : Option (List Nat)) :
    VirtualMachine :=
  match file with
  | none => vm
  | some bytes => { vm with registers := readLoop e 32 0 (some bytes) vm.registers }

/-- The expression `assemblyInstruction.substr(assemblyInstruction.find(' ') + 1)`. -/
def afterFirstSpace (s : Str) : Str :=
  match s.dropWhile (fun x => x != ' ') with
  | [] => s
  | _ :: t => t

/-- The method `executeAssemblyInstruction` of `Snapshot/myvmm.cc`. The match of
`SNAPSHOT\s+(\S+)` in its `snapshot` branch is never used and is left out. -/
def executeAssemblyInstruction (e : Endian) (assemblyInstruction virtualMachineName : Str)
    (vm : VirtualMachine) : Res VirtualMachine :=
  let opcode := (regex_search opCodeRegexLower assemblyInstruction).str 1
  match executeArithmetic opcode assemblyInstruction vm.registers with
  | some r => r.bind fun registers => .ok { vm with registers := registers }
  | none =>
    if opcode = "snapshot".toList then
      let snapshotPath := afterFirstSpace assemblyInstruction
      .ok (createSnapshot e vm snapshotPath)
    else if opcode = "DUMP_PROCESSOR_STATE".toList then
      .ok (vm.dumpProcessorState virtualMachineName)
    else .ok vm

/-- The method `executeAssemblyInstructions` of `Snapshot/myvmm.cc`. -/
def executeAssemblyInstructions (e : Endian) (virtualMachineName : Str) (vm : VirtualMachine) :
    Res VirtualMachine :=
  sliceLoop (fun i v => executeAssemblyInstruction e i virtualMachineName v)
    vm.instructions.length 0 vm

end Snapshot

/-! ## The layouts the specification describes -/

/-- The bytes of one register entry of the migration buffer, as the specification describes
them: the 4-byte length of the name, the bytes of the name, the 4-byte value. -/
def entryBytes (e : Endian) (reg : Str × Int) : List Nat :=
  int32Bytes e reg.1.length ++ reg.1.map Char.toNat ++ int32Bytes e reg.2

/-- The migration buffer as the specification describes it: the 4-byte program counter, then
the entries of the map in its iteration order. -/
def migrationLayout (e : Endian) (registers : RegistersMap) (programCounter : Int) : List Nat :=
  int32Bytes e programCounter ++ registers.flatMap (entryBytes e)

/-! ## Vocabulary of the statements -/

/-- The text of a natural number in decimal: digits only, at least one. -/
def IsDigits (ds : List Char) : Prop := ds ≠ [] ∧ ∀ x ∈ ds, isDigit x = true

/-- White space between the parts of an instruction: characters of the class `\s` only. -/
def IsBlank (w : List Char) : Prop := ∀ x ∈ w, isSpace x = true

/-- The expression matches the text `t` in front of `rest` with its first way to match, and
turns the sub-matches `c` into `c'`. -/
def Regex.Matches (re : Regex) (t rest : Str) (c c' : Caps) : Prop :=
  (re.run (t ++ rest) c).head? = some (rest, c')

/-- The text `rest` does not start with a character of the class `p`. -/
def NotFirst (p : Char → Bool) (rest : Str) : Prop := ∀ x, rest.head? = some x → p x = false

/-- The instruction `li Rd, imm`, with white space `w1` (not empty), `w2`, `w3` where the
expression of `li` allows it. -/
def liLine (w1 w2 w3 : Str) (d : Nat) (imm : Int) : Str :=
  "li".toList ++ (w1 ++ (regName d ++ (w2 ++ ([','] ++ (w3 ++ to_string imm)))))

/-- The instruction `OP Rd, Rs, Rt`, with white space `w1` (not empty), `w2`, `w3`. -/
def rrrLine (op w1 w2 w3 : Str) (d s t : Nat) : Str :=
  op ++ (w1 ++ (regName d ++ ([','] ++ (w2 ++ (regName s ++ ([','] ++ (w3 ++ regName t)))))))

/-- The instruction `OP Rd, Rs, imm`, with white space `w1` (not empty), `w2`, `w3`. -/
def rriLine (op w1 w2 w3 : Str) (d s : Nat) (imm : Int) : Str :=
  op ++ (w1 ++ (regName d ++ ([','] ++ (w2 ++ (regName s ++ ([','] ++ (w3 ++ to_string imm)))))))

/-- One part of a dotted address: one to three digits. -/
def IsOctet (o : List Char) : Prop := IsDigits o ∧ o.length ≤ 3

/-- The text of an IPv4 address with the parts `o1` to `o4`. -/
def ipText (o1 o2 o3 o4 : Str) : Str :=
  o1 ++ ((['.'] ++ o2) ++ ((['.'] ++ o3) ++ (['.'] ++ o4)))

/-- The instruction `MIGRATE <ipv4>`, with white space `w` (not empty) behind the opcode. -/
def migrateLine (w o1 o2 o3 o4 : Str) : Str :=
  "MIGRATE".toList ++ (w ++ ipText o1 o2 o3 o4)

instance (ds : List Char) : Decidable (IsDigits ds) := by unfold IsDigits; infer_instance

instance (w : List Char) : Decidable (IsBlank w) := by unfold IsBlank; infer_instance

instance (o : List Char) : Decidable (IsOctet o) := by unfold IsOctet; infer_instance

/-- The run `res` of one instruction on `vm` ends normally, sets register `rd` to `v`, and
leaves every other register and every other member of the machine as it was. -/
def SetsOnly (vm : VirtualMachine) (res : Res VirtualMachine) (rd : Str) (v : Int) : Prop :=
  ∃ R' : RegistersMap, res = .ok { vm with registers := R' } ∧ R'.get rd = v
    ∧ ∀ n, n ≠ rd → R'.get n = vm.registers.get n

/-- The migration buffer with every 4-byte field in network byte order (most significant
byte first), whatever the host. -/
def networkLayout (registers : RegistersMap) (programCounter : Int) : List Nat :=
  beBytes (toU32 programCounter) ++ registers.flatMap (fun reg =>
    beBytes (toU32 reg.1.length) ++ reg.1.map Char.toNat ++ beBytes (toU32 reg.2))

/-! ## Machines used in the examples -/

/-- A fresh machine in which `$3 = 5` and `$4 = 7`. -/
def exampleArith : VirtualMachine :=
  { VirtualMachine.init with
    registers := RegistersMap.assign (regName 4) 7
      (RegistersMap.assign (regName 3) 5 VirtualMachine.init.registers) }

/-- A fresh machine in which `$3 = -2`. -/
def exampleShift : VirtualMachine :=
  { VirtualMachine.init with
    registers := RegistersMap.assign (regName 3) (-2) VirtualMachine.init.registers }

/-- A program whose instruction at index 3 is `MIGRATE 127.0.0.1`. -/
def exampleProgram : List Str :=
  ["li $1, 42".toList, "li $2, 20".toList, "add $3, $1, $2".toList,
    "MIGRATE 127.0.0.1".toList, "li $5, 9".toList, "DUMP_PROCESSOR_STATE".toList]

/-- The sender about to run the instruction at index 3 of `exampleProgram`, with `$1 = 42`. -/
def exampleSource : VirtualMachine :=
  { VirtualMachine.init with
    programCounter := 3
    instructions := exampleProgram
    virtualMachineExecSliceInInstructions := 2
    registers := RegistersMap.assign (regName 3) 62 (RegistersMap.assign (regName 2) 20
      (RegistersMap.assign (regName 1) 42 VirtualMachine.init.registers)) }

/-- A register file filled in the order `$2`, `$10`, `$1`. -/
def exampleRegisters : RegistersMap :=
  RegistersMap.assign "$1".toList 42
    (RegistersMap.assign "$10".toList (-1) (RegistersMap.assign "$2".toList 7 []))

/-- A program whose instruction at index 1 is `MIGRATE 127.0.0.1`. -/
def exampleShort : List Str :=
  ["li $1, 42".toList, "MIGRATE 127.0.0.1".toList, "li $2, 7".toList]

/-! ## The scheduler of `Snapshot/myvmm.cc` -/

namespace Snapshot

/-- One turn in the report of the scheduler (`Context Switch to Virtual Machine n`, then the
program counter before and after the slice). -/
inductive Turn where
  | vm1 (before after : Int)
  | vm2 (before after : Int)
deriving DecidableEq

/-- The two machines of `main` and the report printed so far, oldest turn first. -/
structure Machines where
  virtual_machine_1 : VirtualMachine
  virtual_machine_2 : VirtualMachine
  log : List Turn
deriving DecidableEq

/-- The test `programCounter < instructions.size()` of `main`. -/
def runnable (vm : VirtualMachine) : Bool :=
  decide (toSizeT vm.programCounter < vm.instructions.length)

/-- The body of the scheduler loop of `main`: a slice of machine 1 if it can run, then a slice
of machine 2 if it can run. -/
def round (e : Endian) (s : Machines) : Res Machines :=
  (if runnable s.virtual_machine_1 then
      (executeAssemblyInstructions e "Virtual Machine 1".toList s.virtual_machine_1).bind
        fun vm => .ok { s with
          virtual_machine_1 := vm
          log := s.log ++ [.vm1 s.virtual_machine_1.programCounter vm.programCounter] }
    else .ok s).bind fun s =>
  if runnable s.virtual_machine_2 then
    (executeAssemblyInstructions e "Virtual Machine 2".toList s.virtual_machine_2).bind
      fun vm => .ok { s with
        virtual_machine_2 := vm
        log := s.log ++ [.vm2 s.virtual_machine_2.programCounter vm.programCounter] }
  else .ok s

/-- The scheduler loop of `main`; the first argument bounds the number of rounds. -/
def schedulerLoop (e : Endian) : Nat → Machines → Res Machines
  | 0, s =>
    if runnable s.virtual_machine_1 ∨ runnable s.virtual_machine_2 then .fault .fuel
    else .ok s
  | fuel + 1, s =>
    if runnable s.virtual_machine_1 ∨ runnable s.virtual_machine_2 then
      (round e s).bind (schedulerLoop e fuel)
    else .ok s

end Snapshot

/-! ## Vocabulary of the statements about slices and the scheduler -/

/-- The instructions of a list run one after the other by `exec`, the program counter advanced
by one after each. -/
def runList (exec : Str → VirtualMachine → Res VirtualMachine) :
    List Str → VirtualMachine → Res VirtualMachine
  | [], vm => .ok vm
  | i :: rest, vm =>
    (exec i vm).bind fun vm =>
      runList exec rest { vm with programCounter := vm.programCounter + 1 }

/-- Every instruction of the list ends normally on every machine (none makes `stoi` throw, none
shifts by 32 or more). -/
def NoFault (exec : Str → VirtualMachine → Res VirtualMachine) (l : List Str) : Prop :=
  ∀ i ∈ l, ∀ v, ∃ v', exec i v = .ok v'

/-- The number of slices of `s` instructions that `n` instructions take: `n / s` rounded up. -/
def turnsNeeded (n s : Nat) : Nat := (n + s - 1) / s

/-- The turns of round `r` (counted from 0) for programs of `n1` and `n2` instructions and
slices `s1` and `s2`: machine 1 first, each machine only while it has turns left. -/
def roundLog (n1 s1 n2 s2 r : Nat) : List Snapshot.Turn :=
  (if r < turnsNeeded n1 s1 then
      [Snapshot.Turn.vm1 ((r * s1 : Nat) : Int) ((min ((r + 1) * s1) n1 : Nat) : Int)]
    else [])
  ++ (if r < turnsNeeded n2 s2 then
      [Snapshot.Turn.vm2 ((r * s2 : Nat) : Int) ((min ((r + 1) * s2) n2 : Nat) : Int)]
    else [])

/-- The turns of `m` rounds from round `r` on. -/
def roundsFrom (n1 s1 n2 s2 : Nat) : Nat → Nat → List Snapshot.Turn
  | 0, _ => []
  | m + 1, r => roundLog n1 s1 n2 s2 r ++ roundsFrom n1 s1 n2 s2 m (r + 1)

/-- The whole schedule: as many rounds as the machine with more turns needs. -/
def expectedLog (n1 s1 n2 s2 : Nat) : List Snapshot.Turn :=
  roundsFrom n1 s1 n2 s2 (max (turnsNeeded n1 s1) (turnsNeeded n2 s2)) 0

/-- The opcodes of the branches `li` to `srl`. -/
def arithmeticOpcodes : List Str :=
  ["li".toList, "add".toList, "addi".toList, "sub".toList, "mul".toList, "and".toList,
    "or".toList, "xor".toList, "sll".toList, "srl".toList]

/-- The rows `(1, $1), ..., (31, $31)` of a register dump. -/
def dumpTable (R : RegistersMap) : List (Nat × Int) :=
  (List.range 31).map (fun j => (j + 1, R.get (regName (j + 1))))

/-- A program of four instructions that ends with `DUMP_PROCESSOR_STATE`. -/
def exampleSum : List Str :=
  ["li $1,10".toList, "li $2,20".toList, "add $3,$1,$2".toList, "DUMP_PROCESSOR_STATE".toList]

/-- A fresh machine with the program `lines` and the slice `s`. -/
def freshMachine (s : Int) (lines : List Str) : VirtualMachine :=
  (VirtualMachine.init.configureVirtualMachine s).readAssemblyInstructions (some lines)

/-- A fresh machine in which `$3 = 1` and `$4 = 3`. -/
def exampleBits : VirtualMachine :=
  { VirtualMachine.init with
    registers := RegistersMap.assign (regName 4) 3
      (RegistersMap.assign (regName 3) 1 VirtualMachine.init.registers) }

/-- The strings the opcode is compared with in `Snapshot/myvmm.cc`. -/
def Snapshot.knownOpcodes : List Str :=
  arithmeticOpcodes ++ ["snapshot".toList, "DUMP_PROCESSOR_STATE".toList]

/-- The strings the opcode is compared with in `Live Migration/myvmm.cc`. -/
def Sender.knownOpcodes : List Str :=
  arithmeticOpcodes ++ ["DUMP_PROCESSOR_STATE".toList, "MIGRATE".toList]

/-- The strings the opcode is compared with in `Live Migration/server.cc`. -/
def Server.knownOpcodes : List Str :=
  arithmeticOpcodes ++ ["DUMP_PROCESSOR_STATE".toList]

/-- The run `res` of one instruction on `vm` ends normally, leaves register `rd` with the value
`v`, leaves an entry for every register of `sources` in the register file, and changes no other
member of the machine. -/
def WritesAndCreates (vm : VirtualMachine) (res : Res VirtualMachine) (rd : Str) (v : Int)
    (sources : List Str) : Prop :=
  ∃ R' : RegistersMap, res = .ok { vm with registers := R' } ∧ R'.find rd = some v
    ∧ ∀ k ∈ sources, (R'.find k).isSome = true

/-- The method `exec` that runs one instruction leaves the program counter, the instructions and
the slice of the machine as they are. -/
def KeepsControl (exec : Str → VirtualMachine → Res VirtualMachine) : Prop :=
  ∀ i v v', exec i v = .ok v' →
    v'.programCounter = v.programCounter ∧ v'.instructions = v.instructions
      ∧ v'.virtualMachineExecSliceInInstructions = v.virtualMachineExecSliceInInstructions

/-- A machine of the snapshot program that the scheduler can run: its program has `n`
instructions, all of which end normally on every machine, its slice is `s`, at least 1, and its
program counter is `k`, within the program. -/
def Snapshot.Ready (e : Endian) (name : Str) (vm : VirtualMachine) (n s k : Nat) : Prop :=
  vm.instructions.length = n ∧ n < 2147483648
    ∧ vm.virtualMachineExecSliceInInstructions = (s : Int) ∧ 1 ≤ s
    ∧ vm.programCounter = (k : Int) ∧ k ≤ n
    ∧ NoFault (fun i v => Snapshot.executeAssemblyInstruction e i name v) vm.instructions

/-- A program of `n` instructions `li $1, 7`. -/
def exampleLoads (n : Nat) : List Str := List.replicate n (liLine [' '] [] [' '] 1 7)

/-- The program counter after a round of a machine with `n` instructions and slice `s` that had
the counter `k`. -/
def Snapshot.nextCounter (n s k : Nat) : Nat := if k < n then min (k + s) n else k

/-- The machine a turn of the report belongs to. -/
def Snapshot.Turn.machine : Snapshot.Turn → Nat
  | .vm1 _ _ => 1
  | .vm2 _ _ => 2

/-- The turns of machine `i` in a report. -/
def Snapshot.turnsOf (i : Nat) (log : List Snapshot.Turn) : List Snapshot.Turn :=
  log.filter (fun t => t.machine == i)

/-- The two machines of the fairness scenario: programs of 10 and 3 instructions, slice 2. -/
def exampleMachines : Snapshot.Machines :=
  { virtual_machine_1 := freshMachine 2 (exampleLoads 10)
    virtual_machine_2 := freshMachine 2 (exampleLoads 3)
    log := [] }


/-! ## The set-up of a machine in `main` of `Snapshot/myvmm.cc` -/

namespace Snapshot

/-- The set-up of one machine in `main`: the constructor, `configureVirtualMachine`, then the
test of the snapshot file. `snapshotFile` is the content of the file (`none`: it cannot be
opened), `binary` the lines of the file named by `vm_binary`. -/
def setUp (e : Endian) (execSlice : Int) (snapshotFile : Option (List Nat))
    (binary : Option (List Str)) : VirtualMachine :=
  let vm := VirtualMachine.init.configureVirtualMachine execSlice
  match snapshotFile with
  | some bytes =>
    if bytes.length = 0 then vm
    else (loadSnapshot e vm (some bytes)).readAssemblyInstructions binary
  | none => vm.readAssemblyInstructions binary

/-- The body of the scheduler loop run `n` times. -/
def rounds (e : Endian) : Nat → Machines → Res Machines
  | 0, s => .ok s
  | n + 1, s => (round e s).bind (rounds e n)

end Snapshot

/-! ## Vocabulary of the statements about the sender -/

/-- The halt check of the sender on a line: its first seven characters are `MIGRATE`. -/
def BeginsWithMigrate (x : Str) : Prop := x.take 7 = "MIGRATE".toList

instance (x : Str) : Decidable (BeginsWithMigrate x) := by
  unfold BeginsWithMigrate; infer_instance

/-- The dispatch of the sender on a line: the opcode found in it is `MIGRATE`. -/
def DispatchesMigrate (x : Str) : Prop :=
  (regex_search opCodeRegexUpper x).str 1 = "MIGRATE".toList

instance (x : Str) : Decidable (DispatchesMigrate x) := by
  unfold DispatchesMigrate; infer_instance

/-- The sender's machine once its run has stopped behind the instruction at index `k`:
`shouldContinue` is false, unless the program ends with that instruction. -/
def Sender.stopped (k : Nat) (v : VirtualMachine) : VirtualMachine :=
  { v with shouldContinue := decide (v.instructions.length ≤ k + 1) }

/-- A program whose first instruction is `MIGRATE 10.0.0.2` behind a blank. -/
def exampleIndented : List Str :=
  [" MIGRATE 10.0.0.2".toList, "li $1, 5".toList]

/-- A program whose instruction at index 1 starts with `MIGRATE` and has the opcode
`MIGRATEX`. -/
def exampleLongOpcode : List Str :=
  ["li $1, 5".toList, "MIGRATEX 10.0.0.2".toList, "li $2, 7".toList]


/-! # Theorems -/

set_option maxRecDepth 100000

set_option maxHeartbeats 4000000

open Regex

/-! ## Machine integers and bytes -/

theorem toU32_lt (v : Int) : toU32 v < 4294967296 := by
  unfold toU32; omega

theorem toU32_of_nonneg (v : Int) (h0 : 0 ≤ v) (h1 : v < 4294967296) : toU32 v = v.toNat := by
  unfold toU32; omega

theorem toI32_toU32 (v : Int) (h : InI32 v) : toI32 (toU32 v) = v := by
  unfold InI32 at h
  unfold toI32 toU32
  split <;> omega

theorem wrap32_of_inI32 (v : Int) (h : InI32 v) : wrap32 v = v := toI32_toU32 v h

theorem inI32_toI32 (u : Nat) : InI32 (toI32 u) := by
  unfold InI32 toI32
  split <;> omega

theorem inI32_wrap32 (v : Int) : InI32 (wrap32 v) := inI32_toI32 _

theorem hostBytes_length (e : Endian) (u : Nat) : (hostBytes e u).length = 4 := by
  cases e <;> rfl

theorem int32Bytes_length (e : Endian) (v : Int) : (int32Bytes e v).length = 4 :=
  hostBytes_length e _

theorem ofHostBytes_hostBytes (e : Endian) (u : Nat) (h : u < 4294967296) :
    ofHostBytes e (hostBytes e u) = u := by
  cases e <;> simp only [hostBytes, leBytes, beBytes, ofHostBytes] <;> omega

theorem toI32_ofHostBytes_int32Bytes (e : Endian) (v : Int) (h : InI32 v) :
    toI32 (ofHostBytes e (int32Bytes e v)) = v := by
  unfold int32Bytes
  rw [ofHostBytes_hostBytes e _ (toU32_lt v), toI32_toU32 v h]

theorem leBytes_pack (a b c d : Nat) (ha : a < 256) (hb : b < 256) (hc : c < 256)
    (hd : d < 256) : leBytes (a + 256 * b + 65536 * c + 16777216 * d) = [a, b, c, d] := by
  simp only [leBytes, List.cons.injEq, and_true]
  refine ⟨?_, ?_, ?_, ?_⟩ <;> omega

theorem beBytes_pack (a b c d : Nat) (ha : a < 256) (hb : b < 256) (hc : c < 256)
    (hd : d < 256) : beBytes (a + 256 * b + 65536 * c + 16777216 * d) = [d, c, b, a] := by
  simp only [beBytes, List.cons.injEq, and_true]
  refine ⟨?_, ?_, ?_, ?_⟩ <;> omega

theorem hostBytes_htonl (e : Endian) (u : Nat) : hostBytes e (htonl e u) = beBytes u := by
  cases e
  · simp only [hostBytes, htonl, ofHostBytes, beBytes]
    exact leBytes_pack _ _ _ _ (Nat.mod_lt _ (by decide)) (Nat.mod_lt _ (by decide))
      (Nat.mod_lt _ (by decide)) (Nat.mod_lt _ (by decide))
  · simp only [hostBytes, htonl, ofHostBytes, beBytes, List.cons.injEq, and_true]
    refine ⟨?_, ?_, ?_, ?_⟩ <;> omega

theorem ntohl_htonl (e : Endian) (u : Nat) (h : u < 4294967296) :
    ntohl e (htonl e u) = u := by
  unfold ntohl
  rw [hostBytes_htonl e u]
  simp only [beBytes]
  omega

/-! ## The migration codec -/

theorem memcpy_fill (pre src : List Nat) (n : Nat) (h : src.length ≤ n) :
    memcpy (pre ++ List.replicate n 0) pre.length src
      = pre ++ src ++ List.replicate (n - src.length) 0 := by
  unfold memcpy
  have h1 : List.take pre.length (pre ++ List.replicate n 0) = pre := List.take_left _ _
  have h2 : List.drop (pre.length + src.length) (pre ++ List.replicate n 0)
      = List.replicate (n - src.length) 0 := by
    rw [List.drop_append]
    simp
  rw [h1, h2]
  apply List.take_of_length_le
  simp
  omega

theorem entryBytes_length (e : Endian) (reg : Str × Int) :
    (entryBytes e reg).length = 8 + reg.1.length := by
  simp [entryBytes, int32Bytes_length]
  omega

/-- The sum of the sizes of the entries of a register file. -/
theorem flatMap_entryBytes_length (e : Endian) (R : RegistersMap) :
    (R.flatMap (entryBytes e)).length = (R.map (fun reg => 8 + reg.1.length)).sum := by
  induction R with
  | nil => rfl
  | cons r R ih => simp [List.flatMap_cons, entryBytes_length, ih]

theorem totalSize_eq (R : RegistersMap) :
    totalSize R = 4 + (R.map (fun reg => 8 + reg.1.length)).sum := by
  unfold totalSize
  suffices h : ∀ (a : Nat),
      List.foldl (fun acc (reg : Str × Int) => acc + (4 + reg.1.length + 4)) a R
      = a + (R.map (fun reg => 8 + reg.1.length)).sum from h 4
  induction R with
  | nil => intro a; simp
  | cons r R ih => intro a; simp only [List.foldl_cons, ih, List.map_cons, List.sum_cons]; omega

theorem serializeLoop_fill (e : Endian) (R : RegistersMap)
    (hk : ∀ x ∈ R, x.1.length < 2147483648) (pre : List Nat) (extra : Nat) :
    serializeLoop e R
        (pre ++ List.replicate ((R.map (fun reg => 8 + reg.1.length)).sum + extra) 0) pre.length
      = pre ++ R.flatMap (entryBytes e) ++ List.replicate extra 0 := by
  induction R generalizing pre with
  | nil => simp [serializeLoop]
  | cons r R ih =>
    have hr : r.1.length < 2147483648 := hk r (List.mem_cons_self _ _)
    have hw : wrap32 (r.1.length : Int) = (r.1.length : Int) :=
      wrap32_of_inI32 _ (by unfold InI32; omega)
    have hs : toSizeT (r.1.length : Int) = r.1.length := by unfold toSizeT; omega
    simp only [serializeLoop, hw, hs, List.take_length]
    rw [memcpy_fill pre _ _ (by simp [int32Bytes_length]; omega)]
    have e1 : pre.length + 4 = (pre ++ int32Bytes e (r.1.length : Int)).length := by
      simp [int32Bytes_length]
    rw [e1, memcpy_fill _ _ _ (by simp [int32Bytes_length]; omega)]
    have e2 : (pre ++ int32Bytes e (r.1.length : Int)).length + r.1.length
        = (pre ++ int32Bytes e (r.1.length : Int) ++ r.1.map Char.toNat).length := by
      simp [Nat.add_assoc]
    rw [e2, memcpy_fill _ _ _ (by simp [int32Bytes_length]; omega)]
    have e3 : (pre ++ int32Bytes e (r.1.length : Int) ++ r.1.map Char.toNat).length + 4
        = (pre ++ entryBytes e r).length := by
      simp [entryBytes, int32Bytes_length, Nat.add_assoc]
    have e4 : pre ++ int32Bytes e (r.1.length : Int) ++ r.1.map Char.toNat ++ int32Bytes e r.2
        = pre ++ entryBytes e r := by simp [entryBytes]
    have e5 : (List.map (fun reg => 8 + reg.1.length) (r :: R)).sum + extra
          - (int32Bytes e (r.1.length : Int)).length - (r.1.map Char.toNat).length
          - (int32Bytes e r.2).length
        = (R.map (fun reg => 8 + reg.1.length)).sum + extra := by
      simp [int32Bytes_length]
      omega
    rw [e3, e4, e5, ih (fun x hx => hk x (List.mem_cons_of_mem _ hx))]
    simp [List.flatMap_cons]

theorem serialize_eq_layout (e : Endian) (R : RegistersMap) (p : Int)
    (hk : ∀ x ∈ R, x.1.length < 2147483648) :
    serialize e R p = migrationLayout e R p := by
  unfold serialize migrationLayout
  simp only [totalSize_eq]
  have h0 := memcpy_fill [] (int32Bytes e p) (4 + (R.map (fun reg => 8 + reg.1.length)).sum)
    (by simp [int32Bytes_length])
  simp only [List.nil_append, List.length_nil] at h0
  rw [h0]
  have h1 := serializeLoop_fill e R hk (int32Bytes e p) 0
  simp only [int32Bytes_length, Nat.add_zero, List.replicate_zero, List.append_nil] at h1
  simp only [int32Bytes_length, Nat.add_sub_cancel_left]
  exact h1

theorem slice_at (pre a post : List Nat) :
    ((pre ++ a ++ post).drop pre.length).take a.length = a := by
  rw [List.append_assoc, List.drop_left, List.take_left]

theorem read4_at (pre a post : List Nat) (ha : a.length = 4) :
    read4 (pre ++ a ++ post) pre.length = some a := by
  unfold read4
  rw [if_pos (by simp; omega)]
  have := slice_at pre a post
  rw [ha] at this
  rw [this]

theorem map_ofNat_toNat (k : Str) : (k.map Char.toNat).map Char.ofNat = k := by
  induction k with
  | nil => rfl
  | cons x xs ih => simp only [List.map_cons, Char.ofNat_toNat, ih]

theorem deserializeLoop_layout (e : Endian) (R : RegistersMap)
    (hv : ∀ x ∈ R, InI32 x.2 ∧ x.1.length < 2147483648) (pre : List Nat) (acc : RegistersMap)
    (fuel : Nat) (hf : R.length ≤ fuel) :
    deserializeLoop e (pre ++ R.flatMap (entryBytes e)) fuel pre.length acc
      = .ok (R.foldl (fun m reg => RegistersMap.assign reg.1 reg.2 m) acc) := by
  induction R generalizing pre acc fuel with
  | nil =>
    cases fuel <;> simp [deserializeLoop]
  | cons r R ih =>
    obtain ⟨f, rfl⟩ : ∃ f, fuel = f + 1 := ⟨fuel - 1, by simp at hf; omega⟩
    have hr := hv r (List.mem_cons_self _ _)
    have hlen : toI32 (ofHostBytes e (int32Bytes e (r.1.length : Int))) = (r.1.length : Int) :=
      toI32_ofHostBytes_int32Bytes e _ (by unfold InI32; omega)
    have hval : toI32 (ofHostBytes e (int32Bytes e r.2)) = r.2 :=
      toI32_ofHostBytes_int32Bytes e _ hr.1
    have hB1 : pre ++ (r :: R).flatMap (entryBytes e)
        = pre ++ int32Bytes e (r.1.length : Int)
          ++ (r.1.map Char.toNat ++ int32Bytes e r.2 ++ R.flatMap (entryBytes e)) := by
      simp [List.flatMap_cons, entryBytes]
    have hB2 : pre ++ (r :: R).flatMap (entryBytes e)
        = (pre ++ int32Bytes e (r.1.length : Int)) ++ r.1.map Char.toNat
          ++ (int32Bytes e r.2 ++ R.flatMap (entryBytes e)) := by
      simp [List.flatMap_cons, entryBytes]
    have hB3 : pre ++ (r :: R).flatMap (entryBytes e)
        = (pre ++ int32Bytes e (r.1.length : Int) ++ r.1.map Char.toNat) ++ int32Bytes e r.2
          ++ R.flatMap (entryBytes e) := by
      simp [List.flatMap_cons, entryBytes]
    have hB4 : pre ++ (r :: R).flatMap (entryBytes e)
        = (pre ++ entryBytes e r) ++ R.flatMap (entryBytes e) := by
      simp [List.flatMap_cons]
    have hr1 : read4 (pre ++ (r :: R).flatMap (entryBytes e)) pre.length
        = some (int32Bytes e (r.1.length : Int)) := by
      rw [hB1]; exact read4_at _ _ _ (int32Bytes_length _ _)
    have hk : ((pre ++ (r :: R).flatMap (entryBytes e)).drop (pre.length + 4)).take r.1.length
        = r.1.map Char.toNat := by
      have := slice_at (pre ++ int32Bytes e (r.1.length : Int)) (r.1.map Char.toNat)
        (int32Bytes e r.2 ++ R.flatMap (entryBytes e))
      rw [← hB2] at this
      simpa [int32Bytes_length, Nat.add_assoc] using this
    have hr2 : read4 (pre ++ (r :: R).flatMap (entryBytes e)) (pre.length + 4 + r.1.length)
        = some (int32Bytes e r.2) := by
      have := read4_at (pre ++ int32Bytes e (r.1.length : Int) ++ r.1.map Char.toNat)
        (int32Bytes e r.2) (R.flatMap (entryBytes e)) (int32Bytes_length _ _)
      rw [← hB3] at this
      simpa [int32Bytes_length, Nat.add_assoc] using this
    have hpos : pre.length < (pre ++ (r :: R).flatMap (entryBytes e)).length := by
      simp [List.flatMap_cons, entryBytes_length]
    have hend : ¬ (pre ++ (r :: R).flatMap (entryBytes e)).length
        < pre.length + 4 + r.1.length := by
      simp [List.flatMap_cons, entryBytes_length]
      omega
    have hnext : pre.length + 4 + r.1.length + 4 = (pre ++ entryBytes e r).length := by
      simp [entryBytes_length]; omega
    rw [deserializeLoop, if_pos hpos, hr1]
    simp only [hlen, Int.toNat_ofNat, hk, hr2, hval, map_ofNat_toNat, hend, if_false,
      show ¬ ((r.1.length : Int) < 0) by omega]
    rw [hnext]
    conv => lhs; rw [hB4]
    rw [ih (fun x hx => hv x (List.mem_cons_of_mem _ hx)) _ _ f (by simp at hf; omega)]
    rfl

/-! ## The order of `std::string` and the register file -/

theorem strLt_irrefl (a : Str) : strLt a a = false := by
  induction a with
  | nil => rfl
  | cons x xs ih => simp [strLt, ih]

theorem strLt_asymm (a b : Str) (h : strLt a b = true) : strLt b a = false := by
  induction a generalizing b with
  | nil => cases b <;> simp_all [strLt]
  | cons x xs ih =>
    cases b with
    | nil => simp [strLt] at h
    | cons y ys =>
      simp only [strLt] at h ⊢
      by_cases h1 : x.toNat < y.toNat
      · have h2 : ¬ y.toNat < x.toNat := by omega
        simp [h1, h2]
      · by_cases h2 : y.toNat < x.toNat
        · simp [h1, h2] at h
        · simp only [h1, h2, if_false] at h ⊢
          exact ih ys h

theorem char_eq_of_toNat_eq (x y : Char) (h : x.toNat = y.toNat) : x = y := by
  have hx := Char.ofNat_toNat x
  have hy := Char.ofNat_toNat y
  rw [h] at hx
  exact hx.symm.trans hy

theorem strLt_total (a b : Str) (h1 : strLt a b = false) (h2 : strLt b a = false) : a = b := by
  induction a generalizing b with
  | nil => cases b <;> simp_all [strLt]
  | cons x xs ih =>
    cases b with
    | nil => simp [strLt] at h2
    | cons y ys =>
      simp only [strLt] at h1 h2
      by_cases g1 : x.toNat < y.toNat
      · simp [g1] at h1
      · by_cases g2 : y.toNat < x.toNat
        · simp [g2] at h2
        · simp only [g1, g2, if_false] at h1 h2
          rw [char_eq_of_toNat_eq x y (by omega), ih ys h1 h2]

theorem strLt_trans (a b c : Str) (h1 : strLt a b = true) (h2 : strLt b c = true) :
    strLt a c = true := by
  induction a generalizing b c with
  | nil =>
    cases b with
    | nil => simp [strLt] at h1
    | cons y ys =>
      cases c with
      | nil => simp [strLt] at h2
      | cons z zs => rfl
  | cons x xs ih =>
    cases b with
    | nil => simp [strLt] at h1
    | cons y ys =>
      cases c with
      | nil => simp [strLt] at h2
      | cons z zs =>
        simp only [strLt] at h1 h2 ⊢
        by_cases g1 : x.toNat < y.toNat
        · by_cases g2 : y.toNat < z.toNat
          · simp [show x.toNat < z.toNat by omega]
          · by_cases g3 : z.toNat < y.toNat
            · simp [g2, g3] at h2
            · simp [show x.toNat < z.toNat by omega]
        · by_cases g1' : y.toNat < x.toNat
          · simp [g1, g1'] at h1
          · simp only [g1, g1', if_false] at h1
            by_cases g2 : y.toNat < z.toNat
            · simp [show x.toNat < z.toNat by omega]
            · by_cases g3 : z.toNat < y.toNat
              · simp [g2, g3] at h2
              · simp only [g2, g3, if_false] at h2
                simp only [show ¬ x.toNat < z.toNat by omega, show ¬ z.toNat < x.toNat by omega,
                  if_false]
                exact ih ys zs h1 h2

namespace RegistersMap

theorem assign_of_all_lt (k : Str) (v : Int) (acc : RegistersMap)
    (h : ∀ x ∈ acc, strLt x.1 k = true) : assign k v acc = acc ++ [(k, v)] := by
  induction acc with
  | nil => rfl
  | cons a t ih =>
    obtain ⟨k', v'⟩ := a
    have h1 : strLt k' k = true := h (k', v') (List.mem_cons_self _ _)
    have h2 : strLt k k' = false := strLt_asymm _ _ h1
    simp only [assign, h1, h2, if_true, if_false, Bool.false_eq_true, List.cons_append]
    rw [ih (fun x hx => h x (List.mem_cons_of_mem _ hx))]

theorem foldl_assign_sorted (R acc : RegistersMap)
    (h : List.Pairwise (fun a b => strLt a.1 b.1 = true) (acc ++ R)) :
    R.foldl (fun m reg => assign reg.1 reg.2 m) acc = acc ++ R := by
  induction R generalizing acc with
  | nil => simp
  | cons r R ih =>
    rw [List.foldl_cons]
    have h' := h
    rw [List.pairwise_append] at h'
    have hall : ∀ x ∈ acc, strLt x.1 r.1 = true :=
      fun x hx => h'.2.2 x hx r (List.mem_cons_self _ _)
    rw [assign_of_all_lt _ _ _ hall]
    have e : acc ++ [(r.1, r.2)] ++ R = acc ++ r :: R := by simp
    rw [ih (acc ++ [(r.1, r.2)]) (by rw [e]; exact h), e]

end RegistersMap

theorem deserialize_layout (e : Endian) (R : RegistersMap) (p : Int)
    (hR : R.WF) (hp : InI32 p) :
    deserialize e (migrationLayout e R p) = .ok (R, p) := by
  unfold deserialize migrationLayout
  have h4 : read4 (int32Bytes e p ++ R.flatMap (entryBytes e)) 0 = some (int32Bytes e p) := by
    have := read4_at [] (int32Bytes e p) (R.flatMap (entryBytes e)) (int32Bytes_length _ _)
    simpa using this
  rw [h4]
  simp only [toI32_ofHostBytes_int32Bytes e p hp]
  have hl := deserializeLoop_layout e R hR.2 (int32Bytes e p) []
    (int32Bytes e p ++ R.flatMap (entryBytes e)).length (by
      rw [List.length_append, flatMap_entryBytes_length]
      have : ∀ (L : RegistersMap), L.length ≤ (L.map (fun reg => 8 + reg.1.length)).sum := by
        intro L
        induction L with
        | nil => simp
        | cons a L ih => simp only [List.length_cons, List.map_cons, List.sum_cons]; omega
      have := this R
      omega)
  rw [int32Bytes_length] at hl
  rw [hl, RegistersMap.foldl_assign_sorted R [] (by simpa using hR.1)]
  rfl

namespace RegistersMap

theorem find_assign_self (k : Str) (v : Int) (R : RegistersMap) :
    find k (assign k v R) = some v := by
  induction R with
  | nil => simp [assign, find]
  | cons a t ih =>
    obtain ⟨k', v'⟩ := a
    simp only [assign]
    by_cases h1 : strLt k k' = true
    · simp [h1, find]
    · by_cases h2 : strLt k' k = true
      · have hne : k' ≠ k := by
          intro h; rw [h, strLt_irrefl] at h2; exact Bool.false_ne_true h2
        simp [h1, h2, find, hne, ih]
      · have heq : k' = k :=
          strLt_total _ _ (by simpa using h2) (by simpa using h1)
        subst heq
        simp [strLt_irrefl, find]

theorem find_assign_other (k n : Str) (v : Int) (R : RegistersMap) (hn : n ≠ k) :
    find n (assign k v R) = find n R := by
  induction R with
  | nil => simp [assign, find, Ne.symm hn]
  | cons a t ih =>
    obtain ⟨k', v'⟩ := a
    simp only [assign]
    by_cases h1 : strLt k k' = true
    · simp [h1, find, Ne.symm hn]
    · by_cases h2 : strLt k' k = true
      · simp [h1, h2, find, ih]
      · have heq : k' = k :=
          strLt_total _ _ (by simpa using h2) (by simpa using h1)
        subst heq
        simp [strLt_irrefl, find, Ne.symm hn]

theorem get_assign_self (k : Str) (v : Int) (R : RegistersMap) : get k (assign k v R) = v := by
  simp [get, find_assign_self]

theorem get_assign_other (k n : Str) (v : Int) (R : RegistersMap) (hn : n ≠ k) :
    get n (assign k v R) = get n R := by
  simp [get, find_assign_other k n v R hn]

theorem get_touch (k n : Str) (R : RegistersMap) : get n (touch k R) = get n R := by
  unfold touch
  cases h : find k R with
  | some v => rfl
  | none =>
    simp only
    by_cases hn : n = k
    · subst hn; rw [get_assign_self]; simp [get, h]
    · exact get_assign_other k n 0 R hn

end RegistersMap

namespace RegistersMap

theorem mem_assign (k : Str) (v : Int) (R : RegistersMap) (x : Str × Int) :
    x ∈ assign k v R → x = (k, v) ∨ x ∈ R := by
  induction R with
  | nil => intro hx; left; simpa [assign] using hx
  | cons a t ih =>
    obtain ⟨k', v'⟩ := a
    intro hx
    simp only [assign] at hx
    by_cases h1 : strLt k k' = true
    · simp only [h1, if_true, List.mem_cons] at hx
      rcases hx with hx | hx | hx
      · exact Or.inl hx
      · exact Or.inr (List.mem_cons.mpr (Or.inl hx))
      · exact Or.inr (List.mem_cons_of_mem _ hx)
    · by_cases h2 : strLt k' k = true
      · simp only [h1, h2, if_true, if_false, Bool.false_eq_true, List.mem_cons] at hx
        rcases hx with hx | hx
        · exact Or.inr (List.mem_cons.mpr (Or.inl hx))
        · rcases ih hx with h | h
          · exact Or.inl h
          · exact Or.inr (List.mem_cons_of_mem _ h)
      · have heq : k' = k := strLt_total _ _ (by simpa using h2) (by simpa using h1)
        simp only [h1, h2, if_false, Bool.false_eq_true, List.mem_cons] at hx
        rcases hx with hx | hx
        · exact Or.inl (hx.trans (by rw [heq]))
        · exact Or.inr (List.mem_cons_of_mem _ hx)

theorem sorted_assign (k : Str) (v : Int) (R : RegistersMap)
    (h : List.Pairwise (fun a b => strLt a.1 b.1 = true) R) :
    List.Pairwise (fun a b => strLt a.1 b.1 = true) (assign k v R) := by
  induction R with
  | nil => simp [assign]
  | cons a t ih =>
    obtain ⟨k', v'⟩ := a
    rw [List.pairwise_cons] at h
    simp only [assign]
    by_cases h1 : strLt k k' = true
    · simp only [h1, if_true]
      refine List.Pairwise.cons ?_ (List.Pairwise.cons h.1 h.2)
      intro y hy
      rcases List.mem_cons.mp hy with hy | hy
      · rw [hy]; exact h1
      · exact strLt_trans _ _ _ h1 (h.1 y hy)
    · by_cases h2 : strLt k' k = true
      · simp only [h1, h2, if_true, if_false, Bool.false_eq_true]
        refine List.Pairwise.cons ?_ (ih h.2)
        intro y hy
        rcases mem_assign k v t y hy with hy | hy
        · rw [hy]; exact h2
        · exact h.1 y hy
      · simp only [h1, h2, if_false, Bool.false_eq_true]
        exact List.Pairwise.cons h.1 h.2

/-- The invariant of the register file is kept by `registers[k] = v`. -/
theorem WF_assign (k : Str) (v : Int) (R : RegistersMap) (h : R.WF) (hv : InI32 v)
    (hk : k.length < 2147483648) : (assign k v R).WF := by
  refine ⟨sorted_assign k v R h.1, ?_⟩
  intro x hx
  rcases mem_assign k v R x hx with hx | hx
  · rw [hx]; exact ⟨hv, hk⟩
  · exact h.2 x hx

end RegistersMap

/-! ## `std::to_string` and `std::stoi` -/

theorem toNat_digitChar (d : Nat) (h : d < 10) : (Char.ofNat (48 + d)).toNat = 48 + d := by
  interval_cases d <;> rfl

theorem isDigit_digitChar (d : Nat) (h : d < 10) : isDigit (Char.ofNat (48 + d)) = true := by
  unfold isDigit
  rw [toNat_digitChar d h]
  simp
  omega

theorem digitsVal_append (xs : List Char) (x : Char) :
    digitsVal (xs ++ [x]) = digitsVal xs * 10 + (x.toNat - 48) := by
  simp [digitsVal, List.foldl_append]

theorem natDigits_spec (fuel n : Nat) (h : n < fuel) :
    natDigits fuel n ≠ [] ∧ (∀ x ∈ natDigits fuel n, isDigit x = true)
      ∧ digitsVal (natDigits fuel n) = n := by
  induction fuel generalizing n with
  | zero => omega
  | succ k ih =>
    unfold natDigits
    by_cases h10 : n < 10
    · simp only [h10, if_true]
      refine ⟨by simp, ?_, ?_⟩
      · intro x hx
        simp only [List.mem_singleton] at hx
        rw [hx]; exact isDigit_digitChar n h10
      · simp [digitsVal, toNat_digitChar n h10]
    · simp only [h10, if_false]
      obtain ⟨_, h2, h3⟩ := ih (n / 10) (by omega)
      refine ⟨by simp, ?_, ?_⟩
      · intro x hx
        rcases List.mem_append.mp hx with hx | hx
        · exact h2 x hx
        · simp only [List.mem_singleton] at hx
          rw [hx]; exact isDigit_digitChar _ (Nat.mod_lt _ (by decide))
      · rw [digitsVal_append, h3, toNat_digitChar _ (Nat.mod_lt _ (by decide))]
        omega

theorem isSpace_of_isDigit (x : Char) (h : isDigit x = true) : isSpace x = false := by
  unfold isDigit at h
  unfold isSpace
  simp at h ⊢
  omega

theorem isLower_of_isDigit (x : Char) (h : isDigit x = true) : isLower x = false := by
  unfold isDigit at h
  unfold isLower
  simp at h ⊢
  omega

theorem isDigit_of_isSpace (x : Char) (h : isSpace x = true) : isDigit x = false := by
  cases hd : isDigit x with
  | false => rfl
  | true => rw [isSpace_of_isDigit x hd] at h; exact absurd h (by decide)

theorem isDigits_natDigits (n : Nat) : IsDigits (natDigits (n + 1) n) :=
  ⟨(natDigits_spec (n + 1) n (by omega)).1, (natDigits_spec (n + 1) n (by omega)).2.1⟩

theorem takeWhile_isDigit_self (ds : List Char) (h : ∀ x ∈ ds, isDigit x = true) :
    ds.takeWhile isDigit = ds := by
  induction ds with
  | nil => rfl
  | cons x xs ih =>
    rw [List.takeWhile_cons, h x (List.mem_cons_self _ _)]
    simp only [if_true]
    rw [ih (fun y hy => h y (List.mem_cons_of_mem _ hy))]

theorem stoi_digits (ds : List Char) (h : IsDigits ds) (hr : InI32 (digitsVal ds)) :
    stoi ds = .ok (digitsVal ds) := by
  obtain ⟨hne, hall⟩ := h
  cases ds with
  | nil => exact absurd rfl hne
  | cons x xs =>
    have hx : isDigit x = true := hall x (List.mem_cons_self _ _)
    have hs : isSpace x = false := isSpace_of_isDigit x hx
    have hm : x ≠ '-' := by intro h; rw [h] at hx; exact absurd hx (by decide)
    have hp : x ≠ '+' := by intro h; rw [h] at hx; exact absurd hx (by decide)
    unfold stoi
    simp only [List.dropWhile_cons, hs]
    have hmatch : (match (x :: xs : List Char) with
        | '-' :: t => (true, t)
        | '+' :: t => (false, t)
        | _ => (false, x :: xs)) = (false, x :: xs) := by
      split
      · rename_i heq; injection heq with h1 _; exact absurd h1 hm
      · rename_i heq; injection heq with h1 _; exact absurd h1 hp
      · rfl
    simp only [Bool.false_eq_true, if_false]
    rw [hmatch]
    simp only [takeWhile_isDigit_self _ hall, List.isEmpty_cons, Bool.false_eq_true, if_false,
      hr, if_true]

theorem stoi_neg_digits (ds : List Char) (h : IsDigits ds) (hr : InI32 (-(digitsVal ds : Int))) :
    stoi ('-' :: ds) = .ok (-(digitsVal ds : Int)) := by
  obtain ⟨hne, hall⟩ := h
  unfold stoi
  have hs : isSpace '-' = false := by decide
  simp only [List.dropWhile_cons, hs, Bool.false_eq_true, if_false]
  simp only [takeWhile_isDigit_self _ hall]
  cases ds with
  | nil => exact absurd rfl hne
  | cons x xs => simp only [List.isEmpty_cons, Bool.false_eq_true, if_false, if_true, hr]

theorem stoi_to_string (i : Int) (h : InI32 i) : stoi (to_string i) = .ok i := by
  unfold to_string
  by_cases hneg : i < 0
  · simp only [hneg, if_true]
    have hs := natDigits_spec ((-i).toNat + 1) (-i).toNat (by omega)
    have hv : (digitsVal (natDigits ((-i).toNat + 1) (-i).toNat) : Int) = -i := by
      rw [hs.2.2]; omega
    have := stoi_neg_digits _ ⟨hs.1, hs.2.1⟩ (by rw [hv]; simpa using h)
    rw [this, hv]; simp
  · simp only [hneg, if_false]
    have hs := natDigits_spec (i.toNat + 1) i.toNat (by omega)
    have hv : (digitsVal (natDigits (i.toNat + 1) i.toNat) : Int) = i := by
      rw [hs.2.2]; omega
    have := stoi_digits _ ⟨hs.1, hs.2.1⟩ (by rw [hv]; exact h)
    rw [this, hv]

/-- Distinct register numbers have distinct names. -/
theorem regName_injective (i j : Nat) (h : regName i = regName j) : i = j := by
  unfold regName to_string at h
  have hi : ¬ ((i : Int) < 0) := by omega
  have hj : ¬ ((j : Int) < 0) := by omega
  simp only [hi, hj, if_false, List.cons.injEq, true_and, Int.toNat_ofNat] at h
  have h1 := (natDigits_spec (i + 1) i (by omega)).2.2
  have h2 := (natDigits_spec (j + 1) j (by omega)).2.2
  rw [h] at h1
  omega

/-! ## The matcher on well-formed text -/

theorem head?_flatMap_of_head? {α β : Type} (l : List α) (f : α → List β) (r : α) (r' : β)
    (h1 : l.head? = some r) (h2 : (f r).head? = some r') :
    (l.flatMap f).head? = some r' := by
  cases l with
  | nil => simp at h1
  | cons a t =>
    simp only [List.head?_cons, Option.some.injEq] at h1
    subst h1
    rw [List.flatMap_cons, List.head?_append, h2]
    rfl

namespace Regex

theorem matches_eps (rest : Str) (c : Caps) : Matches .eps [] rest c c := rfl

theorem matches_cls (p : Char → Bool) (x : Char) (rest : Str) (c : Caps) (h : p x = true) :
    Matches (.cls p) [x] rest c c := by
  simp [Matches, run, h]

theorem run_cls_of_notFirst (p : Char → Bool) (rest : Str) (c : Caps) (h : NotFirst p rest) :
    (Regex.cls p).run rest c = [] := by
  cases rest with
  | nil => rfl
  | cons x xs => simp [run, h x rfl]

theorem matches_seq (a b : Regex) (t1 t2 rest : Str) (c c1 c2 : Caps)
    (h1 : Matches a t1 (t2 ++ rest) c c1) (h2 : Matches b t2 rest c1 c2) :
    Matches (.seq a b) (t1 ++ t2) rest c c2 := by
  unfold Matches at *
  rw [List.append_assoc]
  simp only [run]
  exact head?_flatMap_of_head? _ _ _ _ h1 h2

theorem matches_alt_left (a b : Regex) (t rest : Str) (c c' : Caps)
    (h : Matches a t rest c c') : Matches (.alt a b) t rest c c' := by
  unfold Matches at *
  simp only [run, List.head?_append, h]
  rfl

theorem matches_alt_right (a b : Regex) (t rest : Str) (c c' : Caps)
    (h1 : a.run (t ++ rest) c = []) (h2 : Matches b t rest c c') :
    Matches (.alt a b) t rest c c' := by
  unfold Matches at *
  simp only [run, h1, List.nil_append, h2]

theorem matches_group (n : Nat) (a : Regex) (t rest : Str) (c c' : Caps)
    (h : Matches a t rest c c') : Matches (.group n a) t rest c ((n, t) :: c') := by
  unfold Matches at *
  simp only [run, List.head?_map, h, Option.map_some']
  simp

theorem starRun_cls (p : Char → Bool) (ds rest : Str) (c : Caps)
    (hds : ∀ x ∈ ds, p x = true) (hrest : NotFirst p rest) (fuel : Nat)
    (hf : ds.length ≤ fuel) :
    (starRun (Regex.cls p).run fuel (ds ++ rest) c).head? = some (rest, c) := by
  induction ds generalizing fuel with
  | nil =>
    cases fuel with
    | zero => rfl
    | succ k =>
      simp only [List.nil_append, starRun, run_cls_of_notFirst p rest c hrest]
      rfl
  | cons x xs ih =>
    obtain ⟨k, rfl⟩ : ∃ k, fuel = k + 1 := ⟨fuel - 1, by simp at hf; omega⟩
    have hx : p x = true := hds x (List.mem_cons_self _ _)
    have ih' := ih (fun y hy => hds y (List.mem_cons_of_mem _ hy)) k (by simp at hf; omega)
    have hrun : (Regex.cls p).run (x :: (xs ++ rest)) c = [(xs ++ rest, c)] := by
      simp [run, hx]
    rw [List.cons_append, starRun, hrun]
    simp only [List.filter_cons, List.length_cons, Nat.lt_succ_self, decide_True, if_true,
      List.filter_nil, List.flatMap_cons, List.flatMap_nil, List.append_nil]
    rw [List.head?_append, ih']
    rfl

theorem matches_star_cls (p : Char → Bool) (ds rest : Str) (c : Caps)
    (hds : ∀ x ∈ ds, p x = true) (hrest : NotFirst p rest) :
    Matches (.star (.cls p)) ds rest c c := by
  unfold Matches
  simp only [run]
  exact starRun_cls p ds rest c hds hrest _ (by simp)

theorem matches_plus_cls (p : Char → Bool) (ds rest : Str) (c : Caps) (hne : ds ≠ [])
    (hds : ∀ x ∈ ds, p x = true) (hrest : NotFirst p rest) :
    Matches (plus (.cls p)) ds rest c c := by
  cases ds with
  | nil => exact absurd rfl hne
  | cons x xs =>
    have h1 : Matches (.cls p) [x] (xs ++ rest) c c :=
      matches_cls p x _ c (hds x (List.mem_cons_self _ _))
    have h2 : Matches (.star (.cls p)) xs rest c c :=
      matches_star_cls p xs rest c (fun y hy => hds y (List.mem_cons_of_mem _ hy)) hrest
    exact matches_seq _ _ [x] xs rest c c c h1 h2

theorem matches_lit (w rest : Str) (c : Caps) : Matches (lit w) w rest c c := by
  induction w with
  | nil => rfl
  | cons x xs ih =>
    have h1 : Matches (.cls (fun y => y == x)) [x] (xs ++ rest) c c :=
      matches_cls _ x _ c (by simp)
    exact matches_seq _ _ [x] xs rest c c c h1 ih

theorem run_lit_of_notFirst (x : Char) (xs rest : Str) (c : Caps)
    (h : NotFirst (fun y => y == x) rest) : (lit (x :: xs)).run rest c = [] := by
  simp only [lit, run, run_cls_of_notFirst _ rest c h, List.flatMap_nil]

theorem search_of_matches (re : Regex) (t rest : Str) (c' : Caps)
    (h : Matches re t rest [] c') : regex_search re (t ++ rest) = c' := by
  unfold Matches at h
  cases hs : t ++ rest with
  | nil => rw [hs] at h; simp only [regex_search, h]
  | cons x xs => rw [hs] at h; simp only [regex_search, h]

end Regex

/-! ## The expressions of the instructions on well-formed lines -/

theorem notFirst_nil (p : Char → Bool) : NotFirst p [] := by
  intro x h; simp at h

theorem notFirst_cons (p : Char → Bool) (x : Char) (xs : Str) (h : p x = false) :
    NotFirst p (x :: xs) := by
  intro y hy
  simp only [List.head?_cons, Option.some.injEq] at hy
  rw [← hy]; exact h

theorem notFirst_append (p : Char → Bool) (w rest : Str) (hw : ∀ x ∈ w, p x = false)
    (hr : NotFirst p rest) : NotFirst p (w ++ rest) := by
  cases w with
  | nil => simpa using hr
  | cons x xs => exact notFirst_cons p x _ (hw x (List.mem_cons_self _ _))

theorem notFirst_of_ne_nil (p : Char → Bool) (w rest : Str) (hne : w ≠ [])
    (hw : ∀ x ∈ w, p x = false) : NotFirst p (w ++ rest) := by
  cases w with
  | nil => exact absurd rfl hne
  | cons x xs => exact notFirst_cons p x _ (hw x (List.mem_cons_self _ _))

theorem isDigits_to_string_nonneg (n : Nat) : IsDigits (to_string (n : Int)) := by
  unfold to_string
  simp only [show ¬ ((n : Int) < 0) by omega, if_false, Int.toNat_ofNat]
  exact ⟨(natDigits_spec (n + 1) n (by omega)).1, (natDigits_spec (n + 1) n (by omega)).2.1⟩

theorem regName_eq (d : Nat) : ∃ ds, IsDigits ds ∧ regName d = '$' :: ds :=
  ⟨to_string (d : Int), isDigits_to_string_nonneg d, rfl⟩

theorem to_string_cases (i : Int) :
    IsDigits (to_string i) ∨ ∃ ds, IsDigits ds ∧ to_string i = '-' :: ds := by
  unfold to_string
  by_cases h : i < 0
  · right
    simp only [h, if_true]
    exact ⟨_, ⟨(natDigits_spec _ _ (by omega)).1, (natDigits_spec _ _ (by omega)).2.1⟩, rfl⟩
  · left
    simp only [h, if_false]
    exact ⟨(natDigits_spec _ _ (by omega)).1, (natDigits_spec _ _ (by omega)).2.1⟩

namespace Regex

theorem matches_spaces (w rest : Str) (c : Caps) (hw : IsBlank w)
    (hr : NotFirst isSpace rest) : Matches reSpaces w rest c c :=
  matches_star_cls isSpace w rest c hw hr

theorem matches_spaces1 (w rest : Str) (c : Caps) (hne : w ≠ []) (hw : IsBlank w)
    (hr : NotFirst isSpace rest) : Matches reSpaces1 w rest c c :=
  matches_plus_cls isSpace w rest c hne hw hr

theorem matches_digits (ds rest : Str) (c : Caps) (hd : IsDigits ds)
    (hr : NotFirst isDigit rest) : Matches (plus (.cls isDigit)) ds rest c c :=
  matches_plus_cls isDigit ds rest c hd.1 hd.2 hr

theorem matches_reReg (n d : Nat) (rest : Str) (c : Caps) (hr : NotFirst isDigit rest) :
    Matches (reReg n) (regName d) rest c ((n, regName d) :: c) := by
  obtain ⟨ds, hds, he⟩ := regName_eq d
  rw [he]
  apply matches_group
  exact matches_seq (lit ['$']) (plus (.cls isDigit)) ['$'] ds rest c c c
    (matches_lit ['$'] _ c) (matches_digits ds rest c hds hr)

theorem matches_reNum (n : Nat) (ds rest : Str) (c : Caps) (hd : IsDigits ds)
    (hr : NotFirst isDigit rest) : Matches (reNum n) ds rest c ((n, ds) :: c) :=
  matches_group n _ ds rest c c (matches_digits ds rest c hd hr)

theorem matches_reImm (n : Nat) (i : Int) (rest : Str) (c : Caps) (hr : NotFirst isDigit rest) :
    Matches (reImm n) (to_string i) rest c ((n, to_string i) :: c) := by
  apply matches_group
  rcases to_string_cases i with hd | ⟨ds, hd, he⟩
  · have hnf : NotFirst (fun y => y == '-') (to_string i ++ rest) := by
      apply notFirst_of_ne_nil _ _ _ hd.1
      intro x hx
      have := hd.2 x hx
      cases hxe : (x == '-') with
      | false => rfl
      | true =>
        have : x = '-' := by simpa using hxe
        subst this
        exact absurd (hd.2 _ hx) (by decide)
    have h1 : Matches (opt (lit ['-'])) [] (to_string i ++ rest) c c :=
      matches_alt_right _ _ [] _ c c (run_lit_of_notFirst '-' [] _ c hnf) (matches_eps _ c)
    exact matches_seq _ _ [] (to_string i) rest c c c h1 (matches_digits _ rest c hd hr)
  · rw [he]
    have h1 : Matches (opt (lit ['-'])) ['-'] (ds ++ rest) c c :=
      matches_alt_left _ _ ['-'] _ c c (matches_lit ['-'] _ c)
    exact matches_seq _ _ ['-'] ds rest c c c h1 (matches_digits ds rest c hd hr)

end Regex

theorem notFirst_space_regName (d : Nat) (rest : Str) : NotFirst isSpace (regName d ++ rest) :=
  notFirst_cons isSpace '$' _ (by decide)

theorem notFirst_space_comma (rest : Str) : NotFirst isSpace ([','] ++ rest) :=
  notFirst_cons isSpace ',' _ (by decide)

theorem notFirst_digit_comma (rest : Str) : NotFirst isDigit ([','] ++ rest) :=
  notFirst_cons isDigit ',' _ (by decide)

theorem notFirst_digit_blank_comma (w rest : Str) (hw : IsBlank w) :
    NotFirst isDigit (w ++ ([','] ++ rest)) :=
  notFirst_append isDigit w _ (fun x hx => isDigit_of_isSpace x (hw x hx))
    (notFirst_digit_comma rest)

theorem notFirst_space_to_string (i : Int) (rest : Str) :
    NotFirst isSpace (to_string i ++ rest) := by
  rcases to_string_cases i with hd | ⟨ds, _, he⟩
  · exact notFirst_of_ne_nil _ _ _ hd.1 (fun x hx => isSpace_of_isDigit x (hd.2 x hx))
  · rw [he]; exact notFirst_cons isSpace '-' _ (by decide)

theorem search_liRegex (w1 w2 w3 : Str) (d : Nat) (imm : Int) (h1 : w1 ≠ []) (hw1 : IsBlank w1)
    (hw2 : IsBlank w2) (hw3 : IsBlank w3) :
    regex_search liRegex (liLine w1 w2 w3 d imm) = [(2, to_string imm), (1, regName d)] := by
  have h := search_of_matches liRegex (liLine w1 w2 w3 d imm) []
    [(2, to_string imm), (1, regName d)]
    (by
      unfold liRegex liLine
      simp only [cat]
      refine matches_seq _ _ _ _ _ _ _ _ (matches_lit _ _ _) ?_
      refine matches_seq _ _ _ _ _ _ _ _
        (matches_spaces1 w1 _ _ h1 hw1 (by simpa using notFirst_space_regName d _)) ?_
      refine matches_seq _ _ _ _ _ _ _ _
        (matches_reReg 1 d _ _ (by simpa using notFirst_digit_blank_comma w2 _ hw2)) ?_
      refine matches_seq _ _ _ _ _ _ _ _
        (matches_spaces w2 _ _ hw2 (by simpa using notFirst_space_comma _)) ?_
      refine matches_seq _ _ _ _ _ _ _ _ (matches_lit _ _ _) ?_
      refine matches_seq _ _ _ _ _ _ _ _
        (matches_spaces w3 _ _ hw3 (by simpa using notFirst_space_to_string imm [])) ?_
      exact matches_reImm 2 imm [] _ (notFirst_nil _))
  simpa using h

theorem search_rrrRegex (op w1 w2 w3 : Str) (d s t : Nat) (h1 : w1 ≠ []) (hw1 : IsBlank w1)
    (hw2 : IsBlank w2) (hw3 : IsBlank w3) :
    regex_search (rrrRegex op) (rrrLine op w1 w2 w3 d s t)
      = [(3, regName t), (2, regName s), (1, regName d)] := by
  have h := search_of_matches (rrrRegex op) (rrrLine op w1 w2 w3 d s t) []
    [(3, regName t), (2, regName s), (1, regName d)]
    (by
      unfold rrrRegex rrrLine
      simp only [cat]
      refine matches_seq _ _ _ _ _ _ _ _ (matches_lit _ _ _) ?_
      refine matches_seq _ _ _ _ _ _ _ _
        (matches_spaces1 w1 _ _ h1 hw1 (by simpa using notFirst_space_regName d _)) ?_
      refine matches_seq _ _ _ _ _ _ _ _
        (matches_reReg 1 d _ _ (by simpa using notFirst_digit_comma _)) ?_
      refine matches_seq _ _ _ _ _ _ _ _ (matches_lit _ _ _) ?_
      refine matches_seq _ _ _ _ _ _ _ _
        (matches_spaces w2 _ _ hw2 (by simpa using notFirst_space_regName s _)) ?_
      refine matches_seq _ _ _ _ _ _ _ _
        (matches_reReg 2 s _ _ (by simpa using notFirst_digit_comma _)) ?_
      refine matches_seq _ _ _ _ _ _ _ _ (matches_lit _ _ _) ?_
      refine matches_seq _ _ _ _ _ _ _ _
        (matches_spaces w3 _ _ hw3 (by simpa using notFirst_space_regName t [])) ?_
      exact matches_reReg 3 t [] _ (notFirst_nil _))
  simpa using h

theorem search_addiRegex (w1 w2 w3 : Str) (d s : Nat) (imm : Int) (h1 : w1 ≠ [])
    (hw1 : IsBlank w1) (hw2 : IsBlank w2) (hw3 : IsBlank w3) :
    regex_search addiRegex (rriLine "addi".toList w1 w2 w3 d s imm)
      = [(3, to_string imm), (2, regName s), (1, regName d)] := by
  have h := search_of_matches addiRegex (rriLine "addi".toList w1 w2 w3 d s imm) []
    [(3, to_string imm), (2, regName s), (1, regName d)]
    (by
      unfold addiRegex rriLine
      simp only [cat]
      refine matches_seq _ _ _ _ _ _ _ _ (matches_lit _ _ _) ?_
      refine matches_seq _ _ _ _ _ _ _ _
        (matches_spaces1 w1 _ _ h1 hw1 (by simpa using notFirst_space_regName d _)) ?_
      refine matches_seq _ _ _ _ _ _ _ _
        (matches_reReg 1 d _ _ (by simpa using notFirst_digit_comma _)) ?_
      refine matches_seq _ _ _ _ _ _ _ _ (matches_lit _ _ _) ?_
      refine matches_seq _ _ _ _ _ _ _ _
        (matches_spaces w2 _ _ hw2 (by simpa using notFirst_space_regName s _)) ?_
      refine matches_seq _ _ _ _ _ _ _ _
        (matches_reReg 2 s _ _ (by simpa using notFirst_digit_comma _)) ?_
      refine matches_seq _ _ _ _ _ _ _ _ (matches_lit _ _ _) ?_
      refine matches_seq _ _ _ _ _ _ _ _
        (matches_spaces w3 _ _ hw3 (by simpa using notFirst_space_to_string imm [])) ?_
      exact matches_reImm 3 imm [] _ (notFirst_nil _))
  simpa using h

theorem search_shiftRegex (op w1 w2 w3 : Str) (d s n : Nat) (h1 : w1 ≠ [])
    (hw1 : IsBlank w1) (hw2 : IsBlank w2) (hw3 : IsBlank w3) :
    regex_search (shiftRegex op) (rriLine op w1 w2 w3 d s (n : Int))
      = [(3, to_string (n : Int)), (2, regName s), (1, regName d)] := by
  have h := search_of_matches (shiftRegex op) (rriLine op w1 w2 w3 d s (n : Int)) []
    [(3, to_string (n : Int)), (2, regName s), (1, regName d)]
    (by
      unfold shiftRegex rriLine
      simp only [cat]
      refine matches_seq _ _ _ _ _ _ _ _ (matches_lit _ _ _) ?_
      refine matches_seq _ _ _ _ _ _ _ _
        (matches_spaces1 w1 _ _ h1 hw1 (by simpa using notFirst_space_regName d _)) ?_
      refine matches_seq _ _ _ _ _ _ _ _
        (matches_reReg 1 d _ _ (by simpa using notFirst_digit_comma _)) ?_
      refine matches_seq _ _ _ _ _ _ _ _ (matches_lit _ _ _) ?_
      refine matches_seq _ _ _ _ _ _ _ _
        (matches_spaces w2 _ _ hw2 (by simpa using notFirst_space_regName s _)) ?_
      refine matches_seq _ _ _ _ _ _ _ _
        (matches_reReg 2 s _ _ (by simpa using notFirst_digit_comma _)) ?_
      refine matches_seq _ _ _ _ _ _ _ _ (matches_lit _ _ _) ?_
      refine matches_seq _ _ _ _ _ _ _ _
        (matches_spaces w3 _ _ hw3 (by simpa using notFirst_space_to_string (n : Int) [])) ?_
      exact matches_reNum 3 _ [] _ (isDigits_to_string_nonneg n) (notFirst_nil _))
  simpa using h

/-! ## The opcode of a line -/

theorem isLower_of_isSpace (x : Char) (h : isSpace x = true) : isLower x = false := by
  unfold isSpace at h
  unfold isLower
  simp at h ⊢
  omega

theorem isLetter_of_isSpace (x : Char) (h : isSpace x = true) : isLetter x = false := by
  unfold isSpace at h
  unfold isLetter isLower
  simp at h ⊢
  omega

theorem opcode_lower (op w tail : Str) (hne : op ≠ []) (hop : ∀ x ∈ op, isLower x = true)
    (h1 : w ≠ []) (hw : IsBlank w) :
    (regex_search opCodeRegexLower (op ++ (w ++ tail))).str 1 = op := by
  have h := search_of_matches opCodeRegexLower op (w ++ tail) [(1, op)]
    (matches_group 1 _ op _ [] []
      (matches_plus_cls isLower op _ [] hne hop
        (notFirst_of_ne_nil _ _ _ h1 (fun x hx => isLower_of_isSpace x (hw x hx)))))
  rw [h]; rfl

theorem opcode_upper (op w tail : Str) (hne : op ≠ []) (hop : ∀ x ∈ op, isLetter x = true)
    (h1 : w ≠ []) (hw : IsBlank w) :
    (regex_search opCodeRegexUpper (op ++ (w ++ tail))).str 1 = op := by
  have h := search_of_matches opCodeRegexUpper op (w ++ tail) [(1, op)]
    (matches_group 1 _ op _ [] []
      (matches_plus_cls isLetter op _ [] hne hop
        (notFirst_of_ne_nil _ _ _ h1 (fun x hx => isLetter_of_isSpace x (hw x hx)))))
  rw [h]; rfl

/-! ## The arithmetic instructions -/

theorem get_binop_self (f : Int → Int → Int) (rd rs rt : Str) (R : RegistersMap) :
    RegistersMap.get rd (binop f rd rs rt R) = f (R.get rs) (R.get rt) := by
  unfold binop
  simp only [RegistersMap.get_assign_self, RegistersMap.get_touch]

theorem get_binop_other (f : Int → Int → Int) (rd rs rt n : Str) (R : RegistersMap)
    (hn : n ≠ rd) : RegistersMap.get n (binop f rd rs rt R) = R.get n := by
  unfold binop
  simp only [RegistersMap.get_assign_other _ _ _ _ hn, RegistersMap.get_touch]

theorem get_immop_self (f : Int → Int → Int) (rd rs : Str) (imm : Int) (R : RegistersMap) :
    RegistersMap.get rd (immop f rd rs imm R) = f (R.get rs) imm := by
  unfold immop
  simp only [RegistersMap.get_assign_self]

theorem get_immop_other (f : Int → Int → Int) (rd rs n : Str) (imm : Int) (R : RegistersMap)
    (hn : n ≠ rd) : RegistersMap.get n (immop f rd rs imm R) = R.get n := by
  unfold immop
  simp only [RegistersMap.get_assign_other _ _ _ _ hn, RegistersMap.get_touch]

theorem str_three (a b c : Str) :
    Caps.str [(3, a), (2, b), (1, c)] 1 = c ∧ Caps.str [(3, a), (2, b), (1, c)] 2 = b
      ∧ Caps.str [(3, a), (2, b), (1, c)] 3 = a := ⟨rfl, rfl, rfl⟩

theorem str_two (a b : Str) :
    Caps.str [(2, a), (1, b)] 1 = b ∧ Caps.str [(2, a), (1, b)] 2 = a := ⟨rfl, rfl⟩

theorem arith_li (w1 w2 w3 : Str) (d : Nat) (imm : Int) (R : RegistersMap) (h1 : w1 ≠ [])
    (hw1 : IsBlank w1) (hw2 : IsBlank w2) (hw3 : IsBlank w3) (himm : InI32 imm) :
    executeArithmetic "li".toList (liLine w1 w2 w3 d imm) R
      = some (.ok (R.assign (regName d) imm)) := by
  unfold executeArithmetic
  rw [if_pos rfl]
  simp only [search_liRegex w1 w2 w3 d imm h1 hw1 hw2 hw3, (str_two _ _).1, (str_two _ _).2,
    stoi_to_string imm himm, Res.bind]

theorem arith_add (w1 w2 w3 : Str) (d s t : Nat) (R : RegistersMap) (h1 : w1 ≠ [])
    (hw1 : IsBlank w1) (hw2 : IsBlank w2) (hw3 : IsBlank w3) :
    executeArithmetic "add".toList (rrrLine "add".toList w1 w2 w3 d s t) R
      = some (.ok (binop (fun a b => wrap32 (a + b)) (regName d) (regName s) (regName t) R)) := by
  unfold executeArithmetic
  rw [if_neg (by decide), if_pos rfl]
  simp only [search_rrrRegex _ w1 w2 w3 d s t h1 hw1 hw2 hw3, (str_three _ _ _).1,
    (str_three _ _ _).2.1, (str_three _ _ _).2.2]

theorem arith_addi (w1 w2 w3 : Str) (d s : Nat) (imm : Int) (R : RegistersMap) (h1 : w1 ≠ [])
    (hw1 : IsBlank w1) (hw2 : IsBlank w2) (hw3 : IsBlank w3) (himm : InI32 imm) :
    executeArithmetic "addi".toList (rriLine "addi".toList w1 w2 w3 d s imm) R
      = some (.ok (immop (fun a b => wrap32 (a + b)) (regName d) (regName s) imm R)) := by
  unfold executeArithmetic
  rw [if_neg (by decide), if_neg (by decide), if_pos rfl]
  simp only [search_addiRegex w1 w2 w3 d s imm h1 hw1 hw2 hw3, (str_three _ _ _).1,
    (str_three _ _ _).2.1, (str_three _ _ _).2.2, stoi_to_string imm himm, Res.bind]

theorem arith_sub (w1 w2 w3 : Str) (d s t : Nat) (R : RegistersMap) (h1 : w1 ≠ [])
    (hw1 : IsBlank w1) (hw2 : IsBlank w2) (hw3 : IsBlank w3) :
    executeArithmetic "sub".toList (rrrLine "sub".toList w1 w2 w3 d s t) R
      = some (.ok (binop (fun a b => wrap32 (a - b)) (regName d) (regName s) (regName t) R)) := by
  unfold executeArithmetic
  rw [if_neg (by decide), if_neg (by decide), if_neg (by decide), if_pos rfl]
  simp only [search_rrrRegex _ w1 w2 w3 d s t h1 hw1 hw2 hw3, (str_three _ _ _).1,
    (str_three _ _ _).2.1, (str_three _ _ _).2.2]

theorem arith_mul (w1 w2 w3 : Str) (d s t : Nat) (R : RegistersMap) (h1 : w1 ≠ [])
    (hw1 : IsBlank w1) (hw2 : IsBlank w2) (hw3 : IsBlank w3) :
    executeArithmetic "mul".toList (rrrLine "mul".toList w1 w2 w3 d s t) R
      = some (.ok (binop (fun a b => wrap32 (a * b)) (regName d) (regName s) (regName t) R)) := by
  unfold executeArithmetic
  rw [if_neg (by decide), if_neg (by decide), if_neg (by decide), if_neg (by decide),
    if_pos rfl]
  simp only [search_rrrRegex _ w1 w2 w3 d s t h1 hw1 hw2 hw3, (str_three _ _ _).1,
    (str_three _ _ _).2.1, (str_three _ _ _).2.2]

/-- One instruction of the snapshot program whose opcode is lower case and is followed by
white space is run by the arithmetic branches when they know the opcode. -/
theorem snapshot_exec_arith (e : Endian) (op w tail name : Str) (vm : VirtualMachine)
    (R' : RegistersMap) (hne : op ≠ []) (hop : ∀ x ∈ op, isLower x = true) (h1 : w ≠ [])
    (hw : IsBlank w)
    (h : executeArithmetic op (op ++ (w ++ tail)) vm.registers = some (.ok R')) :
    Snapshot.executeAssemblyInstruction e (op ++ (w ++ tail)) name vm
      = .ok { vm with registers := R' } := by
  unfold Snapshot.executeAssemblyInstruction
  simp only [opcode_lower op w tail hne hop h1 hw, h, Res.bind]

theorem setsOnly_binop (vm : VirtualMachine) (f : Int → Int → Int) (rd rs rt : Str) :
    SetsOnly vm (.ok { vm with registers := binop f rd rs rt vm.registers }) rd
      (f (vm.registers.get rs) (vm.registers.get rt)) :=
  ⟨_, rfl, get_binop_self f rd rs rt _, fun n hn => get_binop_other f rd rs rt n _ hn⟩

theorem setsOnly_immop (vm : VirtualMachine) (f : Int → Int → Int) (rd rs : Str) (imm : Int) :
    SetsOnly vm (.ok { vm with registers := immop f rd rs imm vm.registers }) rd
      (f (vm.registers.get rs) imm) :=
  ⟨_, rfl, get_immop_self f rd rs imm _, fun n hn => get_immop_other f rd rs n imm _ hn⟩

theorem setsOnly_assign (vm : VirtualMachine) (rd : Str) (v : Int) :
    SetsOnly vm (.ok { vm with registers := vm.registers.assign rd v }) rd v :=
  ⟨_, rfl, RegistersMap.get_assign_self rd v _,
    fun n hn => RegistersMap.get_assign_other rd n v _ hn⟩

/-- C10. Arithmetic and load semantics of `Snapshot/myvmm.cc`: for all register numbers
`d`, `s`, `t` (so also for `$0` to `$31`, `$0` included) and every immediate of the 32-bit
signed range, running `li Rd, imm`, `add Rd, Rs, Rt`, `addi Rd, Rs, imm`, `sub Rd, Rs, Rt` or
`mul Rd, Rs, Rt` ends normally, sets `Rd` to `imm`, `Rs + Rt`, `Rs + imm`, `Rs - Rt` or
`Rs * Rt` reduced modulo `2^32` to the two's-complement range, and leaves every other register
(and the rest of the machine) unchanged. -/
theorem arithmetic_semantics (e : Endian) (name : Str) (vm : VirtualMachine) (w1 w2 w3 : Str)
    (d s t : Nat) (imm : Int) (h1 : w1 ≠ []) (hw1 : IsBlank w1) (hw2 : IsBlank w2)
    (hw3 : IsBlank w3) (himm : InI32 imm) :
    SetsOnly vm (Snapshot.executeAssemblyInstruction e (liLine w1 w2 w3 d imm) name vm)
        (regName d) imm
    ∧ SetsOnly vm
        (Snapshot.executeAssemblyInstruction e (rrrLine "add".toList w1 w2 w3 d s t) name vm)
        (regName d) (wrap32 (vm.registers.get (regName s) + vm.registers.get (regName t)))
    ∧ SetsOnly vm
        (Snapshot.executeAssemblyInstruction e (rriLine "addi".toList w1 w2 w3 d s imm) name vm)
        (regName d) (wrap32 (vm.registers.get (regName s) + imm))
    ∧ SetsOnly vm
        (Snapshot.executeAssemblyInstruction e (rrrLine "sub".toList w1 w2 w3 d s t) name vm)
        (regName d) (wrap32 (vm.registers.get (regName s) - vm.registers.get (regName t)))
    ∧ SetsOnly vm
        (Snapshot.executeAssemblyInstruction e (rrrLine "mul".toList w1 w2 w3 d s t) name vm)
        (regName d) (wrap32 (vm.registers.get (regName s) * vm.registers.get (regName t))) := by
  refine ⟨?_, ?_, ?_, ?_, ?_⟩
  · rw [show liLine w1 w2 w3 d imm = "li".toList ++ (w1 ++ _) from rfl,
      snapshot_exec_arith e _ w1 _ name vm _ (by decide) (by decide) h1 hw1
        (arith_li w1 w2 w3 d imm _ h1 hw1 hw2 hw3 himm)]
    exact setsOnly_assign vm _ _
  · rw [show rrrLine "add".toList w1 w2 w3 d s t = "add".toList ++ (w1 ++ _) from rfl,
      snapshot_exec_arith e _ w1 _ name vm _ (by decide) (by decide) h1 hw1
        (arith_add w1 w2 w3 d s t _ h1 hw1 hw2 hw3)]
    exact setsOnly_binop vm _ _ _ _
  · rw [show rriLine "addi".toList w1 w2 w3 d s imm = "addi".toList ++ (w1 ++ _) from rfl,
      snapshot_exec_arith e _ w1 _ name vm _ (by decide) (by decide) h1 hw1
        (arith_addi w1 w2 w3 d s imm _ h1 hw1 hw2 hw3 himm)]
    exact setsOnly_immop vm _ _ _ _
  · rw [show rrrLine "sub".toList w1 w2 w3 d s t = "sub".toList ++ (w1 ++ _) from rfl,
      snapshot_exec_arith e _ w1 _ name vm _ (by decide) (by decide) h1 hw1
        (arith_sub w1 w2 w3 d s t _ h1 hw1 hw2 hw3)]
    exact setsOnly_binop vm _ _ _ _
  · rw [show rrrLine "mul".toList w1 w2 w3 d s t = "mul".toList ++ (w1 ++ _) from rfl,
      snapshot_exec_arith e _ w1 _ name vm _ (by decide) (by decide) h1 hw1
        (arith_mul w1 w2 w3 d s t _ h1 hw1 hw2 hw3)]
    exact setsOnly_binop vm _ _ _ _

/-! ## Snapshots -/

namespace Snapshot

theorem writeLoop_length (e : Endian) (k i : Nat) (R : RegistersMap) :
    (writeLoop e k i R).1.length = 4 * k := by
  induction k generalizing i R with
  | zero => rfl
  | succ k ih =>
    simp only [writeLoop, List.length_append, int32Bytes_length, ih]
    omega

theorem writeLoop_slice (e : Endian) (k i : Nat) (R : RegistersMap) (j : Nat) (hj : j < k) :
    ((writeLoop e k i R).1.drop (4 * j)).take 4 = int32Bytes e (R.get (regName (i + j))) := by
  induction k generalizing i R j with
  | zero => omega
  | succ k ih =>
    simp only [writeLoop]
    cases j with
    | zero =>
      simp only [Nat.mul_zero, List.drop_zero, Nat.add_zero]
      have := List.take_left (int32Bytes e (R.get (regName i)))
        (writeLoop e k (i + 1) (R.touch (regName i))).1
      rw [int32Bytes_length] at this
      exact this
    | succ j =>
      have hd : List.drop (4 * (j + 1))
          (int32Bytes e (R.get (regName i)) ++ (writeLoop e k (i + 1) (R.touch (regName i))).1)
          = List.drop (4 * j) (writeLoop e k (i + 1) (R.touch (regName i))).1 := by
        rw [List.drop_append_eq_append_drop, int32Bytes_length,
          List.drop_of_length_le (by rw [int32Bytes_length]; omega)]
        simp only [List.nil_append]
        congr 1
      rw [hd, ih (i + 1) _ j (by omega), RegistersMap.get_touch]
      congr 3
      omega

theorem readLoop_get_other (e : Endian) (k i : Nat) (stream : Option (List Nat))
    (R : RegistersMap) (n : Str) (hn : ∀ j, j < k → n ≠ regName (i + j)) :
    RegistersMap.get n (readLoop e k i stream R) = R.get n := by
  induction k generalizing i stream R with
  | zero => rfl
  | succ k ih =>
    have h0 : n ≠ regName i := by simpa using hn 0 (by omega)
    have hn' : ∀ j, j < k → n ≠ regName (i + 1 + j) := by
      intro j hj
      have := hn (j + 1) (by omega)
      rwa [show i + (j + 1) = i + 1 + j by omega] at this
    cases stream with
    | none =>
      simp only [readLoop]
      rw [ih _ _ _ hn', RegistersMap.get_touch]
    | some bytes =>
      simp only [readLoop]
      split
      · rw [ih _ _ _ hn', RegistersMap.get_assign_other _ _ _ _ h0, RegistersMap.get_touch]
      · split
        · rw [ih _ _ _ hn', RegistersMap.get_touch]
        · rw [ih _ _ _ hn', RegistersMap.get_assign_other _ _ _ _ h0, RegistersMap.get_touch]

theorem readLoop_writeLoop (e : Endian) (k i : Nat) (R R0 : RegistersMap) (rest : List Nat)
    (hIn : ∀ n, InI32 (R.get n)) (j : Nat) (hj : j < k) :
    RegistersMap.get (regName (i + j))
        (readLoop e k i (some ((writeLoop e k i R).1 ++ rest)) R0)
      = R.get (regName (i + j)) := by
  induction k generalizing i R R0 j with
  | zero => omega
  | succ k ih =>
    simp only [writeLoop, readLoop]
    have hlen : 4 ≤ (int32Bytes e (R.get (regName i))
        ++ (writeLoop e k (i + 1) (R.touch (regName i))).1 ++ rest).length := by
      simp only [List.length_append, int32Bytes_length]; omega
    rw [if_pos hlen]
    have htake : List.take 4 (int32Bytes e (R.get (regName i))
        ++ (writeLoop e k (i + 1) (R.touch (regName i))).1 ++ rest)
        = int32Bytes e (R.get (regName i)) := by
      rw [List.append_assoc]
      have := List.take_left (int32Bytes e (R.get (regName i)))
        ((writeLoop e k (i + 1) (R.touch (regName i))).1 ++ rest)
      rwa [int32Bytes_length] at this
    have hdrop : List.drop 4 (int32Bytes e (R.get (regName i))
        ++ (writeLoop e k (i + 1) (R.touch (regName i))).1 ++ rest)
        = (writeLoop e k (i + 1) (R.touch (regName i))).1 ++ rest := by
      rw [List.append_assoc]
      have := List.drop_left (int32Bytes e (R.get (regName i)))
        ((writeLoop e k (i + 1) (R.touch (regName i))).1 ++ rest)
      rwa [int32Bytes_length] at this
    rw [htake, hdrop, toI32_ofHostBytes_int32Bytes e _ (hIn _)]
    cases j with
    | zero =>
      rw [Nat.add_zero, readLoop_get_other e k (i + 1) _ _ (regName i) (by
        intro j' _ h
        have := regName_injective _ _ h
        omega)]
      exact RegistersMap.get_assign_self _ _ _
    | succ j =>
      have := ih (i + 1) (R.touch (regName i))
        (RegistersMap.assign (regName i) (R.get (regName i)) (R0.touch (regName i)))
        (fun n => by rw [RegistersMap.get_touch]; exact hIn n) j (by omega)
      rw [RegistersMap.get_touch, show i + 1 + j = i + (j + 1) by omega] at this
      exact this

end Snapshot

theorem inI32_get (R : RegistersMap) (h : ∀ x ∈ R, InI32 x.2) (n : Str) : InI32 (R.get n) := by
  unfold RegistersMap.get
  induction R with
  | nil => simp [RegistersMap.find]; decide
  | cons a t ih =>
    obtain ⟨k', v'⟩ := a
    simp only [RegistersMap.find]
    split
    · exact h (k', v') (List.mem_cons_self _ _)
    · exact ih (fun x hx => h x (List.mem_cons_of_mem _ hx))

/-! ## The transport and the `MIGRATE` instruction -/

theorem sendFrame_eq (e : Endian) (B : List Nat) (h : B.length < 4294967296) :
    sendFrame e B = beBytes B.length ++ B := by
  unfold sendFrame
  simp only [Nat.mod_eq_of_lt h, hostBytes_htonl]

theorem recvFrame_beBytes (e : Endian) (B : List Nat) (h : B.length < 4294967296) :
    Server.recvFrame e (beBytes B.length ++ B) = .ok B := by
  unfold Server.recvFrame
  have hl : ¬ (beBytes B.length ++ B).length < 4 := by
    simp [beBytes]
  have ht : List.take 4 (beBytes B.length ++ B) = beBytes B.length := by
    exact List.take_left (beBytes B.length) B
  have hd : List.drop 4 (beBytes B.length ++ B) = B := by
    exact List.drop_left (beBytes B.length) B
  have hn : ntohl e (ofHostBytes e (beBytes B.length)) = B.length := ntohl_htonl e _ h
  simp only [hl, if_false, ht, hd, hn, Nat.lt_irrefl, List.take_length]

theorem receive_sendFrame (e : Endian) (R : RegistersMap) (k : Int) (dst : VirtualMachine)
    (hR : R.WF) (hk : InI32 k) (hlen : (serialize e R k).length < 4294967296) :
    Server.receive e (sendFrame e (serialize e R k)) dst
      = .ok { dst with registers := R, programCounter := wrap32 (k + 1) } := by
  unfold Server.receive
  rw [sendFrame_eq e _ hlen, recvFrame_beBytes e _ hlen]
  simp only [Res.bind]
  rw [serialize_eq_layout e R k (fun x hx => (hR.2 x hx).2), deserialize_layout e R k hR hk]
  rfl

namespace Regex

theorem matches_rep13_digit (o rest : Str) (c : Caps) (ho : IsOctet o)
    (hr : NotFirst isDigit rest) : Matches (rep13 (.cls isDigit)) o rest c c := by
  obtain ⟨⟨hne, hall⟩, hlen⟩ := ho
  have hnil : ∀ (b : Regex), (Regex.seq (.cls isDigit) b).run rest c = [] := by
    intro b
    simp only [run, run_cls_of_notFirst isDigit rest c hr, List.flatMap_nil]
  match o, hne, hall, hlen with
  | [x], _, hall, _ =>
    have hx := hall x (List.mem_cons_self _ _)
    exact matches_seq _ _ [x] [] rest c c c (by simpa using matches_cls isDigit x rest c hx)
      (matches_alt_right _ _ [] rest c c (hnil _) (matches_eps rest c))
  | [x, y], _, hall, _ =>
    have hx := hall x (List.mem_cons_self _ _)
    have hy := hall y (List.mem_cons_of_mem _ (List.mem_cons_self _ _))
    have h2 : Matches (opt (.cls isDigit)) [] rest c c :=
      matches_alt_right _ _ [] rest c c (run_cls_of_notFirst isDigit rest c hr)
        (matches_eps rest c)
    exact matches_seq _ _ [x] [y] rest c c c (matches_cls isDigit x _ c hx)
      (matches_alt_left _ _ [y] rest c c
        (matches_seq _ _ [y] [] rest c c c (by simpa using matches_cls isDigit y rest c hy) h2))
  | [x, y, z], _, hall, _ =>
    have hx := hall x (List.mem_cons_self _ _)
    have hy := hall y (List.mem_cons_of_mem _ (List.mem_cons_self _ _))
    have hz := hall z (List.mem_cons_of_mem _ (List.mem_cons_of_mem _ (List.mem_cons_self _ _)))
    exact matches_seq _ _ [x] [y, z] rest c c c (matches_cls isDigit x _ c hx)
      (matches_alt_left _ _ [y, z] rest c c
        (matches_seq _ _ [y] [z] rest c c c (matches_cls isDigit y _ c hy)
          (matches_alt_left _ _ [z] rest c c (matches_cls isDigit z rest c hz))))
  | _ :: _ :: _ :: _ :: _, _, _, hlen => simp at hlen
  | [], hne, _, _ => exact absurd rfl hne

end Regex

theorem notFirst_digit_dot (rest : Str) : NotFirst isDigit (['.'] ++ rest) :=
  notFirst_cons isDigit '.' _ (by decide)

theorem search_migrateRegex (w o1 o2 o3 o4 : Str) (h1 : w ≠ []) (hw : IsBlank w)
    (ho1 : IsOctet o1) (ho2 : IsOctet o2) (ho3 : IsOctet o3) (ho4 : IsOctet o4) :
    regex_search migrateRegex (migrateLine w o1 o2 o3 o4) = [(1, ipText o1 o2 o3 o4)] := by
  have hsp : NotFirst isSpace (ipText o1 o2 o3 o4 ++ []) := by
    unfold ipText
    rw [List.append_assoc]
    exact notFirst_of_ne_nil _ _ _ ho1.1.1 (fun x hx => isSpace_of_isDigit x (ho1.1.2 x hx))
  have h := search_of_matches migrateRegex (migrateLine w o1 o2 o3 o4) []
    [(1, ipText o1 o2 o3 o4)]
    (by
      unfold migrateRegex migrateLine
      simp only [cat]
      refine matches_seq _ _ _ _ _ _ _ _ (matches_lit _ _ _) ?_
      refine matches_seq _ _ _ _ _ _ _ _ (matches_spaces1 w _ _ h1 hw hsp) ?_
      apply matches_group
      unfold ipText
      refine matches_seq _ _ _ _ _ _ _ _
        (matches_rep13_digit o1 _ _ ho1 (by simpa using notFirst_digit_dot _)) ?_
      refine matches_seq _ _ _ _ _ _ _ _
        (matches_seq _ _ _ _ _ _ _ _ (matches_lit _ _ _)
          (matches_rep13_digit o2 _ _ ho2 (by simpa using notFirst_digit_dot _))) ?_
      refine matches_seq _ _ _ _ _ _ _ _
        (matches_seq _ _ _ _ _ _ _ _ (matches_lit _ _ _)
          (matches_rep13_digit o3 _ _ ho3 (by simpa using notFirst_digit_dot _))) ?_
      exact matches_seq _ _ _ _ _ _ _ _ (matches_lit _ _ _)
        (matches_rep13_digit o4 _ _ ho4 (notFirst_nil _)))
  simpa using h

theorem executeArithmetic_migrate (line : Str) (R : RegistersMap) :
    executeArithmetic "MIGRATE".toList line R = none := by
  unfold executeArithmetic
  rw [if_neg (by decide), if_neg (by decide), if_neg (by decide), if_neg (by decide),
    if_neg (by decide), if_neg (by decide), if_neg (by decide), if_neg (by decide),
    if_neg (by decide), if_neg (by decide)]

theorem sender_exec_migrate (e : Endian) (name w o1 o2 o3 o4 : Str) (vm : VirtualMachine)
    (h1 : w ≠ []) (hw : IsBlank w) (ho1 : IsOctet o1) (ho2 : IsOctet o2) (ho3 : IsOctet o3)
    (ho4 : IsOctet o4) :
    Sender.executeAssemblyInstruction e (migrateLine w o1 o2 o3 o4) name vm
      = .ok { vm with out := vm.out ++ [.send (ipText o1 o2 o3 o4)
          (sendFrame e (serialize e vm.registers vm.programCounter))] } := by
  unfold Sender.executeAssemblyInstruction
  have hop : (regex_search opCodeRegexUpper (migrateLine w o1 o2 o3 o4)).str 1
      = "MIGRATE".toList :=
    opcode_upper "MIGRATE".toList w _ (by decide) (by decide) h1 hw
  simp only [hop, executeArithmetic_migrate]
  rw [if_neg (by decide), if_pos trivial,
    search_migrateRegex w o1 o2 o3 o4 h1 hw ho1 ho2 ho3 ho4]
  rfl

/-! ## The claims -/

/-- C1. Migration round trip: for every register file `R` (a `std::map` from names to 32-bit
signed integers, names shorter than `2^31` characters) and every program counter `p` of the
`int` range, `deserialize` applied to `serialize (R, p)` on a host of the same byte order
returns exactly `(R, p)`. -/
theorem migration_round_trip (e : Endian) (R : RegistersMap) (p : Int) (hR : R.WF)
    (hp : InI32 p) : deserialize e (serialize e R p) = .ok (R, p) := by
  rw [serialize_eq_layout e R p (fun x hx => (hR.2 x hx).2)]
  exact deserialize_layout e R p hR hp

theorem migration_round_trip_witness :
    exampleRegisters.WF ∧ InI32 3
      ∧ deserialize .little (serialize .little exampleRegisters 3) = .ok (exampleRegisters, 3) :=
  ⟨by decide, by decide,
    migration_round_trip .little exampleRegisters 3 (by decide) (by decide)⟩

/-- C2. Snapshot round trip: when a machine `src` whose registers hold 32-bit values writes a
snapshot and a machine `dst` loads the block written, each of the registers `$0` to `$31` of
`dst` has the value it has in `src`. -/
theorem snapshot_round_trip (e : Endian) (src dst : VirtualMachine) (snapshotPath : Str)
    (hv : ∀ x ∈ src.registers, InI32 x.2) :
    ∃ bytes, (Snapshot.createSnapshot e src snapshotPath).out
        = src.out ++ [.snapshot snapshotPath bytes]
      ∧ ∀ i : Fin 32, RegistersMap.get (regName i.val)
            (Snapshot.loadSnapshot e dst (some bytes)).registers
          = src.registers.get (regName i.val) := by
  refine ⟨(Snapshot.writeLoop e 32 0 src.registers).1, rfl, ?_⟩
  intro i
  have h := Snapshot.readLoop_writeLoop e 32 0 src.registers dst.registers []
    (inI32_get src.registers hv) i.val i.isLt
  simpa [Snapshot.loadSnapshot] using h

theorem snapshot_round_trip_witness :
    (∀ x ∈ exampleArith.registers, InI32 x.2)
      ∧ ∃ bytes, (Snapshot.createSnapshot .little exampleArith "vm1.snap".toList).out
          = exampleArith.out ++ [.snapshot "vm1.snap".toList bytes]
        ∧ ∀ i : Fin 32, RegistersMap.get (regName i.val)
              (Snapshot.loadSnapshot .little VirtualMachine.init (some bytes)).registers
            = exampleArith.registers.get (regName i.val) :=
  ⟨by decide, snapshot_round_trip .little exampleArith VirtualMachine.init "vm1.snap".toList
    (by decide)⟩

/-- C3. End-to-end migration: when the sender runs a `MIGRATE <ipv4>` instruction at index
`k` with register file `R`, the bytes handed to the connection are the frame of
`serialize (R, k)`; the receiver that reads this frame, deserializes it and applies the resume
rule holds the register file `R` and the program counter `k + 1`. -/
theorem migration_end_to_end (e : Endian) (name w o1 o2 o3 o4 : Str)
    (src dst : VirtualMachine) (k : Nat) (h1 : w ≠ []) (hw : IsBlank w) (ho1 : IsOctet o1)
    (ho2 : IsOctet o2) (ho3 : IsOctet o3) (ho4 : IsOctet o4) (hpc : src.programCounter = k)
    (hk : k < 2147483647) (hR : src.registers.WF)
    (hlen : (serialize e src.registers k).length < 4294967296) :
    Sender.executeAssemblyInstruction e (migrateLine w o1 o2 o3 o4) name src
        = .ok { src with out := src.out ++ [.send (ipText o1 o2 o3 o4)
            (sendFrame e (serialize e src.registers k))] }
      ∧ Server.receive e (sendFrame e (serialize e src.registers k)) dst
        = .ok { dst with registers := src.registers, programCounter := (k : Int) + 1 } := by
  refine ⟨?_, ?_⟩
  · rw [sender_exec_migrate e name w o1 o2 o3 o4 src h1 hw ho1 ho2 ho3 ho4, hpc]
  · rw [receive_sendFrame e src.registers k dst hR (by unfold InI32; omega) hlen,
      wrap32_of_inI32 _ (by unfold InI32; omega)]

theorem migration_end_to_end_witness :
    ([' '] ≠ [] ∧ IsBlank [' '] ∧ IsOctet "127".toList ∧ IsOctet "0".toList
        ∧ IsOctet "1".toList ∧ exampleSource.programCounter = (3 : Nat) ∧ 3 < 2147483647
        ∧ exampleSource.registers.WF
        ∧ (serialize .little exampleSource.registers (3 : Nat)).length < 4294967296)
      ∧ exampleSource.registers.get "$1".toList = 42
      ∧ (Sender.runLoop .little (some []) 10
            ((VirtualMachine.init.configureVirtualMachine 2).readAssemblyInstructions
              (some exampleProgram))).map (fun vm => vm.out)
          = .ok [.send "127.0.0.1".toList
              (sendFrame .little (serialize .little exampleSource.registers (3 : Nat)))]
      ∧ migrateLine [' '] "127".toList "0".toList "0".toList "1".toList
          = "MIGRATE 127.0.0.1".toList
      ∧ (Sender.executeAssemblyInstruction .little
            (migrateLine [' '] "127".toList "0".toList "0".toList "1".toList) [] exampleSource
          = .ok { exampleSource with out := exampleSource.out
              ++ [.send (ipText "127".toList "0".toList "0".toList "1".toList)
                (sendFrame .little (serialize .little exampleSource.registers (3 : Nat)))] }
        ∧ Server.receive .little
            (sendFrame .little (serialize .little exampleSource.registers (3 : Nat)))
            VirtualMachine.init
          = .ok { VirtualMachine.init with
              registers := exampleSource.registers, programCounter := ((3 : Nat) : Int) + 1 }) :=
  ⟨⟨by decide, by decide, by decide, by decide, by decide, by decide, by decide, by decide,
      by decide⟩, by decide, by decide, by decide,
    migration_end_to_end .little [] [' '] "127".toList "0".toList "0".toList "1".toList
      exampleSource VirtualMachine.init 3 (by decide) (by decide) (by decide) (by decide)
      (by decide) (by decide) (by decide) (by decide) (by decide) (by decide)⟩

/-- C4, at a failing input. The sender runs the program `exampleShort`, whose `MIGRATE`
instruction is at index 1, from a fresh machine with slice 10 (the stray read at program
counter 0 yields the empty string): the run stops with program counter 2, not 1, after the
instructions at indices 0 and 1 and before the one at index 2. When the stray read traps,
the run ends at once. -/
theorem sender_counter_after_migrate :
    (Sender.runLoop .little (some []) 10
          ((VirtualMachine.init.configureVirtualMachine 10).readAssemblyInstructions
            (some exampleShort))).map
        (fun vm => (vm.programCounter, vm.shouldContinue, vm.registers.get "$1".toList,
          vm.registers.get "$2".toList, vm.out.length))
      = .ok (2, false, 42, 0, 1)
    ∧ Sender.runLoop .little none 10
          ((VirtualMachine.init.configureVirtualMachine 10).readAssemblyInstructions
            (some exampleShort))
      = .fault .outOfBounds := by
  constructor <;> decide

/-- C5. Migration buffer layout: for every register file `R` and program counter `p`,
`serialize (R, p)` is the 4-byte program counter followed, for each entry of `R` in ascending
order of the name strings, by the 4-byte length of the name, the bytes of the name and the
4-byte value; its length is 4 plus the sum over the entries of 8 plus the length of the name. -/
theorem migration_buffer_layout (e : Endian) (R : RegistersMap) (p : Int) (hR : R.WF) :
    serialize e R p = int32Bytes e p ++ R.flatMap (fun reg =>
        int32Bytes e reg.1.length ++ reg.1.map Char.toNat ++ int32Bytes e reg.2)
      ∧ List.Pairwise (fun a b => strLt a b = true) (R.map Prod.fst)
      ∧ (serialize e R p).length = 4 + (R.map (fun reg => 8 + reg.1.length)).sum := by
  have h := serialize_eq_layout e R p (fun x hx => (hR.2 x hx).2)
  refine ⟨h, ?_, ?_⟩
  · rw [List.pairwise_map]; exact hR.1
  · rw [h, migrationLayout, List.length_append, int32Bytes_length, flatMap_entryBytes_length]

theorem migration_buffer_layout_witness :
    exampleRegisters.WF
      ∧ exampleRegisters.map Prod.fst = ["$1".toList, "$10".toList, "$2".toList]
      ∧ (serialize .little exampleRegisters 3
          = int32Bytes .little 3 ++ exampleRegisters.flatMap (fun reg =>
              int32Bytes .little reg.1.length ++ reg.1.map Char.toNat
                ++ int32Bytes .little reg.2)
        ∧ List.Pairwise (fun a b => strLt a b = true) (exampleRegisters.map Prod.fst)
        ∧ (serialize .little exampleRegisters 3).length
          = 4 + (exampleRegisters.map (fun reg => 8 + reg.1.length)).sum) :=
  ⟨by decide, by decide, migration_buffer_layout .little exampleRegisters 3 (by decide)⟩

/-- C6, counterexample. On a little-endian host the buffer `serialize` writes for the register
file `{$1 = 42}` and program counter 3 is not the buffer in network byte order, it differs
from the buffer a big-endian host writes, and `deserialize` does not read the network-order
buffer back as `({$1 = 42}, 3)`. -/
theorem serialize_not_network_order :
    serialize .little [("$1".toList, 42)] 3 ≠ networkLayout [("$1".toList, 42)] 3
      ∧ serialize .little [("$1".toList, 42)] 3 ≠ serialize .big [("$1".toList, 42)] 3
      ∧ deserialize .little (networkLayout [("$1".toList, 42)] 3)
        ≠ .ok ([("$1".toList, 42)], 3) := by
  refine ⟨?_, ?_, ?_⟩ <;> decide

/-- C6, amended. Every 4-byte integer field of the migration buffer is written by `serialize`
and read by `deserialize` in the byte order of the host: least significant byte first on a
little-endian host, network byte order on a big-endian host only; a buffer is read back by a
host of the same byte order. -/
theorem serialize_host_byte_order (e : Endian) (R : RegistersMap) (p : Int) (hR : R.WF)
    (hp : InI32 p) :
    serialize e R p = hostBytes e (toU32 p) ++ R.flatMap (fun reg =>
        hostBytes e (toU32 reg.1.length) ++ reg.1.map Char.toNat ++ hostBytes e (toU32 reg.2))
      ∧ deserialize e (serialize e R p) = .ok (R, p)
      ∧ (∀ u, hostBytes .little u = leBytes u)
      ∧ serialize .big R p = networkLayout R p := by
  refine ⟨serialize_eq_layout e R p (fun x hx => (hR.2 x hx).2), ?_, fun _ => rfl, ?_⟩
  · rw [serialize_eq_layout e R p (fun x hx => (hR.2 x hx).2)]
    exact deserialize_layout e R p hR hp
  · exact serialize_eq_layout .big R p (fun x hx => (hR.2 x hx).2)

theorem serialize_host_byte_order_witness :
    RegistersMap.WF [("$1".toList, 42)] ∧ InI32 3
      ∧ serialize .little [("$1".toList, 42)] 3
        = [3, 0, 0, 0, 2, 0, 0, 0, 36, 49, 42, 0, 0, 0]
      ∧ (serialize .little [("$1".toList, 42)] 3
          = hostBytes .little (toU32 3) ++ List.flatMap [("$1".toList, (42 : Int))] (fun reg =>
              hostBytes .little (toU32 reg.1.length) ++ reg.1.map Char.toNat
                ++ hostBytes .little (toU32 reg.2))
        ∧ deserialize .little (serialize .little [("$1".toList, 42)] 3)
          = .ok ([("$1".toList, 42)], 3)
        ∧ (∀ u, hostBytes .little u = leBytes u)
        ∧ serialize .big [("$1".toList, 42)] 3 = networkLayout [("$1".toList, 42)] 3) :=
  ⟨by decide, by decide, by decide,
    serialize_host_byte_order .little [("$1".toList, 42)] 3 (by decide) (by decide)⟩

/-- C7. Transport framing: for every buffer `B` of length `n < 2^32`, the bytes the sender
writes are the 4-byte big-endian encoding of `n` followed by `B`, on a host of either byte
order, and the receiver, on a host of either byte order, recovers exactly `B`. -/
theorem transport_framing (e e' : Endian) (B : List Nat) (h : B.length < 4294967296) :
    sendFrame e B = [B.length / 16777216 % 256, B.length / 65536 % 256,
        B.length / 256 % 256, B.length % 256] ++ B
      ∧ Server.recvFrame e' (sendFrame e B) = .ok B := by
  have hs := sendFrame_eq e B h
  refine ⟨hs, ?_⟩
  rw [hs]
  exact recvFrame_beBytes e' B h

theorem transport_framing_witness :
    [7, 8, 9].length < 4294967296
      ∧ sendFrame .little [7, 8, 9] = [0, 0, 0, 3, 7, 8, 9]
      ∧ (sendFrame .little [7, 8, 9] = [[7, 8, 9].length / 16777216 % 256,
            [7, 8, 9].length / 65536 % 256, [7, 8, 9].length / 256 % 256,
            [7, 8, 9].length % 256] ++ [7, 8, 9]
        ∧ Server.recvFrame .big (sendFrame .little [7, 8, 9]) = .ok [7, 8, 9]) :=
  ⟨by decide, by decide, transport_framing .little .big [7, 8, 9] (by decide)⟩

/-- C8. Snapshot block layout: for every machine, `createSnapshot` writes exactly 128 bytes,
and the bytes `4 i` to `4 i + 3`, for `i` from 0 to 31, are the four bytes of register `$i`
in host memory; there is no header, length or program counter. -/
theorem snapshot_layout (e : Endian) (vm : VirtualMachine) (snapshotPath : Str) :
    ∃ bytes, (Snapshot.createSnapshot e vm snapshotPath).out
        = vm.out ++ [.snapshot snapshotPath bytes]
      ∧ bytes.length = 128
      ∧ ∀ i : Fin 32, (bytes.drop (4 * i.val)).take 4
          = int32Bytes e (vm.registers.get (regName i.val)) := by
  refine ⟨(Snapshot.writeLoop e 32 0 vm.registers).1, rfl,
    Snapshot.writeLoop_length e 32 0 _, ?_⟩
  intro i
  have h := Snapshot.writeLoop_slice e 32 0 vm.registers i.val i.isLt
  simpa using h

/-- C9, at a failing input. With `$3 = -2`, the instruction `srl $2, $3, 1` sets `$2` to `-1`
in the snapshot program and in the migration sender: the sign bit is shifted in, the result
is not `2147483647`. -/
theorem srl_shifts_sign_bit_in :
    (Snapshot.executeAssemblyInstruction .little "srl $2, $3, 1".toList [] exampleShift).map
        (fun vm => vm.registers.get "$2".toList) = .ok (-1)
      ∧ (Sender.executeAssemblyInstruction .little "srl $2, $3, 1".toList [] exampleShift).map
        (fun vm => vm.registers.get "$2".toList) = .ok (-1)
      ∧ exampleShift.registers.get "$3".toList = -2
      ∧ toU32 (-2) / 2 ^ 1 = 2147483647 := by
  refine ⟨?_, ?_, ?_, ?_⟩ <;> decide

theorem arithmetic_semantics_witness :
    ([' '] ≠ [] ∧ IsBlank [' '] ∧ IsBlank [] ∧ InI32 10)
      ∧ rrrLine "add".toList [' '] [] [] 2 3 4 = "add $2,$3,$4".toList
      ∧ wrap32 (exampleArith.registers.get (regName 3) + exampleArith.registers.get (regName 4))
        = 12
      ∧ wrap32 (exampleArith.registers.get (regName 3) - exampleArith.registers.get (regName 4))
        = -2
      ∧ (SetsOnly exampleArith
          (Snapshot.executeAssemblyInstruction .little (liLine [' '] [] [] 2 10) [] exampleArith)
          (regName 2) 10
        ∧ SetsOnly exampleArith
          (Snapshot.executeAssemblyInstruction .little
            (rrrLine "add".toList [' '] [] [] 2 3 4) [] exampleArith)
          (regName 2)
          (wrap32 (exampleArith.registers.get (regName 3)
            + exampleArith.registers.get (regName 4)))
        ∧ SetsOnly exampleArith
          (Snapshot.executeAssemblyInstruction .little
            (rriLine "addi".toList [' '] [] [] 2 3 10) [] exampleArith)
          (regName 2) (wrap32 (exampleArith.registers.get (regName 3) + 10))
        ∧ SetsOnly exampleArith
          (Snapshot.executeAssemblyInstruction .little
            (rrrLine "sub".toList [' '] [] [] 2 3 4) [] exampleArith)
          (regName 2)
          (wrap32 (exampleArith.registers.get (regName 3)
            - exampleArith.registers.get (regName 4)))
        ∧ SetsOnly exampleArith
          (Snapshot.executeAssemblyInstruction .little
            (rrrLine "mul".toList [' '] [] [] 2 3 4) [] exampleArith)
          (regName 2)
          (wrap32 (exampleArith.registers.get (regName 3)
            * exampleArith.registers.get (regName 4)))) :=
  ⟨⟨by decide, by decide, by decide, by decide⟩, by decide, by decide, by decide,
    arithmetic_semantics .little [] exampleArith [' '] [] [] 2 3 4 10 (by decide) (by decide)
      (by decide) (by decide) (by decide)⟩


/-! ## Later claims -/


/-! ## The bitwise and shift instructions -/

namespace Regex

theorem starRun_cls_suffix (p : Char → Bool) (fuel : Nat) (s : Str) (c : Caps)
    (r : Str × Caps) (hr : r ∈ starRun (Regex.cls p).run fuel s c) : r.1 <:+ s := by
  induction fuel generalizing s c with
  | zero =>
    simp only [starRun, List.mem_singleton] at hr
    rw [hr]
  | succ k ih =>
    simp only [starRun, List.mem_append, List.mem_flatMap, List.mem_filter,
      List.mem_singleton] at hr
    rcases hr with ⟨r0, ⟨hr0, _⟩, hr1⟩ | hr
    · cases s with
      | nil => simp [run] at hr0
      | cons x xs =>
        simp only [run] at hr0
        split at hr0
        · simp only [List.mem_singleton] at hr0
          rw [hr0] at hr1
          exact (ih xs c hr1).trans (List.suffix_cons x xs)
        · simp at hr0
    · rw [hr]

theorem notFirst_of_suffix (q : Char → Bool) (t s : Str) (ht : t <:+ s)
    (hs : ∀ x ∈ s, q x = false) : NotFirst q t := by
  intro x hx
  cases t with
  | nil => simp at hx
  | cons y ys =>
    simp only [List.head?_cons, Option.some.injEq] at hx
    subst hx
    exact hs y (ht.subset (List.mem_cons_self _ _))

theorem run_seq (a b : Regex) (s : Str) (c : Caps) :
    (Regex.seq a b).run s c = (a.run s c).flatMap (fun r => b.run r.1 r.2) := by
  rw [run]

theorem run_group (n : Nat) (a : Regex) (s : Str) (c : Caps) :
    (Regex.group n a).run s c
      = (a.run s c).map (fun r => (r.1, (n, s.take (s.length - r.1.length)) :: r.2)) := by
  rw [run]

theorem run_reReg_of_notFirst (n : Nat) (s : Str) (c : Caps)
    (h : NotFirst (fun y => y == '$') s) : (reReg n).run s c = [] := by
  unfold reReg
  rw [run_group, run_seq, run_lit_of_notFirst '$' [] s c h]
  rfl

theorem run_lit_one (x : Char) (rest : Str) (c : Caps) :
    (lit [x]).run (x :: rest) c = [(rest, c)] := by
  simp [lit, run]

/-- The alternative `,\s*(\$\d+)` of the expression of `or` matches nothing in front of text
without a `$`. -/
theorem run_comma_reg_nil (n : Nat) (rest : Str) (c : Caps)
    (h : ∀ x ∈ rest, (x == '$') = false) :
    (cat [lit [','], reSpaces, reReg n]).run ([','] ++ rest) c = [] := by
  rw [show cat [lit [','], reSpaces, reReg n] = .seq (lit [',']) (.seq reSpaces (reReg n))
    from rfl, show ([','] ++ rest : Str) = ',' :: rest from rfl, run_seq, run_lit_one]
  simp only [List.flatMap_cons, List.flatMap_nil, List.append_nil]
  rw [run_seq, List.flatMap_eq_nil_iff]
  intro r hr
  have hsuf : r.1 <:+ rest := by
    unfold reSpaces at hr
    rw [run] at hr
    exact starRun_cls_suffix isSpace _ rest c r hr
  exact run_reReg_of_notFirst n r.1 r.2 (notFirst_of_suffix _ r.1 rest hsuf h)

end Regex

theorem no_dollar_of_isSpace (x : Char) (h : isSpace x = true) : (x == '$') = false := by
  cases hx : (x == '$') with
  | false => rfl
  | true =>
    have : x = '$' := by simpa using hx
    subst this
    exact absurd h (by decide)

theorem no_dollar_of_isDigit (x : Char) (h : isDigit x = true) : (x == '$') = false := by
  cases hx : (x == '$') with
  | false => rfl
  | true =>
    have : x = '$' := by simpa using hx
    subst this
    exact absurd h (by decide)

theorem no_dollar_to_string (i : Int) : ∀ x ∈ to_string i, (x == '$') = false := by
  intro x hx
  rcases to_string_cases i with hd | ⟨ds, hd, he⟩
  · exact no_dollar_of_isDigit x (hd.2 x hx)
  · rw [he] at hx
    rcases List.mem_cons.mp hx with h | h
    · rw [h]; decide
    · exact no_dollar_of_isDigit x (hd.2 x h)

theorem search_orRegex_reg (w1 w2 w3 : Str) (d s t : Nat) (h1 : w1 ≠ []) (hw1 : IsBlank w1)
    (hw2 : IsBlank w2) (hw3 : IsBlank w3) :
    regex_search orRegex (rrrLine "or".toList w1 w2 w3 d s t)
      = [(3, regName t), (2, regName s), (1, regName d)] := by
  have h := search_of_matches orRegex (rrrLine "or".toList w1 w2 w3 d s t) []
    [(3, regName t), (2, regName s), (1, regName d)]
    (by
      unfold orRegex rrrLine
      simp only [cat]
      refine matches_seq _ _ _ _ _ _ _ _ (matches_lit _ _ _) ?_
      refine matches_seq _ _ _ _ _ _ _ _
        (matches_spaces1 w1 _ _ h1 hw1 (by simpa using notFirst_space_regName d _)) ?_
      refine matches_seq _ _ _ _ _ _ _ _
        (matches_reReg 1 d _ _ (by simpa using notFirst_digit_comma _)) ?_
      refine matches_seq _ _ _ _ _ _ _ _ (matches_lit _ _ _) ?_
      refine matches_seq _ _ _ _ _ _ _ _
        (matches_spaces w2 _ _ hw2 (by simpa using notFirst_space_regName s _)) ?_
      refine matches_seq _ _ _ _ _ _ _ _
        (matches_reReg 2 s _ _ (by simpa using notFirst_digit_comma _)) ?_
      apply matches_alt_left
      refine matches_seq _ _ _ _ _ _ _ _ (matches_lit _ _ _) ?_
      refine matches_seq _ _ _ _ _ _ _ _
        (matches_spaces w3 _ _ hw3 (by simpa using notFirst_space_regName t [])) ?_
      exact matches_reReg 3 t [] _ (notFirst_nil _))
  simpa using h

theorem search_orRegex_imm (w1 w2 w3 : Str) (d s : Nat) (imm : Int) (h1 : w1 ≠ [])
    (hw1 : IsBlank w1) (hw2 : IsBlank w2) (hw3 : IsBlank w3) :
    regex_search orRegex (rriLine "or".toList w1 w2 w3 d s imm)
      = [(4, to_string imm), (2, regName s), (1, regName d)] := by
  have hno : ∀ x ∈ w3 ++ to_string imm ++ [], (x == '$') = false := by
    intro x hx
    simp only [List.append_nil, List.mem_append] at hx
    rcases hx with hx | hx
    · exact no_dollar_of_isSpace x (hw3 x hx)
    · exact no_dollar_to_string imm x hx
  have h := search_of_matches orRegex (rriLine "or".toList w1 w2 w3 d s imm) []
    [(4, to_string imm), (2, regName s), (1, regName d)]
    (by
      unfold orRegex rriLine
      simp only [cat]
      refine matches_seq _ _ _ _ _ _ _ _ (matches_lit _ _ _) ?_
      refine matches_seq _ _ _ _ _ _ _ _
        (matches_spaces1 w1 _ _ h1 hw1 (by simpa using notFirst_space_regName d _)) ?_
      refine matches_seq _ _ _ _ _ _ _ _
        (matches_reReg 1 d _ _ (by simpa using notFirst_digit_comma _)) ?_
      refine matches_seq _ _ _ _ _ _ _ _ (matches_lit _ _ _) ?_
      refine matches_seq _ _ _ _ _ _ _ _
        (matches_spaces w2 _ _ hw2 (by simpa using notFirst_space_regName s _)) ?_
      refine matches_seq _ _ _ _ _ _ _ _
        (matches_reReg 2 s _ _ (by simpa using notFirst_digit_comma _)) ?_
      apply matches_alt_right
      · exact run_comma_reg_nil 3 (w3 ++ to_string imm ++ []) [(2, regName s), (1, regName d)]
          hno
      · refine matches_seq _ _ _ _ _ _ _ _ (matches_lit _ _ _) ?_
        refine matches_seq _ _ _ _ _ _ _ _
          (matches_spaces w3 _ _ hw3 (by simpa using notFirst_space_to_string imm [])) ?_
        exact matches_reImm 4 imm [] _ (notFirst_nil _))
  simpa using h


theorem arith_and (w1 w2 w3 : Str) (d s t : Nat) (R : RegistersMap) (h1 : w1 ≠ [])
    (hw1 : IsBlank w1) (hw2 : IsBlank w2) (hw3 : IsBlank w3) :
    executeArithmetic "and".toList (rrrLine "and".toList w1 w2 w3 d s t) R
      = some (.ok (binop and32 (regName d) (regName s) (regName t) R)) := by
  unfold executeArithmetic
  rw [if_neg (by decide), if_neg (by decide), if_neg (by decide), if_neg (by decide),
    if_neg (by decide), if_pos rfl]
  simp only [search_rrrRegex _ w1 w2 w3 d s t h1 hw1 hw2 hw3, (str_three _ _ _).1,
    (str_three _ _ _).2.1, (str_three _ _ _).2.2]

theorem arith_or_reg (w1 w2 w3 : Str) (d s t : Nat) (R : RegistersMap) (h1 : w1 ≠ [])
    (hw1 : IsBlank w1) (hw2 : IsBlank w2) (hw3 : IsBlank w3) :
    executeArithmetic "or".toList (rrrLine "or".toList w1 w2 w3 d s t) R
      = some (.ok (binop or32 (regName d) (regName s) (regName t) R)) := by
  unfold executeArithmetic
  rw [if_neg (by decide), if_neg (by decide), if_neg (by decide), if_neg (by decide),
    if_neg (by decide), if_neg (by decide), if_pos rfl]
  simp only [search_orRegex_reg w1 w2 w3 d s t h1 hw1 hw2 hw3, (str_three _ _ _).1,
    (str_three _ _ _).2.1, (str_three _ _ _).2.2]
  have hm3 : Caps.matched [(3, regName t), (2, regName s), (1, regName d)] 3 = true := rfl
  rw [if_pos hm3]

theorem arith_or_imm (w1 w2 w3 : Str) (d s : Nat) (imm : Int) (R : RegistersMap)
    (h1 : w1 ≠ []) (hw1 : IsBlank w1) (hw2 : IsBlank w2) (hw3 : IsBlank w3)
    (himm : InI32 imm) :
    executeArithmetic "or".toList (rriLine "or".toList w1 w2 w3 d s imm) R
      = some (.ok (immop or32 (regName d) (regName s) imm R)) := by
  unfold executeArithmetic
  rw [if_neg (by decide), if_neg (by decide), if_neg (by decide), if_neg (by decide),
    if_neg (by decide), if_neg (by decide), if_pos rfl]
  simp only [search_orRegex_imm w1 w2 w3 d s imm h1 hw1 hw2 hw3]
  have hm3 : Caps.matched [(4, to_string imm), (2, regName s), (1, regName d)] 3 = false := rfl
  have hm4 : Caps.matched [(4, to_string imm), (2, regName s), (1, regName d)] 4 = true := rfl
  have hs4 : Caps.str [(4, to_string imm), (2, regName s), (1, regName d)] 4 = to_string imm :=
    rfl
  have hs2 : Caps.str [(4, to_string imm), (2, regName s), (1, regName d)] 2 = regName s := rfl
  have hs1 : Caps.str [(4, to_string imm), (2, regName s), (1, regName d)] 1 = regName d := rfl
  rw [hm3, hm4, hs4, hs2, hs1, stoi_to_string imm himm]
  rfl

theorem arith_xor (w1 w2 w3 : Str) (d s t : Nat) (R : RegistersMap) (h1 : w1 ≠ [])
    (hw1 : IsBlank w1) (hw2 : IsBlank w2) (hw3 : IsBlank w3) :
    executeArithmetic "xor".toList (rrrLine "xor".toList w1 w2 w3 d s t) R
      = some (.ok (binop xor32 (regName d) (regName s) (regName t) R)) := by
  unfold executeArithmetic
  rw [if_neg (by decide), if_neg (by decide), if_neg (by decide), if_neg (by decide),
    if_neg (by decide), if_neg (by decide), if_neg (by decide), if_pos rfl]
  simp only [search_rrrRegex _ w1 w2 w3 d s t h1 hw1 hw2 hw3, (str_three _ _ _).1,
    (str_three _ _ _).2.1, (str_three _ _ _).2.2]

theorem arith_sll (w1 w2 w3 : Str) (d s n : Nat) (R : RegistersMap) (h1 : w1 ≠ [])
    (hw1 : IsBlank w1) (hw2 : IsBlank w2) (hw3 : IsBlank w3) (hn : n < 32) :
    executeArithmetic "sll".toList (rriLine "sll".toList w1 w2 w3 d s (n : Int)) R
      = some (.ok (immop shl32 (regName d) (regName s) (n : Int) R)) := by
  unfold executeArithmetic
  rw [if_neg (by decide), if_neg (by decide), if_neg (by decide), if_neg (by decide),
    if_neg (by decide), if_neg (by decide), if_neg (by decide), if_neg (by decide),
    if_pos rfl]
  simp only [search_shiftRegex _ w1 w2 w3 d s n h1 hw1 hw2 hw3, (str_three _ _ _).1,
    (str_three _ _ _).2.1, (str_three _ _ _).2.2,
    stoi_to_string (n : Int) (by unfold InI32; omega), Res.bind]
  rw [if_neg (by omega)]

theorem arith_srl (w1 w2 w3 : Str) (d s n : Nat) (R : RegistersMap) (h1 : w1 ≠ [])
    (hw1 : IsBlank w1) (hw2 : IsBlank w2) (hw3 : IsBlank w3) (hn : n < 32) :
    executeArithmetic "srl".toList (rriLine "srl".toList w1 w2 w3 d s (n : Int)) R
      = some (.ok (immop shr32 (regName d) (regName s) (n : Int) R)) := by
  unfold executeArithmetic
  rw [if_neg (by decide), if_neg (by decide), if_neg (by decide), if_neg (by decide),
    if_neg (by decide), if_neg (by decide), if_neg (by decide), if_neg (by decide),
    if_neg (by decide), if_pos rfl]
  simp only [search_shiftRegex _ w1 w2 w3 d s n h1 hw1 hw2 hw3, (str_three _ _ _).1,
    (str_three _ _ _).2.1, (str_three _ _ _).2.2,
    stoi_to_string (n : Int) (by unfold InI32; omega), Res.bind]
  rw [if_neg (by omega)]

/-- C11. Bitwise and shift-left semantics of `Snapshot/myvmm.cc`: for all register numbers
`d`, `s`, `t` (so also for `$0` to `$31`), running `and`, `xor` or `or` with a register as
third operand sets `Rd` to `Rs & Rt`, `Rs ^ Rt` or `Rs | Rt`; `or Rd, Rs, imm` with a numeric
literal sets `Rd` to `Rs | imm`; `sll Rd, Rt, n` with `n` from 0 to 31 sets `Rd` to
`Rt * 2^n` reduced modulo `2^32`; every other register, and the rest of the machine, is
unchanged. -/
theorem bitwise_semantics (e : Endian) (name : Str) (vm : VirtualMachine) (w1 w2 w3 : Str)
    (d s t n : Nat) (imm : Int) (h1 : w1 ≠ []) (hw1 : IsBlank w1) (hw2 : IsBlank w2)
    (hw3 : IsBlank w3) (himm : InI32 imm) (hn : n < 32) :
    SetsOnly vm
        (Snapshot.executeAssemblyInstruction e (rrrLine "and".toList w1 w2 w3 d s t) name vm)
        (regName d) (and32 (vm.registers.get (regName s)) (vm.registers.get (regName t)))
    ∧ SetsOnly vm
        (Snapshot.executeAssemblyInstruction e (rrrLine "xor".toList w1 w2 w3 d s t) name vm)
        (regName d) (xor32 (vm.registers.get (regName s)) (vm.registers.get (regName t)))
    ∧ SetsOnly vm
        (Snapshot.executeAssemblyInstruction e (rrrLine "or".toList w1 w2 w3 d s t) name vm)
        (regName d) (or32 (vm.registers.get (regName s)) (vm.registers.get (regName t)))
    ∧ SetsOnly vm
        (Snapshot.executeAssemblyInstruction e (rriLine "or".toList w1 w2 w3 d s imm) name vm)
        (regName d) (or32 (vm.registers.get (regName s)) imm)
    ∧ SetsOnly vm
        (Snapshot.executeAssemblyInstruction e (rriLine "sll".toList w1 w2 w3 d s (n : Int))
          name vm)
        (regName d) (wrap32 (vm.registers.get (regName s) * 2 ^ n)) := by
  refine ⟨?_, ?_, ?_, ?_, ?_⟩
  · rw [show rrrLine "and".toList w1 w2 w3 d s t = "and".toList ++ (w1 ++ _) from rfl,
      snapshot_exec_arith e _ w1 _ name vm _ (by decide) (by decide) h1 hw1
        (arith_and w1 w2 w3 d s t _ h1 hw1 hw2 hw3)]
    exact setsOnly_binop vm _ _ _ _
  · rw [show rrrLine "xor".toList w1 w2 w3 d s t = "xor".toList ++ (w1 ++ _) from rfl,
      snapshot_exec_arith e _ w1 _ name vm _ (by decide) (by decide) h1 hw1
        (arith_xor w1 w2 w3 d s t _ h1 hw1 hw2 hw3)]
    exact setsOnly_binop vm _ _ _ _
  · rw [show rrrLine "or".toList w1 w2 w3 d s t = "or".toList ++ (w1 ++ _) from rfl,
      snapshot_exec_arith e _ w1 _ name vm _ (by decide) (by decide) h1 hw1
        (arith_or_reg w1 w2 w3 d s t _ h1 hw1 hw2 hw3)]
    exact setsOnly_binop vm _ _ _ _
  · rw [show rriLine "or".toList w1 w2 w3 d s imm = "or".toList ++ (w1 ++ _) from rfl,
      snapshot_exec_arith e _ w1 _ name vm _ (by decide) (by decide) h1 hw1
        (arith_or_imm w1 w2 w3 d s imm _ h1 hw1 hw2 hw3 himm)]
    exact setsOnly_immop vm _ _ _ _
  · rw [show rriLine "sll".toList w1 w2 w3 d s (n : Int) = "sll".toList ++ (w1 ++ _) from rfl,
      snapshot_exec_arith e _ w1 _ name vm _ (by decide) (by decide) h1 hw1
        (arith_sll w1 w2 w3 d s n _ h1 hw1 hw2 hw3 hn)]
    have := setsOnly_immop vm shl32 (regName d) (regName s) (n : Int)
    simpa [shl32] using this


/-! ## Lines that are not instructions, and registers outside `$0` to `$31` -/

theorem executeArithmetic_none (opcode line : Str) (R : RegistersMap)
    (h : opcode ∉ arithmeticOpcodes) : executeArithmetic opcode line R = none := by
  simp only [arithmeticOpcodes, List.mem_cons, List.mem_singleton, not_or, List.mem_nil_iff,
    or_false] at h
  obtain ⟨h1, h2, h3, h4, h5, h6, h7, h8, h9, h10⟩ := h
  unfold executeArithmetic
  rw [if_neg h1, if_neg h2, if_neg h3, if_neg h4, if_neg h5, if_neg h6, if_neg h7, if_neg h8,
    if_neg h9, if_neg h10]

theorem snapshot_exec_unknown (e : Endian) (line name : Str) (vm : VirtualMachine)
    (h : (regex_search opCodeRegexLower line).str 1 ∉ Snapshot.knownOpcodes) :
    Snapshot.executeAssemblyInstruction e line name vm = .ok vm := by
  simp only [Snapshot.knownOpcodes, List.mem_append, List.mem_cons, List.mem_singleton,
    not_or, List.mem_nil_iff, or_false] at h
  unfold Snapshot.executeAssemblyInstruction
  simp only [executeArithmetic_none _ line vm.registers h.1]
  rw [if_neg h.2.1, if_neg h.2.2]

theorem server_exec_unknown (line name : Str) (vm : VirtualMachine)
    (h : (regex_search opCodeRegexLower line).str 1 ∉ Server.knownOpcodes) :
    Server.executeAssemblyInstruction line name vm = .ok vm := by
  simp only [Server.knownOpcodes, List.mem_append, List.mem_cons, List.mem_singleton,
    not_or, List.mem_nil_iff, or_false] at h
  unfold Server.executeAssemblyInstruction
  simp only [executeArithmetic_none _ line vm.registers h.1]
  rw [if_neg h.2]

theorem sender_exec_unknown (e : Endian) (line name : Str) (vm : VirtualMachine)
    (h : (regex_search opCodeRegexUpper line).str 1 ∉ Sender.knownOpcodes) :
    Sender.executeAssemblyInstruction e line name vm = .ok vm := by
  simp only [Sender.knownOpcodes, List.mem_append, List.mem_cons, List.mem_singleton,
    not_or, List.mem_nil_iff, or_false] at h
  unfold Sender.executeAssemblyInstruction
  simp only [executeArithmetic_none _ line vm.registers h.1]
  rw [if_neg h.2.1, if_neg h.2.2]

/-- C12, counterexample. On a fresh machine the line `add $1, $2` (an operand is missing) ends
normally, reports nothing and creates the register with the empty name; the line
`foo $1, $2` (unknown opcode) ends normally as well and reports nothing. -/
theorem malformed_line_not_rejected :
    Snapshot.executeAssemblyInstruction .little "add $1, $2".toList [] VirtualMachine.init
        = .ok { VirtualMachine.init with
            registers := RegistersMap.assign [] 0 VirtualMachine.init.registers }
      ∧ VirtualMachine.init.registers.find [] = none
      ∧ (RegistersMap.assign [] 0 VirtualMachine.init.registers).find [] = some 0
      ∧ Sender.executeAssemblyInstruction .little "add $1, $2".toList [] VirtualMachine.init
        = .ok { VirtualMachine.init with
            registers := RegistersMap.assign [] 0 VirtualMachine.init.registers }
      ∧ Snapshot.executeAssemblyInstruction .little "foo $1, $2".toList [] VirtualMachine.init
        = .ok VirtualMachine.init := by
  refine ⟨?_, ?_, ?_, ?_, ?_⟩ <;> decide

/-- C12, amended. The programs have no decode failure. A line whose opcode (the first run of
lower-case letters, of letters in the sender) is none of the strings the program compares it
with is skipped: the run ends normally, nothing is reported and the machine, its register file
included, is exactly as it was. -/
theorem unknown_opcode_is_skipped (e : Endian) (line name : Str) (vm : VirtualMachine) :
    ((regex_search opCodeRegexLower line).str 1 ∉ Snapshot.knownOpcodes →
        Snapshot.executeAssemblyInstruction e line name vm = .ok vm)
      ∧ ((regex_search opCodeRegexLower line).str 1 ∉ Server.knownOpcodes →
        Server.executeAssemblyInstruction line name vm = .ok vm)
      ∧ ((regex_search opCodeRegexUpper line).str 1 ∉ Sender.knownOpcodes →
        Sender.executeAssemblyInstruction e line name vm = .ok vm) :=
  ⟨snapshot_exec_unknown e line name vm, server_exec_unknown line name vm,
    sender_exec_unknown e line name vm⟩

theorem unknown_opcode_is_skipped_witness :
    ((regex_search opCodeRegexLower "foo $1, $2".toList).str 1 ∉ Snapshot.knownOpcodes
        ∧ (regex_search opCodeRegexLower "foo $1, $2".toList).str 1 ∉ Server.knownOpcodes
        ∧ (regex_search opCodeRegexUpper "foo $1, $2".toList).str 1 ∉ Sender.knownOpcodes)
      ∧ Snapshot.executeAssemblyInstruction .little "foo $1, $2".toList [] exampleArith
        = .ok exampleArith
      ∧ Server.executeAssemblyInstruction "foo $1, $2".toList [] exampleArith
        = .ok exampleArith
      ∧ Sender.executeAssemblyInstruction .little "foo $1, $2".toList [] exampleArith
        = .ok exampleArith :=
  ⟨⟨by decide, by decide, by decide⟩,
    (unknown_opcode_is_skipped .little "foo $1, $2".toList [] exampleArith).1 (by decide),
    (unknown_opcode_is_skipped .little "foo $1, $2".toList [] exampleArith).2.1 (by decide),
    (unknown_opcode_is_skipped .little "foo $1, $2".toList [] exampleArith).2.2 (by decide)⟩

namespace RegistersMap

theorem find_touch_self (k : Str) (R : RegistersMap) : ((touch k R).find k).isSome = true := by
  unfold touch
  cases h : find k R with
  | some v => simp [h]
  | none => simp [find_assign_self]

theorem find_touch_other (k n : Str) (R : RegistersMap) (h : (R.find n).isSome = true) :
    ((touch k R).find n).isSome = true := by
  by_cases hn : n = k
  · subst hn; exact find_touch_self n R
  · unfold touch
    cases hk : find k R with
    | some v => simpa using h
    | none => simp only; rw [find_assign_other k n 0 R hn]; exact h

theorem find_assign_isSome (k n : Str) (v : Int) (R : RegistersMap)
    (h : (R.find n).isSome = true) : ((assign k v R).find n).isSome = true := by
  by_cases hn : n = k
  · subst hn; rw [find_assign_self]; rfl
  · rw [find_assign_other k n v R hn]; exact h

end RegistersMap

theorem writes_binop (vm : VirtualMachine) (f : Int → Int → Int) (rd rs rt : Str) :
    WritesAndCreates vm (.ok { vm with registers := binop f rd rs rt vm.registers }) rd
      (f (vm.registers.get rs) (vm.registers.get rt)) [rs, rt] := by
  refine ⟨_, rfl, ?_, ?_⟩
  · unfold binop
    simp only [RegistersMap.find_assign_self, RegistersMap.get_touch]
  · intro k hk
    unfold binop
    apply RegistersMap.find_assign_isSome
    simp only [List.mem_cons, List.mem_singleton, List.mem_nil_iff, or_false] at hk
    rcases hk with hk | hk
    · rw [hk]
      exact RegistersMap.find_touch_other _ _ _ (RegistersMap.find_touch_self _ _)
    · rw [hk]
      exact RegistersMap.find_touch_self _ _

theorem writes_assign (vm : VirtualMachine) (rd : Str) (v : Int) :
    WritesAndCreates vm (.ok { vm with registers := vm.registers.assign rd v }) rd v [] :=
  ⟨_, rfl, RegistersMap.find_assign_self rd v _, fun k hk => by simp at hk⟩

theorem sender_exec_arith (e : Endian) (op w tail name : Str) (vm : VirtualMachine)
    (R' : RegistersMap) (hne : op ≠ []) (hop : ∀ x ∈ op, isLetter x = true) (h1 : w ≠ [])
    (hw : IsBlank w)
    (h : executeArithmetic op (op ++ (w ++ tail)) vm.registers = some (.ok R')) :
    Sender.executeAssemblyInstruction e (op ++ (w ++ tail)) name vm
      = .ok { vm with registers := R' } := by
  unfold Sender.executeAssemblyInstruction
  simp only [opcode_upper op w tail hne hop h1 hw, h, Res.bind]

/-- C13, counterexample. On a fresh machine `li $32, 5` ends normally and creates register
`$32` with value 5; with `$3 = 5`, `add $1, $40, $3` ends normally, creates register `$40`, reads
it as 0 and sets `$1` to 5. -/
theorem register_range_not_checked :
    VirtualMachine.init.registers.find "$32".toList = none
      ∧ (Snapshot.executeAssemblyInstruction .little "li $32, 5".toList []
          VirtualMachine.init).map (fun vm => vm.registers.find "$32".toList) = .ok (some 5)
      ∧ exampleArith.registers.find "$40".toList = none
      ∧ (Snapshot.executeAssemblyInstruction .little "add $1, $40, $3".toList []
          exampleArith).map
          (fun vm => (vm.registers.find "$40".toList, vm.registers.find "$1".toList))
        = .ok (some 0, some 5)
      ∧ (Sender.executeAssemblyInstruction .little "li $32, 5".toList []
          VirtualMachine.init).map (fun vm => vm.registers.find "$32".toList)
        = .ok (some 5) := by
  refine ⟨?_, ?_, ?_, ?_, ?_⟩ <;> decide

/-- C13, amended. Register tokens are not range-checked: `$` followed by any number names a
register. In the snapshot program and in the migration sender, `li Rd, imm` ends normally and
leaves `Rd` with the value `imm`, creating it when it does not exist; `add Rd, Rs, Rt` ends
normally, reads a register that does not exist as 0, creates it, and leaves `Rd` with the
sum. -/
theorem register_tokens_unchecked (e : Endian) (name : Str) (vm : VirtualMachine)
    (w1 w2 w3 : Str) (d s t : Nat) (imm : Int) (h1 : w1 ≠ []) (hw1 : IsBlank w1)
    (hw2 : IsBlank w2) (hw3 : IsBlank w3) (himm : InI32 imm) :
    WritesAndCreates vm
        (Snapshot.executeAssemblyInstruction e (liLine w1 w2 w3 d imm) name vm)
        (regName d) imm []
      ∧ WritesAndCreates vm
        (Snapshot.executeAssemblyInstruction e (rrrLine "add".toList w1 w2 w3 d s t) name vm)
        (regName d) (wrap32 (vm.registers.get (regName s) + vm.registers.get (regName t)))
        [regName s, regName t]
      ∧ WritesAndCreates vm
        (Sender.executeAssemblyInstruction e (liLine w1 w2 w3 d imm) name vm)
        (regName d) imm []
      ∧ WritesAndCreates vm
        (Sender.executeAssemblyInstruction e (rrrLine "add".toList w1 w2 w3 d s t) name vm)
        (regName d) (wrap32 (vm.registers.get (regName s) + vm.registers.get (regName t)))
        [regName s, regName t]
      ∧ ∀ k, vm.registers.find k = none → vm.registers.get k = 0 := by
  refine ⟨?_, ?_, ?_, ?_, ?_⟩
  · rw [show liLine w1 w2 w3 d imm = "li".toList ++ (w1 ++ _) from rfl,
      snapshot_exec_arith e _ w1 _ name vm _ (by decide) (by decide) h1 hw1
        (arith_li w1 w2 w3 d imm _ h1 hw1 hw2 hw3 himm)]
    exact writes_assign vm _ _
  · rw [show rrrLine "add".toList w1 w2 w3 d s t = "add".toList ++ (w1 ++ _) from rfl,
      snapshot_exec_arith e _ w1 _ name vm _ (by decide) (by decide) h1 hw1
        (arith_add w1 w2 w3 d s t _ h1 hw1 hw2 hw3)]
    exact writes_binop vm _ _ _ _
  · rw [show liLine w1 w2 w3 d imm = "li".toList ++ (w1 ++ _) from rfl,
      sender_exec_arith e _ w1 _ name vm _ (by decide) (by decide) h1 hw1
        (arith_li w1 w2 w3 d imm _ h1 hw1 hw2 hw3 himm)]
    exact writes_assign vm _ _
  · rw [show rrrLine "add".toList w1 w2 w3 d s t = "add".toList ++ (w1 ++ _) from rfl,
      sender_exec_arith e _ w1 _ name vm _ (by decide) (by decide) h1 hw1
        (arith_add w1 w2 w3 d s t _ h1 hw1 hw2 hw3)]
    exact writes_binop vm _ _ _ _
  · intro k hk
    simp [RegistersMap.get, hk]


/-! ## The fresh machine and the register dump -/

/-- C14, counterexample. The register file of a fresh machine has 33 entries, not 32: the
constructor also creates the name `$R0`. -/
theorem fresh_machine_has_extra_register :
    VirtualMachine.init.registers.length = 33
      ∧ VirtualMachine.init.registers.find "$R0".toList = some 0
      ∧ "$R0".toList ∉ (List.range 32).map regName := by
  refine ⟨?_, ?_, ?_⟩ <;> decide

/-- C14, amended. The register file of a freshly constructed machine has exactly 33 entries,
named `$0` to `$31` and `$R0`, each with value 0, and its program counter is 0. -/
theorem fresh_machine_state :
    VirtualMachine.init.registers.length = 33
      ∧ (∀ i : Fin 32, VirtualMachine.init.registers.find (regName i.val) = some 0)
      ∧ VirtualMachine.init.registers.find "$R0".toList = some 0
      ∧ (∀ x ∈ VirtualMachine.init.registers,
          x.2 = 0 ∧ (x.1 = "$R0".toList ∨ x.1 ∈ (List.range 32).map regName))
      ∧ VirtualMachine.init.registers.WF
      ∧ VirtualMachine.init.programCounter = 0 := by
  refine ⟨?_, ?_, ?_, ?_, ?_, ?_⟩ <;> decide

theorem dumpRows_spec (k i : Nat) (R : RegistersMap) :
    (dumpRows k i R).1 = (List.range k).map (fun j => (i + j, R.get (regName (i + j))))
      ∧ ∀ n, (dumpRows k i R).2.get n = R.get n := by
  induction k generalizing i R with
  | zero => exact ⟨rfl, fun _ => rfl⟩
  | succ k ih =>
    obtain ⟨h1, h2⟩ := ih (i + 1) (R.touch (regName i))
    refine ⟨?_, ?_⟩
    · simp only [dumpRows, h1, List.range_succ_eq_map, List.map_cons, List.map_map,
        Nat.add_zero, RegistersMap.get_touch]
      congr 1
      apply List.map_congr_left
      intro j _
      simp only [Function.comp, Nat.succ_eq_add_one]
      rw [show i + 1 + j = i + (j + 1) by omega]
    · intro n
      simp only [dumpRows]
      rw [h2 n, RegistersMap.get_touch]

/-- C15, counterexample. The report of `dumpProcessorState` on a fresh machine has 31 rows,
for the registers 1 to 31: register `$0` is not reported. -/
theorem dump_omits_register_zero :
    (VirtualMachine.init.dumpProcessorState []).out
        = [.dump [] ((List.range 31).map (fun j => (j + 1, 0)))]
      ∧ ((List.range 31).map (fun j => (j + 1, (0 : Int)))).length = 31
      ∧ 0 ∉ ((List.range 31).map (fun j => (j + 1, (0 : Int)))).map Prod.fst := by
  refine ⟨?_, ?_, ?_⟩ <;> decide

/-- C15, amended. For every register file, `dumpProcessorState` emits one report with one row
for each of the 31 registers `$1` to `$31`, in ascending numeric register order, each showing
the current value of its register; `$0` is not reported, and no register value changes. -/
theorem dump_reports_registers_1_to_31 (vm : VirtualMachine) (virtualMachineName : Str) :
    (vm.dumpProcessorState virtualMachineName).out
        = vm.out ++ [.dump virtualMachineName
            ((List.range 31).map (fun j => (j + 1, vm.registers.get (regName (j + 1)))))]
      ∧ ((List.range 31).map (fun j => (j + 1, vm.registers.get (regName (j + 1))))).map
          Prod.fst = (List.range 31).map (fun j => j + 1)
      ∧ ∀ n, (vm.dumpProcessorState virtualMachineName).registers.get n
          = vm.registers.get n := by
  obtain ⟨h1, h2⟩ := dumpRows_spec 31 1 vm.registers
  refine ⟨?_, ?_, ?_⟩
  · simp only [VirtualMachine.dumpProcessorState, h1, Nat.add_comm 1]
  · simp [List.map_map, Function.comp]
  · intro n
    simp only [VirtualMachine.dumpProcessorState]
    exact h2 n

/-! ## The lines `DUMP_PROCESSOR_STATE` and `SNAPSHOT` -/

/-- C16, at a failing input. In each of the three programs the line `DUMP_PROCESSOR_STATE`
does nothing on any machine: the opcode found in it is `DUMP` (sender) or the empty string
(receiver, snapshot program), never `DUMP_PROCESSOR_STATE`, so `dumpProcessorState` is not
called and no report is made. -/
theorem dump_instruction_never_reports (e : Endian) (name : Str) (vm : VirtualMachine) :
    Sender.executeAssemblyInstruction e "DUMP_PROCESSOR_STATE".toList name vm = .ok vm
      ∧ Server.executeAssemblyInstruction "DUMP_PROCESSOR_STATE".toList name vm = .ok vm
      ∧ Snapshot.executeAssemblyInstruction e "DUMP_PROCESSOR_STATE".toList name vm = .ok vm
      ∧ (regex_search opCodeRegexUpper "DUMP_PROCESSOR_STATE".toList).str 1 = "DUMP".toList
      ∧ (regex_search opCodeRegexLower "DUMP_PROCESSOR_STATE".toList).str 1 = [] :=
  ⟨sender_exec_unknown e _ name vm (by decide), server_exec_unknown _ name vm (by decide),
    snapshot_exec_unknown e _ name vm (by decide), by decide, by decide⟩

/-- C17, at a failing input. The line `SNAPSHOT /tmp/vm1.snap` does nothing on any machine:
the opcode found in it is `tmp`, the first run of lower-case letters, so `createSnapshot` is
not called. Only the lower-case spelling `snapshot /tmp/vm1.snap` writes the snapshot. -/
theorem snapshot_instruction_not_taken (e : Endian) (name : Str) (vm : VirtualMachine) :
    Snapshot.executeAssemblyInstruction e "SNAPSHOT /tmp/vm1.snap".toList name vm = .ok vm
      ∧ (regex_search opCodeRegexLower "SNAPSHOT /tmp/vm1.snap".toList).str 1 = "tmp".toList
      ∧ Snapshot.executeAssemblyInstruction e "snapshot /tmp/vm1.snap".toList name vm
        = .ok (Snapshot.createSnapshot e vm "/tmp/vm1.snap".toList) := by
  refine ⟨snapshot_exec_unknown e _ name vm (by decide), by decide, ?_⟩
  unfold Snapshot.executeAssemblyInstruction
  have hop : (regex_search opCodeRegexLower "snapshot /tmp/vm1.snap".toList).str 1
      = "snapshot".toList := by decide
  have hp : Snapshot.afterFirstSpace "snapshot /tmp/vm1.snap".toList = "/tmp/vm1.snap".toList := by
    decide
  simp only [hop, executeArithmetic_none "snapshot".toList _ vm.registers (by decide), hp]
  rfl


/-! ## The slice loop -/

theorem toSizeT_natCast (k : Nat) (h : k < 2147483648) : toSizeT (k : Int) = k := by
  unfold toSizeT
  rw [Int.emod_eq_of_lt (by omega) (by omega)]
  exact Int.toNat_ofNat k

theorem createSnapshot_control (e : Endian) (v : VirtualMachine) (p : Str) :
    (Snapshot.createSnapshot e v p).programCounter = v.programCounter
      ∧ (Snapshot.createSnapshot e v p).instructions = v.instructions
      ∧ (Snapshot.createSnapshot e v p).virtualMachineExecSliceInInstructions
        = v.virtualMachineExecSliceInInstructions := by
  simp only [Snapshot.createSnapshot, and_self]

theorem dumpProcessorState_control (v : VirtualMachine) (name : Str) :
    (v.dumpProcessorState name).programCounter = v.programCounter
      ∧ (v.dumpProcessorState name).instructions = v.instructions
      ∧ (v.dumpProcessorState name).virtualMachineExecSliceInInstructions
        = v.virtualMachineExecSliceInInstructions := by
  simp only [VirtualMachine.dumpProcessorState, and_self]

theorem snapshot_exec_keepsControl (e : Endian) (name : Str) :
    KeepsControl (fun i v => Snapshot.executeAssemblyInstruction e i name v) := by
  intro i v v' h
  simp only [Snapshot.executeAssemblyInstruction] at h
  split at h
  · rename_i r _
    cases r with
    | ok R =>
      have h' := Res.ok.inj h
      rw [← h']
      exact ⟨rfl, rfl, rfl⟩
    | fault f => exact Res.noConfusion h
  · split at h
    · have h' := Res.ok.inj h
      rw [← h']
      exact createSnapshot_control e v _
    · split at h
      · have h' := Res.ok.inj h
        rw [← h']
        exact dumpProcessorState_control v name
      · have h' := Res.ok.inj h
        rw [← h']
        exact ⟨rfl, rfl, rfl⟩

theorem sliceLoop_runList (exec : Str → VirtualMachine → Res VirtualMachine)
    (hf : KeepsControl exec) (fuel : Nat) (c : Int) (vm : VirtualMachine) (k : Nat)
    (hpc : vm.programCounter = (k : Int)) (hk : k ≤ vm.instructions.length)
    (hlen : vm.instructions.length < 2147483648) (hfuel : vm.instructions.length ≤ fuel + k)
    (hc : 0 ≤ c) :
    sliceLoop exec fuel c vm
      = runList exec ((vm.instructions.drop k).take
          (vm.virtualMachineExecSliceInInstructions - c).toNat) vm := by
  induction fuel generalizing c vm k with
  | zero =>
    have hkl : k = vm.instructions.length := by omega
    have hnot : ¬ (toSizeT vm.programCounter < vm.instructions.length
        ∧ c < vm.virtualMachineExecSliceInInstructions) := by
      rw [hpc, toSizeT_natCast k (by omega)]
      omega
    rw [sliceLoop, if_neg hnot, hkl, List.drop_length, List.take_nil]
    rfl
  | succ fuel ih =>
    rw [sliceLoop]
    by_cases hcond : toSizeT vm.programCounter < vm.instructions.length
        ∧ c < vm.virtualMachineExecSliceInInstructions
    · rw [if_pos hcond]
      have hts : toSizeT vm.programCounter = k := by
        rw [hpc]; exact toSizeT_natCast k (by omega)
      rw [hts] at hcond ⊢
      obtain ⟨hklt, hcs⟩ := hcond
      have hget : vm.instructions.get? k = some (vm.instructions[k]) := by
        rw [List.get?_eq_getElem?]
        exact List.getElem?_eq_getElem hklt
      have hdrop : vm.instructions.drop k = vm.instructions[k] :: vm.instructions.drop (k + 1) :=
        List.drop_eq_getElem_cons hklt
      obtain ⟨m, hm⟩ : ∃ m, (vm.virtualMachineExecSliceInInstructions - c).toNat = m + 1 :=
        ⟨(vm.virtualMachineExecSliceInInstructions - c).toNat - 1, by omega⟩
      have hm' : (vm.virtualMachineExecSliceInInstructions - (c + 1)).toNat = m := by omega
      rw [hget, hdrop, hm, List.take_succ_cons, runList]
      simp only
      cases hex : exec vm.instructions[k] vm with
      | fault f => rfl
      | ok v =>
        obtain ⟨h1, h2, h3⟩ := hf _ _ _ hex
        simp only [Res.bind]
        have := ih (c + 1) { v with programCounter := v.programCounter + 1 } (k + 1)
          (by simp only [h1, hpc]; push_cast; rfl) (by simp only [h2]; omega)
          (by simp only [h2]; exact hlen) (by simp only [h2]; omega) (by omega)
        simp only at this
        rw [← hm', ← h3, ← h2]
        exact this
    · rw [if_neg hcond]
      have hts : toSizeT vm.programCounter = k := by
        rw [hpc]; exact toSizeT_natCast k (by omega)
      rw [hts] at hcond
      by_cases hklt : k < vm.instructions.length
      · have h0 : (vm.virtualMachineExecSliceInInstructions - c).toNat = 0 := by
          have : ¬ c < vm.virtualMachineExecSliceInInstructions := fun h => hcond ⟨hklt, h⟩
          omega
        rw [h0, List.take_zero]
        rfl
      · have hkl : k = vm.instructions.length := by omega
        rw [hkl, List.drop_length, List.take_nil]
        rfl

theorem runList_control (exec : Str → VirtualMachine → Res VirtualMachine)
    (hf : KeepsControl exec) (l : List Str) (vm vm' : VirtualMachine)
    (h : runList exec l vm = .ok vm') :
    vm'.programCounter = vm.programCounter + l.length ∧ vm'.instructions = vm.instructions
      ∧ vm'.virtualMachineExecSliceInInstructions = vm.virtualMachineExecSliceInInstructions := by
  induction l generalizing vm with
  | nil =>
    simp only [runList, Res.ok.injEq] at h
    subst h
    simp
  | cons i rest ih =>
    simp only [runList] at h
    cases hex : exec i vm with
    | fault f => rw [hex] at h; simp [Res.bind] at h
    | ok v =>
      rw [hex] at h
      simp only [Res.bind] at h
      obtain ⟨h1, h2, h3⟩ := hf _ _ _ hex
      obtain ⟨g1, g2, g3⟩ := ih _ h
      simp only at g1 g2 g3
      refine ⟨?_, by rw [g2, h2], by rw [g3, h3]⟩
      rw [g1, h1, List.length_cons]
      push_cast
      omega

theorem runList_ok (exec : Str → VirtualMachine → Res VirtualMachine) (l : List Str)
    (hn : NoFault exec l) (vm : VirtualMachine) : ∃ vm', runList exec l vm = .ok vm' := by
  induction l generalizing vm with
  | nil => exact ⟨vm, rfl⟩
  | cons i rest ih =>
    obtain ⟨v, hv⟩ := hn i (List.mem_cons_self _ _) vm
    obtain ⟨vm', h⟩ := ih (fun j hj => hn j (List.mem_cons_of_mem _ hj))
      { v with programCounter := v.programCounter + 1 }
    exact ⟨vm', by simp only [runList, hv, Res.bind, h]⟩

theorem noFault_sublist (exec : Str → VirtualMachine → Res VirtualMachine) (l : List Str)
    (k n : Nat) (hn : NoFault exec l) : NoFault exec ((l.drop k).take n) :=
  fun i hi => hn i (List.mem_of_mem_drop (List.mem_of_mem_take hi))

/-- One slice of a machine of the snapshot program whose program counter is `k`, within the
program: the result, and the program counter after it. -/
theorem snapshot_slice (e : Endian) (name : Str) (vm : VirtualMachine) (k : Nat)
    (hpc : vm.programCounter = (k : Int)) (hk : k ≤ vm.instructions.length)
    (hlen : vm.instructions.length < 2147483648)
    (hn : NoFault (fun i v => Snapshot.executeAssemblyInstruction e i name v)
      ((vm.instructions.drop k).take vm.virtualMachineExecSliceInInstructions.toNat)) :
    ∃ vm', Snapshot.executeAssemblyInstructions e name vm = .ok vm'
      ∧ vm'.programCounter
        = ((min (k + vm.virtualMachineExecSliceInInstructions.toNat)
            vm.instructions.length : Nat) : Int)
      ∧ vm'.instructions = vm.instructions
      ∧ vm'.virtualMachineExecSliceInInstructions = vm.virtualMachineExecSliceInInstructions := by
  have heq := sliceLoop_runList _ (snapshot_exec_keepsControl e name) vm.instructions.length 0
    vm k hpc hk hlen (by omega) (le_refl _)
  rw [Int.sub_zero] at heq
  obtain ⟨vm', hvm'⟩ := runList_ok _ _ hn vm
  obtain ⟨g1, g2, g3⟩ := runList_control _ (snapshot_exec_keepsControl e name) _ _ _ hvm'
  refine ⟨vm', ?_, ?_, g2, g3⟩
  · unfold Snapshot.executeAssemblyInstructions
    rw [heq, hvm']
  · rw [g1, hpc, List.length_take, List.length_drop]
    have : min vm.virtualMachineExecSliceInInstructions.toNat (vm.instructions.length - k) + k
        = min (k + vm.virtualMachineExecSliceInInstructions.toNat) vm.instructions.length := by
      omega
    omega


/-- C18. Slice execution in `Snapshot/myvmm.cc`: for every machine whose program counter `k`
lies within its program, one call of `executeAssemblyInstructions` runs the instructions at
the indices `k`, `k + 1`, ..., `min (k + s) length - 1`, in this order and each once, where
`s` is the slice (a negative slice counts as 0); when none of them faults the call returns
with the program counter `min (k + s) length`. -/
theorem slice_execution (e : Endian) (name : Str) (vm : VirtualMachine) (k : Nat)
    (hpc : vm.programCounter = (k : Int)) (hk : k ≤ vm.instructions.length)
    (hlen : vm.instructions.length < 2147483648) :
    Snapshot.executeAssemblyInstructions e name vm
        = runList (fun i v => Snapshot.executeAssemblyInstruction e i name v)
            ((vm.instructions.drop k).take vm.virtualMachineExecSliceInInstructions.toNat) vm
      ∧ (∀ j, j < min (k + vm.virtualMachineExecSliceInInstructions.toNat)
              vm.instructions.length - k →
          ((vm.instructions.drop k).take
              vm.virtualMachineExecSliceInInstructions.toNat).get? j
            = vm.instructions.get? (k + j))
      ∧ ((vm.instructions.drop k).take vm.virtualMachineExecSliceInInstructions.toNat).length
          = min (k + vm.virtualMachineExecSliceInInstructions.toNat) vm.instructions.length - k
      ∧ (NoFault (fun i v => Snapshot.executeAssemblyInstruction e i name v)
            ((vm.instructions.drop k).take vm.virtualMachineExecSliceInInstructions.toNat) →
          ∃ vm', Snapshot.executeAssemblyInstructions e name vm = .ok vm'
            ∧ vm'.programCounter
              = ((min (k + vm.virtualMachineExecSliceInInstructions.toNat)
                  vm.instructions.length : Nat) : Int)
            ∧ vm'.instructions = vm.instructions) := by
  refine ⟨?_, ?_, ?_, ?_⟩
  · have heq := sliceLoop_runList _ (snapshot_exec_keepsControl e name)
      vm.instructions.length 0 vm k hpc hk hlen (by omega) (le_refl _)
    rw [Int.sub_zero] at heq
    exact heq
  · intro j hj
    rw [List.get?_eq_getElem?, List.get?_eq_getElem?, List.getElem?_take_of_lt (by omega),
      List.getElem?_drop]
  · rw [List.length_take, List.length_drop]
    omega
  · intro hn
    obtain ⟨vm', h1, h2, h3, _⟩ := snapshot_slice e name vm k hpc hk hlen hn
    exact ⟨vm', h1, h2, h3⟩

theorem snapshot_li_ok (e : Endian) (name w1 w2 w3 : Str) (d : Nat) (imm : Int)
    (h1 : w1 ≠ []) (hw1 : IsBlank w1) (hw2 : IsBlank w2) (hw3 : IsBlank w3) (himm : InI32 imm)
    (v : VirtualMachine) :
    ∃ v', Snapshot.executeAssemblyInstruction e (liLine w1 w2 w3 d imm) name v = .ok v' :=
  ⟨_, snapshot_exec_arith e "li".toList w1 _ name v _ (by decide) (by decide) h1 hw1
    (arith_li w1 w2 w3 d imm _ h1 hw1 hw2 hw3 himm)⟩

theorem snapshot_add_ok (e : Endian) (name w1 w2 w3 : Str) (d s t : Nat)
    (h1 : w1 ≠ []) (hw1 : IsBlank w1) (hw2 : IsBlank w2) (hw3 : IsBlank w3)
    (v : VirtualMachine) :
    ∃ v', Snapshot.executeAssemblyInstruction e (rrrLine "add".toList w1 w2 w3 d s t) name v
      = .ok v' :=
  ⟨_, snapshot_exec_arith e "add".toList w1 _ name v _ (by decide) (by decide) h1 hw1
    (arith_add w1 w2 w3 d s t _ h1 hw1 hw2 hw3)⟩

theorem noFault_exampleSum (e : Endian) (name : Str) :
    NoFault (fun i v => Snapshot.executeAssemblyInstruction e i name v) exampleSum := by
  intro i hi v
  simp only [exampleSum, List.mem_cons, List.mem_singleton, List.mem_nil_iff, or_false] at hi
  rcases hi with h | h | h | h
  · rw [h, show "li $1,10".toList = liLine [' '] [] [] 1 10 by decide]
    exact snapshot_li_ok e name _ _ _ 1 10 (by decide) (by decide) (by decide) (by decide)
      (by decide) v
  · rw [h, show "li $2,20".toList = liLine [' '] [] [] 2 20 by decide]
    exact snapshot_li_ok e name _ _ _ 2 20 (by decide) (by decide) (by decide) (by decide)
      (by decide) v
  · rw [h, show "add $3,$1,$2".toList = rrrLine "add".toList [' '] [] [] 3 1 2 by decide]
    exact snapshot_add_ok e name _ _ _ 3 1 2 (by decide) (by decide) (by decide) (by decide) v
  · rw [h]
    exact ⟨v, snapshot_exec_unknown e _ name v (by decide)⟩

theorem noFault_exampleLoads (e : Endian) (name : Str) (n : Nat) :
    NoFault (fun i v => Snapshot.executeAssemblyInstruction e i name v) (exampleLoads n) := by
  intro i hi v
  rw [List.eq_of_mem_replicate hi]
  exact snapshot_li_ok e name _ _ _ 1 7 (by decide) (by decide) (by decide) (by decide)
    (by decide) v


theorem slice_execution_witness :
    ((freshMachine 4 exampleSum).programCounter = ((0 : Nat) : Int)
        ∧ 0 ≤ (freshMachine 4 exampleSum).instructions.length
        ∧ (freshMachine 4 exampleSum).instructions.length < 2147483648)
      ∧ (Snapshot.executeAssemblyInstructions .little [] (freshMachine 4 exampleSum)).map
          (fun v => (v.programCounter, v.registers.get "$3".toList)) = .ok (4, 30)
      ∧ (Snapshot.executeAssemblyInstructions .little [] (freshMachine 9 exampleSum)).map
          (fun v => (v.programCounter, v.registers.get "$3".toList)) = .ok (4, 30)
      ∧ ∃ vm', Snapshot.executeAssemblyInstructions .little [] (freshMachine 4 exampleSum)
          = .ok vm'
        ∧ vm'.programCounter
          = ((min (0 + (freshMachine 4 exampleSum).virtualMachineExecSliceInInstructions.toNat)
              (freshMachine 4 exampleSum).instructions.length : Nat) : Int)
        ∧ vm'.instructions = (freshMachine 4 exampleSum).instructions :=
  ⟨⟨by decide, by decide, by decide⟩, by decide, by decide,
    (slice_execution .little [] (freshMachine 4 exampleSum) 0 (by decide) (by decide)
      (by decide)).2.2.2
      (noFault_sublist _ _ _ _ (noFault_exampleSum .little []))⟩

/-! ## The scheduler -/

namespace Snapshot

theorem runnable_iff (vm : VirtualMachine) (n k : Nat) (hn : vm.instructions.length = n)
    (hlen : n < 2147483648) (hpc : vm.programCounter = (k : Int)) (hk : k ≤ n) :
    runnable vm = true ↔ k < n := by
  unfold runnable
  rw [hpc, toSizeT_natCast k (by omega), hn]
  simp

/-- One slice of a machine that can run: it ends normally, later in its program. -/
theorem ready_turn (e : Endian) (name : Str) (vm : VirtualMachine) (n s k : Nat)
    (h : Ready e name vm n s k) :
    ∃ vm', executeAssemblyInstructions e name vm = .ok vm'
      ∧ vm'.programCounter = ((min (k + s) n : Nat) : Int)
      ∧ Ready e name vm' n s (min (k + s) n) := by
  obtain ⟨hn, hlen, hs, hs1, hpc, hk, hnf⟩ := h
  obtain ⟨vm', h1, h2, h3, h4⟩ := snapshot_slice e name vm k hpc (by omega) (by omega)
    (noFault_sublist _ _ _ _ hnf)
  have hst : vm.virtualMachineExecSliceInInstructions.toNat = s := by rw [hs]; simp
  rw [hst, hn] at h2
  refine ⟨vm', h1, h2, ?_, hlen, ?_, hs1, h2, by omega, ?_⟩
  · rw [h3, hn]
  · rw [h4, hs]
  · rw [h3]; exact hnf

theorem round_spec (e : Endian) (S : Machines) (n1 s1 k1 n2 s2 k2 : Nat)
    (h1 : Ready e "Virtual Machine 1".toList S.virtual_machine_1 n1 s1 k1)
    (h2 : Ready e "Virtual Machine 2".toList S.virtual_machine_2 n2 s2 k2) :
    ∃ S', round e S = .ok S'
      ∧ Ready e "Virtual Machine 1".toList S'.virtual_machine_1 n1 s1 (nextCounter n1 s1 k1)
      ∧ Ready e "Virtual Machine 2".toList S'.virtual_machine_2 n2 s2 (nextCounter n2 s2 k2)
      ∧ S'.log = S.log
          ++ (if k1 < n1 then [Turn.vm1 (k1 : Int) ((min (k1 + s1) n1 : Nat) : Int)] else [])
          ++ (if k2 < n2 then [Turn.vm2 (k2 : Int) ((min (k2 + s2) n2 : Nat) : Int)] else []) := by
  have hr1 := runnable_iff S.virtual_machine_1 n1 k1 h1.1 h1.2.1 h1.2.2.2.2.1 h1.2.2.2.2.2.1
  have hr2 := runnable_iff S.virtual_machine_2 n2 k2 h2.1 h2.2.1 h2.2.2.2.2.1 h2.2.2.2.2.2.1
  unfold round
  by_cases c1 : k1 < n1
  · obtain ⟨v1, e1, p1, r1⟩ := ready_turn e _ _ n1 s1 k1 h1
    rw [if_pos (hr1.mpr c1), e1]
    simp only [Res.bind]
    by_cases c2 : k2 < n2
    · obtain ⟨v2, e2, p2, r2⟩ := ready_turn e _ _ n2 s2 k2 h2
      rw [if_pos (hr2.mpr c2), e2]
      refine ⟨_, rfl, ?_, ?_, ?_⟩
      · simpa [nextCounter, c1] using r1
      · simpa [nextCounter, c2] using r2
      · simp [c1, c2, p1, p2, h1.2.2.2.2.1, h2.2.2.2.2.1]
    · rw [if_neg (fun h => c2 (hr2.mp h))]
      refine ⟨_, rfl, ?_, ?_, ?_⟩
      · simpa [nextCounter, c1] using r1
      · simpa [nextCounter, c2] using h2
      · simp [c1, c2, p1, h1.2.2.2.2.1]
  · rw [if_neg (fun h => c1 (hr1.mp h))]
    simp only [Res.bind]
    by_cases c2 : k2 < n2
    · obtain ⟨v2, e2, p2, r2⟩ := ready_turn e _ _ n2 s2 k2 h2
      rw [if_pos (hr2.mpr c2), e2]
      refine ⟨_, rfl, ?_, ?_, ?_⟩
      · simpa [nextCounter, c1] using h1
      · simpa [nextCounter, c2] using r2
      · simp [c1, c2, p2, h2.2.2.2.2.1]
    · rw [if_neg (fun h => c2 (hr2.mp h))]
      refine ⟨_, rfl, ?_, ?_, ?_⟩
      · simpa [nextCounter, c1] using h1
      · simpa [nextCounter, c2] using h2
      · simp [c1, c2]

theorem schedulerLoop_terminates (e : Endian) (fuel : Nat) (S : Machines)
    (n1 s1 k1 n2 s2 k2 : Nat)
    (h1 : Ready e "Virtual Machine 1".toList S.virtual_machine_1 n1 s1 k1)
    (h2 : Ready e "Virtual Machine 2".toList S.virtual_machine_2 n2 s2 k2)
    (hfuel : (n1 - k1) + (n2 - k2) ≤ fuel) :
    ∃ final, schedulerLoop e fuel S = .ok final
      ∧ Ready e "Virtual Machine 1".toList final.virtual_machine_1 n1 s1 n1
      ∧ Ready e "Virtual Machine 2".toList final.virtual_machine_2 n2 s2 n2 := by
  have hr1 := runnable_iff S.virtual_machine_1 n1 k1 h1.1 h1.2.1 h1.2.2.2.2.1 h1.2.2.2.2.2.1
  have hr2 := runnable_iff S.virtual_machine_2 n2 k2 h2.1 h2.2.1 h2.2.2.2.2.1 h2.2.2.2.2.2.1
  have hk1 := h1.2.2.2.2.2.1
  have hk2 := h2.2.2.2.2.2.1
  induction fuel generalizing S k1 k2 with
  | zero =>
    have e1 : k1 = n1 := by omega
    have e2 : k2 = n2 := by omega
    have hnot : ¬ (runnable S.virtual_machine_1 = true
        ∨ runnable S.virtual_machine_2 = true) := by
      rw [hr1, hr2]; omega
    rw [schedulerLoop, if_neg hnot]
    exact ⟨S, rfl, e1 ▸ h1, e2 ▸ h2⟩
  | succ fuel ih =>
    rw [schedulerLoop]
    by_cases hc : runnable S.virtual_machine_1 = true ∨ runnable S.virtual_machine_2 = true
    · rw [if_pos hc]
      obtain ⟨S', hS', r1, r2, _⟩ := round_spec e S n1 s1 k1 n2 s2 k2 h1 h2
      rw [hS']
      simp only [Res.bind]
      have hs1 := h1.2.2.2.1
      have hs2 := h2.2.2.2.1
      rw [hr1, hr2] at hc
      apply ih S' (nextCounter n1 s1 k1) (nextCounter n2 s2 k2) r1 r2
      · unfold nextCounter
        split <;> split <;> omega
      · exact runnable_iff _ n1 _ r1.1 r1.2.1 r1.2.2.2.2.1 r1.2.2.2.2.2.1
      · exact runnable_iff _ n2 _ r2.1 r2.2.1 r2.2.2.2.2.1 r2.2.2.2.2.2.1
      · exact r1.2.2.2.2.2.1
      · exact r2.2.2.2.2.2.1
    · rw [if_neg hc]
      rw [hr1, hr2] at hc
      have e1 : k1 = n1 := by omega
      have e2 : k2 = n2 := by omega
      exact ⟨S, rfl, e1 ▸ h1, e2 ▸ h2⟩

end Snapshot


theorem turns_lt_iff (n s r : Nat) (hs : 1 ≤ s) : r < turnsNeeded n s ↔ r * s < n := by
  unfold turnsNeeded
  rw [Nat.lt_iff_add_one_le, Nat.le_div_iff_mul_le (by omega), Nat.add_mul]
  omega

namespace Snapshot

theorem nextCounter_round (n s r : Nat) :
    nextCounter n s (min (r * s) n) = min ((r + 1) * s) n := by
  unfold nextCounter
  rw [Nat.add_mul]
  split <;> omega

theorem roundLog_eq (n1 s1 n2 s2 r : Nat) (hs1 : 1 ≤ s1) (hs2 : 1 ≤ s2) :
    (if min (r * s1) n1 < n1 then
        [Turn.vm1 ((min (r * s1) n1 : Nat) : Int) ((min (min (r * s1) n1 + s1) n1 : Nat) : Int)]
      else [])
      ++ (if min (r * s2) n2 < n2 then
        [Turn.vm2 ((min (r * s2) n2 : Nat) : Int) ((min (min (r * s2) n2 + s2) n2 : Nat) : Int)]
      else [])
    = roundLog n1 s1 n2 s2 r := by
  unfold roundLog
  have a1 := turns_lt_iff n1 s1 r hs1
  have a2 := turns_lt_iff n2 s2 r hs2
  congr 1
  · by_cases h : r * s1 < n1
    · rw [if_pos (by omega), if_pos (a1.mpr h), Nat.add_mul]
      have e1 : min (r * s1) n1 = r * s1 := by omega
      rw [e1]
      simp
    · rw [if_neg (by omega), if_neg (fun h' => h (a1.mp h'))]
  · by_cases h : r * s2 < n2
    · rw [if_pos (by omega), if_pos (a2.mpr h), Nat.add_mul]
      have e1 : min (r * s2) n2 = r * s2 := by omega
      rw [e1]
      simp
    · rw [if_neg (by omega), if_neg (fun h' => h (a2.mp h'))]

theorem schedulerLoop_log (e : Endian) (n1 s1 n2 s2 m : Nat) (fuel : Nat) (S : Machines)
    (r : Nat)
    (h1 : Ready e "Virtual Machine 1".toList S.virtual_machine_1 n1 s1 (min (r * s1) n1))
    (h2 : Ready e "Virtual Machine 2".toList S.virtual_machine_2 n2 s2 (min (r * s2) n2))
    (hm : r + m = max (turnsNeeded n1 s1) (turnsNeeded n2 s2)) (hfuel : m ≤ fuel) :
    ∃ final, schedulerLoop e fuel S = .ok final
      ∧ final.log = S.log ++ roundsFrom n1 s1 n2 s2 m r := by
  have hs1 := h1.2.2.2.1
  have hs2 := h2.2.2.2.1
  induction m generalizing fuel S r with
  | zero =>
    have hr1 := runnable_iff S.virtual_machine_1 n1 _ h1.1 h1.2.1 h1.2.2.2.2.1 h1.2.2.2.2.2.1
    have hr2 := runnable_iff S.virtual_machine_2 n2 _ h2.1 h2.2.1 h2.2.2.2.2.1 h2.2.2.2.2.2.1
    have a1 := turns_lt_iff n1 s1 r hs1
    have a2 := turns_lt_iff n2 s2 r hs2
    have hnot : ¬ (runnable S.virtual_machine_1 = true
        ∨ runnable S.virtual_machine_2 = true) := by
      rw [hr1, hr2]
      omega
    refine ⟨S, ?_, by simp [roundsFrom]⟩
    cases fuel with
    | zero => rw [schedulerLoop, if_neg hnot]
    | succ f => rw [schedulerLoop, if_neg hnot]
  | succ m ih =>
    obtain ⟨f, rfl⟩ : ∃ f, fuel = f + 1 := ⟨fuel - 1, by omega⟩
    have hr1 := runnable_iff S.virtual_machine_1 n1 _ h1.1 h1.2.1 h1.2.2.2.2.1 h1.2.2.2.2.2.1
    have hr2 := runnable_iff S.virtual_machine_2 n2 _ h2.1 h2.2.1 h2.2.2.2.2.1 h2.2.2.2.2.2.1
    have a1 := turns_lt_iff n1 s1 r hs1
    have a2 := turns_lt_iff n2 s2 r hs2
    have hc : runnable S.virtual_machine_1 = true ∨ runnable S.virtual_machine_2 = true := by
      rw [hr1, hr2]
      omega
    obtain ⟨S', hS', r1, r2, hlog⟩ := round_spec e S n1 s1 _ n2 s2 _ h1 h2
    rw [nextCounter_round] at r1 r2
    obtain ⟨final, hf, hl⟩ := ih f S' (r + 1) r1 r2 (by omega) (by omega)
    refine ⟨final, ?_, ?_⟩
    · rw [schedulerLoop, if_pos hc, hS']
      exact hf
    · rw [hl, hlog, List.append_assoc S.log, roundLog_eq n1 s1 n2 s2 r hs1 hs2, roundsFrom,
        List.append_assoc]

theorem round_keeps_finished_2 (e : Endian) (S S' : Machines)
    (h : runnable S.virtual_machine_2 = false) (hr : round e S = .ok S') :
    S'.virtual_machine_2 = S.virtual_machine_2 ∧ turnsOf 2 S'.log = turnsOf 2 S.log := by
  unfold round at hr
  by_cases c1 : runnable S.virtual_machine_1 = true
  · rw [if_pos c1] at hr
    cases hx : executeAssemblyInstructions e "Virtual Machine 1".toList S.virtual_machine_1 with
    | fault f => rw [hx] at hr; exact Res.noConfusion hr
    | ok v =>
      rw [hx] at hr
      simp only [Res.bind, h, Bool.false_eq_true, if_false] at hr
      have := Res.ok.inj hr
      rw [← this]
      exact ⟨rfl, by simp [turnsOf, Turn.machine]⟩
  · rw [if_neg c1] at hr
    simp only [Res.bind, h, Bool.false_eq_true, if_false] at hr
    have := Res.ok.inj hr
    rw [← this]
    exact ⟨rfl, rfl⟩

theorem round_keeps_finished_1 (e : Endian) (S S' : Machines)
    (h : runnable S.virtual_machine_1 = false) (hr : round e S = .ok S') :
    S'.virtual_machine_1 = S.virtual_machine_1 ∧ turnsOf 1 S'.log = turnsOf 1 S.log := by
  unfold round at hr
  rw [if_neg (by rw [h]; exact Bool.false_ne_true)] at hr
  simp only [Res.bind] at hr
  by_cases c2 : runnable S.virtual_machine_2 = true
  · rw [if_pos c2] at hr
    cases hx : executeAssemblyInstructions e "Virtual Machine 2".toList S.virtual_machine_2 with
    | fault f => rw [hx] at hr; exact Res.noConfusion hr
    | ok v =>
      rw [hx] at hr
      have := Res.ok.inj hr
      rw [← this]
      exact ⟨rfl, by simp [turnsOf, Turn.machine]⟩
  · rw [if_neg c2] at hr
    have := Res.ok.inj hr
    rw [← this]
    exact ⟨rfl, rfl⟩

theorem loop_keeps_finished_2 (e : Endian) (fuel : Nat) (S final : Machines)
    (h : runnable S.virtual_machine_2 = false) (hr : schedulerLoop e fuel S = .ok final) :
    final.virtual_machine_2 = S.virtual_machine_2 ∧ turnsOf 2 final.log = turnsOf 2 S.log := by
  induction fuel generalizing S with
  | zero =>
    rw [schedulerLoop] at hr
    split at hr
    · exact Res.noConfusion hr
    · rw [← Res.ok.inj hr]; exact ⟨rfl, rfl⟩
  | succ f ih =>
    rw [schedulerLoop] at hr
    split at hr
    · cases hx : round e S with
      | fault g => rw [hx] at hr; exact Res.noConfusion hr
      | ok S' =>
        rw [hx] at hr
        simp only [Res.bind] at hr
        obtain ⟨k1, k2⟩ := round_keeps_finished_2 e S S' h hx
        obtain ⟨g1, g2⟩ := ih S' (by rw [k1]; exact h) hr
        exact ⟨g1.trans k1, g2.trans k2⟩
    · rw [← Res.ok.inj hr]; exact ⟨rfl, rfl⟩

theorem loop_keeps_finished_1 (e : Endian) (fuel : Nat) (S final : Machines)
    (h : runnable S.virtual_machine_1 = false) (hr : schedulerLoop e fuel S = .ok final) :
    final.virtual_machine_1 = S.virtual_machine_1 ∧ turnsOf 1 final.log = turnsOf 1 S.log := by
  induction fuel generalizing S with
  | zero =>
    rw [schedulerLoop] at hr
    split at hr
    · exact Res.noConfusion hr
    · rw [← Res.ok.inj hr]; exact ⟨rfl, rfl⟩
  | succ f ih =>
    rw [schedulerLoop] at hr
    split at hr
    · cases hx : round e S with
      | fault g => rw [hx] at hr; exact Res.noConfusion hr
      | ok S' =>
        rw [hx] at hr
        simp only [Res.bind] at hr
        obtain ⟨k1, k2⟩ := round_keeps_finished_1 e S S' h hx
        obtain ⟨g1, g2⟩ := ih S' (by rw [k1]; exact h) hr
        exact ⟨g1.trans k1, g2.trans k2⟩
    · rw [← Res.ok.inj hr]; exact ⟨rfl, rfl⟩

end Snapshot


theorem ready_exampleMachines :
    Snapshot.Ready .little "Virtual Machine 1".toList exampleMachines.virtual_machine_1 10 2 0
      ∧ Snapshot.Ready .little "Virtual Machine 2".toList exampleMachines.virtual_machine_2
        3 2 0 :=
  ⟨⟨by decide, by decide, by decide, by decide, by decide, by decide,
      noFault_exampleLoads .little _ 10⟩,
    ⟨by decide, by decide, by decide, by decide, by decide, by decide,
      noFault_exampleLoads .little _ 3⟩⟩

/-- C19. Scheduler fairness in `Snapshot/myvmm.cc`, for two machines at program counter 0 with
programs of `n1` and `n2` well-formed instructions and slices `s1`, `s2` of at least 1. The
loop ends, and its report is the expected schedule: in every round machine 1 comes before
machine 2, and machine `i` has a turn in round `r` exactly while `r` is below
`turnsNeeded ni si`, the quotient `ni / si` rounded up; its turn `r + 1` leaves it Finished
exactly when `r + 1` reaches that number. A machine that is Finished keeps its state and gets
no further turn in the report, whatever the other machine does. -/
theorem scheduler_fairness (e : Endian) (S : Snapshot.Machines) (n1 s1 n2 s2 : Nat)
    (h1 : Snapshot.Ready e "Virtual Machine 1".toList S.virtual_machine_1 n1 s1 0)
    (h2 : Snapshot.Ready e "Virtual Machine 2".toList S.virtual_machine_2 n2 s2 0)
    (hlog : S.log = []) :
    (∀ fuel, max (turnsNeeded n1 s1) (turnsNeeded n2 s2) ≤ fuel →
        ∃ final, Snapshot.schedulerLoop e fuel S = .ok final
          ∧ final.log = expectedLog n1 s1 n2 s2)
      ∧ (∀ r, min ((r + 1) * s1) n1 = n1 ↔ turnsNeeded n1 s1 ≤ r + 1)
      ∧ (∀ r, min ((r + 1) * s2) n2 = n2 ↔ turnsNeeded n2 s2 ≤ r + 1)
      ∧ (∀ fuel S0 final, Snapshot.runnable S0.virtual_machine_1 = false →
          Snapshot.schedulerLoop e fuel S0 = .ok final →
          final.virtual_machine_1 = S0.virtual_machine_1
            ∧ Snapshot.turnsOf 1 final.log = Snapshot.turnsOf 1 S0.log)
      ∧ (∀ fuel S0 final, Snapshot.runnable S0.virtual_machine_2 = false →
          Snapshot.schedulerLoop e fuel S0 = .ok final →
          final.virtual_machine_2 = S0.virtual_machine_2
            ∧ Snapshot.turnsOf 2 final.log = Snapshot.turnsOf 2 S0.log) := by
  have hs1 := h1.2.2.2.1
  have hs2 := h2.2.2.2.1
  refine ⟨?_, ?_, ?_, Snapshot.loop_keeps_finished_1 e, Snapshot.loop_keeps_finished_2 e⟩
  · intro fuel hfuel
    have g1 : Snapshot.Ready e "Virtual Machine 1".toList S.virtual_machine_1 n1 s1
        (min (0 * s1) n1) := by simpa using h1
    have g2 : Snapshot.Ready e "Virtual Machine 2".toList S.virtual_machine_2 n2 s2
        (min (0 * s2) n2) := by simpa using h2
    obtain ⟨final, hf, hl⟩ := Snapshot.schedulerLoop_log e n1 s1 n2 s2 _ fuel S 0 g1 g2
      (Nat.zero_add _) hfuel
    exact ⟨final, hf, by rw [hl, hlog]; rfl⟩
  · intro r
    have := turns_lt_iff n1 s1 (r + 1) hs1
    omega
  · intro r
    have := turns_lt_iff n2 s2 (r + 1) hs2
    omega

theorem scheduler_fairness_witness :
    (Snapshot.Ready .little "Virtual Machine 1".toList exampleMachines.virtual_machine_1 10 2 0
        ∧ Snapshot.Ready .little "Virtual Machine 2".toList exampleMachines.virtual_machine_2
          3 2 0
        ∧ exampleMachines.log = [])
      ∧ turnsNeeded 10 2 = 5 ∧ turnsNeeded 3 2 = 2
      ∧ expectedLog 10 2 3 2
        = [.vm1 0 2, .vm2 0 2, .vm1 2 4, .vm2 2 3, .vm1 4 6, .vm1 6 8, .vm1 8 10]
      ∧ (Snapshot.schedulerLoop .little 5 exampleMachines).map (fun s => s.log)
        = .ok [.vm1 0 2, .vm2 0 2, .vm1 2 4, .vm2 2 3, .vm1 4 6, .vm1 6 8, .vm1 8 10]
      ∧ ∃ final, Snapshot.schedulerLoop .little 5 exampleMachines = .ok final
        ∧ final.log = expectedLog 10 2 3 2 :=
  ⟨⟨ready_exampleMachines.1, ready_exampleMachines.2, rfl⟩, by decide, by decide, by decide,
    by decide,
    (scheduler_fairness .little exampleMachines 10 2 3 2 ready_exampleMachines.1
      ready_exampleMachines.2 rfl).1 5 (by decide)⟩

/-- C20. Scheduler termination in `Snapshot/myvmm.cc`: for two machines with programs of `n1`
and `n2` well-formed instructions, slices of at least 1 and program counters `k1`, `k2` within
the programs, the round-robin loop ends within `(n1 - k1) + (n2 - k2)` rounds, and when it
ends both machines are Finished: each program counter equals the length of its program. -/
theorem scheduler_terminates (e : Endian) (S : Snapshot.Machines) (n1 s1 k1 n2 s2 k2 : Nat)
    (h1 : Snapshot.Ready e "Virtual Machine 1".toList S.virtual_machine_1 n1 s1 k1)
    (h2 : Snapshot.Ready e "Virtual Machine 2".toList S.virtual_machine_2 n2 s2 k2) :
    ∀ fuel, (n1 - k1) + (n2 - k2) ≤ fuel →
      ∃ final, Snapshot.schedulerLoop e fuel S = .ok final
        ∧ Snapshot.runnable final.virtual_machine_1 = false
        ∧ Snapshot.runnable final.virtual_machine_2 = false
        ∧ final.virtual_machine_1.programCounter
          = (final.virtual_machine_1.instructions.length : Int)
        ∧ final.virtual_machine_2.programCounter
          = (final.virtual_machine_2.instructions.length : Int) := by
  intro fuel hfuel
  obtain ⟨final, hf, r1, r2⟩ :=
    Snapshot.schedulerLoop_terminates e fuel S n1 s1 k1 n2 s2 k2 h1 h2 hfuel
  have q1 := Snapshot.runnable_iff final.virtual_machine_1 n1 n1 r1.1 r1.2.1 r1.2.2.2.2.1
    (le_refl _)
  have q2 := Snapshot.runnable_iff final.virtual_machine_2 n2 n2 r2.1 r2.2.1 r2.2.2.2.2.1
    (le_refl _)
  refine ⟨final, hf, ?_, ?_, ?_, ?_⟩
  · cases hx : Snapshot.runnable final.virtual_machine_1 with
    | false => rfl
    | true => exact absurd (q1.mp hx) (Nat.lt_irrefl _)
  · cases hx : Snapshot.runnable final.virtual_machine_2 with
    | false => rfl
    | true => exact absurd (q2.mp hx) (Nat.lt_irrefl _)
  · rw [r1.2.2.2.2.1, r1.1]
  · rw [r2.2.2.2.2.1, r2.1]

theorem scheduler_terminates_witness :
    (Snapshot.Ready .little "Virtual Machine 1".toList exampleMachines.virtual_machine_1 10 2 0
        ∧ Snapshot.Ready .little "Virtual Machine 2".toList exampleMachines.virtual_machine_2
          3 2 0
        ∧ (10 - 0) + (3 - 0) ≤ 13)
      ∧ (Snapshot.schedulerLoop .little 13 exampleMachines).map
          (fun s => (s.virtual_machine_1.programCounter, s.virtual_machine_2.programCounter))
        = .ok (10, 3)
      ∧ ∃ final, Snapshot.schedulerLoop .little 13 exampleMachines = .ok final
        ∧ Snapshot.runnable final.virtual_machine_1 = false
        ∧ Snapshot.runnable final.virtual_machine_2 = false
        ∧ final.virtual_machine_1.programCounter
          = (final.virtual_machine_1.instructions.length : Int)
        ∧ final.virtual_machine_2.programCounter
          = (final.virtual_machine_2.instructions.length : Int) :=
  ⟨⟨ready_exampleMachines.1, ready_exampleMachines.2, by decide⟩, by decide,
    scheduler_terminates .little exampleMachines 10 2 0 3 2 0 ready_exampleMachines.1
      ready_exampleMachines.2 13 (by decide)⟩

theorem bitwise_semantics_witness :
    ([' '] ≠ [] ∧ IsBlank [' '] ∧ IsBlank [] ∧ InI32 6 ∧ 2 < 32)
      ∧ rriLine "sll".toList [' '] [] [] 2 3 ((2 : Nat) : Int) = "sll $2,$3,2".toList
      ∧ exampleBits.registers.get (regName 3) = 1
      ∧ wrap32 (exampleBits.registers.get (regName 3) * 2 ^ 2) = 4
      ∧ and32 12 10 = 8 ∧ or32 12 10 = 14 ∧ xor32 12 10 = 6 ∧ or32 (-4) 1 = -3
      ∧ SetsOnly exampleBits
          (Snapshot.executeAssemblyInstruction .little
            (rriLine "sll".toList [' '] [] [] 2 3 ((2 : Nat) : Int)) [] exampleBits)
          (regName 2) (wrap32 (exampleBits.registers.get (regName 3) * 2 ^ 2))
      ∧ SetsOnly exampleBits
          (Snapshot.executeAssemblyInstruction .little
            (rriLine "or".toList [' '] [] [] 2 3 6) [] exampleBits)
          (regName 2) (or32 (exampleBits.registers.get (regName 3)) 6) :=
  ⟨⟨by decide, by decide, by decide, by decide, by decide⟩, by decide, by decide, by decide,
    by decide, by decide, by decide, by decide,
    (bitwise_semantics .little [] exampleBits [' '] [] [] 2 3 4 2 6 (by decide) (by decide)
      (by decide) (by decide) (by decide) (by decide)).2.2.2.2,
    (bitwise_semantics .little [] exampleBits [' '] [] [] 2 3 4 2 6 (by decide) (by decide)
      (by decide) (by decide) (by decide) (by decide)).2.2.2.1⟩

theorem register_tokens_unchecked_witness :
    ([' '] ≠ [] ∧ IsBlank [' '] ∧ IsBlank [] ∧ InI32 5)
      ∧ liLine [' '] [] [' '] 32 5 = "li $32, 5".toList
      ∧ WritesAndCreates VirtualMachine.init
          (Snapshot.executeAssemblyInstruction .little (liLine [' '] [] [' '] 32 5) []
            VirtualMachine.init)
          (regName 32) 5 []
      ∧ WritesAndCreates VirtualMachine.init
          (Snapshot.executeAssemblyInstruction .little
            (rrrLine "add".toList [' '] [] [' '] 1 40 2) [] VirtualMachine.init)
          (regName 1)
          (wrap32 (VirtualMachine.init.registers.get (regName 40)
            + VirtualMachine.init.registers.get (regName 2)))
          [regName 40, regName 2] :=
  ⟨⟨by decide, by decide, by decide, by decide⟩, by decide,
    (register_tokens_unchecked .little [] VirtualMachine.init [' '] [] [' '] 32 40 2 5
      (by decide) (by decide) (by decide) (by decide) (by decide)).1,
    (register_tokens_unchecked .little [] VirtualMachine.init [' '] [] [' '] 1 40 2 5
      (by decide) (by decide) (by decide) (by decide) (by decide)).2.1⟩




/-! ## Snapshot files of any size -/

namespace RegistersMap

theorem find_touch_ne (k n : Str) (R : RegistersMap) (hn : n ≠ k) :
    find n (touch k R) = find n R := by
  unfold touch
  cases h : find k R with
  | some v => rfl
  | none => exact find_assign_other k n 0 R hn

end RegistersMap

namespace Snapshot

theorem readLoop_none (e : Endian) (k i : Nat) (R : RegistersMap) (n : Str) :
    RegistersMap.get n (readLoop e k i none R) = R.get n := by
  induction k generalizing i R with
  | zero => rfl
  | succ k ih =>
    simp only [readLoop]
    rw [ih, RegistersMap.get_touch]

theorem readLoop_find_other (e : Endian) (k i : Nat) (stream : Option (List Nat))
    (R : RegistersMap) (n : Str) (hn : ∀ j, j < k → n ≠ regName (i + j)) :
    RegistersMap.find n (readLoop e k i stream R) = R.find n := by
  induction k generalizing i stream R with
  | zero => rfl
  | succ k ih =>
    have h0 : n ≠ regName i := by simpa using hn 0 (by omega)
    have hn' : ∀ j, j < k → n ≠ regName (i + 1 + j) := by
      intro j hj
      have := hn (j + 1) (by omega)
      rwa [show i + (j + 1) = i + 1 + j by omega] at this
    cases stream with
    | none =>
      simp only [readLoop]
      rw [ih _ _ _ hn', RegistersMap.find_touch_ne _ _ _ h0]
    | some bytes =>
      simp only [readLoop]
      split
      · rw [ih _ _ _ hn', RegistersMap.find_assign_other _ _ _ _ h0,
          RegistersMap.find_touch_ne _ _ _ h0]
      · split
        · rw [ih _ _ _ hn', RegistersMap.find_touch_ne _ _ _ h0]
        · rw [ih _ _ _ hn', RegistersMap.find_assign_other _ _ _ _ h0,
            RegistersMap.find_touch_ne _ _ _ h0]

/-- A register whose four bytes the content holds is restored from them. -/
theorem readLoop_restored (e : Endian) (k i : Nat) (bytes : List Nat) (R : RegistersMap)
    (j : Nat) (hj : j < k) (h : 4 * (j + 1) ≤ bytes.length) :
    RegistersMap.get (regName (i + j)) (readLoop e k i (some bytes) R)
      = toI32 (ofHostBytes e ((bytes.drop (4 * j)).take 4)) := by
  induction k generalizing i bytes R j with
  | zero => omega
  | succ k ih =>
    simp only [readLoop]
    rw [if_pos (by omega)]
    cases j with
    | zero =>
      rw [Nat.add_zero, readLoop_get_other e k (i + 1) _ _ (regName i) (by
        intro j' _ h
        have := regName_injective _ _ h
        omega)]
      rw [RegistersMap.get_assign_self]
      rfl
    | succ j =>
      have := ih (i + 1) (bytes.drop 4)
        (RegistersMap.assign (regName i) (toI32 (ofHostBytes e (bytes.take 4)))
          (R.touch (regName i))) j (by omega) (by rw [List.length_drop]; omega)
      rw [show i + 1 + j = i + (j + 1) by omega, List.drop_drop] at this
      rw [this]
      congr 4
      omega

/-- A register behind the end of the content keeps its value. -/
theorem readLoop_kept (e : Endian) (k i : Nat) (bytes : List Nat) (R : RegistersMap)
    (j : Nat) (hj : j < k) (h : bytes.length ≤ 4 * j) :
    RegistersMap.get (regName (i + j)) (readLoop e k i (some bytes) R)
      = R.get (regName (i + j)) := by
  induction k generalizing i bytes R j with
  | zero => omega
  | succ k ih =>
    simp only [readLoop]
    cases j with
    | zero =>
      have hb : bytes = [] := List.eq_nil_of_length_eq_zero (by omega)
      subst hb
      rw [if_neg (by simp), if_pos (by rfl), Nat.add_zero, readLoop_none,
        RegistersMap.get_touch]
    | succ j =>
      have hne : regName (i + (j + 1)) ≠ regName i := fun h => by
        have := regName_injective _ _ h
        omega
      split
      · have := ih (i + 1) (bytes.drop 4)
          (RegistersMap.assign (regName i) (toI32 (ofHostBytes e (bytes.take 4)))
            (R.touch (regName i))) j (by omega) (by rw [List.length_drop]; omega)
        rw [show i + 1 + j = i + (j + 1) by omega] at this
        rw [this, RegistersMap.get_assign_other _ _ _ _ hne, RegistersMap.get_touch]
      · split
        · rw [readLoop_none, RegistersMap.get_touch]
        · rw [readLoop_none, RegistersMap.get_assign_other _ _ _ _ hne,
            RegistersMap.get_touch]

theorem loadSnapshot_control (e : Endian) (vm : VirtualMachine) (file : Option (List Nat)) :
    (loadSnapshot e vm file).programCounter = vm.programCounter
      ∧ (loadSnapshot e vm file).instructions = vm.instructions
      ∧ (loadSnapshot e vm file).virtualMachineExecSliceInInstructions
        = vm.virtualMachineExecSliceInInstructions
      ∧ (loadSnapshot e vm file).shouldContinue = vm.shouldContinue
      ∧ (loadSnapshot e vm file).out = vm.out := by
  cases file with
  | none => exact ⟨rfl, rfl, rfl, rfl, rfl⟩
  | some bytes => simp only [loadSnapshot, and_self]

theorem setUp_programCounter (e : Endian) (execSlice : Int) (snapshotFile : Option (List Nat))
    (binary : Option (List Str)) :
    (setUp e execSlice snapshotFile binary).programCounter = 0 := by
  cases snapshotFile with
  | none =>
    cases binary with
    | none => simp only [setUp, VirtualMachine.readAssemblyInstructions,
        VirtualMachine.configureVirtualMachine, VirtualMachine.init]
    | some lines => simp only [setUp, VirtualMachine.readAssemblyInstructions,
        VirtualMachine.configureVirtualMachine, VirtualMachine.init]
  | some bytes =>
    simp only [setUp]
    split
    · simp only [VirtualMachine.configureVirtualMachine, VirtualMachine.init]
    · cases binary with
      | none => simp only [loadSnapshot, VirtualMachine.readAssemblyInstructions,
          VirtualMachine.configureVirtualMachine, VirtualMachine.init]
      | some lines => simp only [loadSnapshot, VirtualMachine.readAssemblyInstructions,
          VirtualMachine.configureVirtualMachine, VirtualMachine.init]

end Snapshot

/-- C21. The size of a snapshot file is not checked and nothing is reported: for a content of
any length `loadSnapshot` restores register `$i` from the bytes `4 i` to `4 i + 3` when the
content holds them, leaves register `$i` as it was when the content ends at or before byte
`4 i`, and leaves the output of the machine as it was. -/
theorem snapshot_restores_what_it_finds (e : Endian) (vm : VirtualMachine) (bytes : List Nat)
    (i : Nat) (hi : i < 32) :
    (4 * (i + 1) ≤ bytes.length →
        RegistersMap.get (regName i) (Snapshot.loadSnapshot e vm (some bytes)).registers
          = toI32 (ofHostBytes e ((bytes.drop (4 * i)).take 4)))
      ∧ (bytes.length ≤ 4 * i →
        RegistersMap.get (regName i) (Snapshot.loadSnapshot e vm (some bytes)).registers
          = vm.registers.get (regName i))
      ∧ (Snapshot.loadSnapshot e vm (some bytes)).out = vm.out := by
  refine ⟨fun h => ?_, fun h => ?_, (Snapshot.loadSnapshot_control e vm _).2.2.2.2⟩
  · have := Snapshot.readLoop_restored e 32 0 bytes vm.registers i hi h
    simpa [Snapshot.loadSnapshot] using this
  · have := Snapshot.readLoop_kept e 32 0 bytes vm.registers i hi h
    simpa [Snapshot.loadSnapshot] using this

theorem snapshot_restores_what_it_finds_witness :
    (1 < 32)
      ∧ ((4 * (1 + 1) ≤ [5, 0, 0, 0, 7, 0, 0, 0].length →
          RegistersMap.get (regName 1)
              (Snapshot.loadSnapshot .little exampleArith (some [5, 0, 0, 0, 7, 0, 0, 0])).registers
            = toI32 (ofHostBytes .little
                ((List.drop (4 * 1) [5, 0, 0, 0, 7, 0, 0, 0]).take 4)))
        ∧ ([5, 0, 0, 0, 7, 0, 0, 0].length ≤ 4 * 1 →
          RegistersMap.get (regName 1)
              (Snapshot.loadSnapshot .little exampleArith (some [5, 0, 0, 0, 7, 0, 0, 0])).registers
            = exampleArith.registers.get (regName 1))
        ∧ (Snapshot.loadSnapshot .little exampleArith (some [5, 0, 0, 0, 7, 0, 0, 0])).out
          = exampleArith.out) :=
  ⟨by decide, snapshot_restores_what_it_finds .little exampleArith [5, 0, 0, 0, 7, 0, 0, 0] 1
    (by decide)⟩

/-- C21, the claim as the specification states it fails: a snapshot file of 8 bytes is not
empty and not 128 bytes long, and `loadSnapshot` restores `$0` and `$1` from it, while `$2`,
`$3` and `$4` keep the values they had. -/
theorem snapshot_size_not_checked :
    [5, 0, 0, 0, 7, 0, 0, 0] ≠ ([] : List Nat)
      ∧ [5, 0, 0, 0, 7, 0, 0, 0].length ≠ 128
      ∧ (List.range 5).map (fun i => exampleArith.registers.get (regName i)) = [0, 0, 0, 5, 7]
      ∧ (List.range 5).map (fun i => RegistersMap.get (regName i)
          (Snapshot.loadSnapshot .little exampleArith (some [5, 0, 0, 0, 7, 0, 0, 0])).registers)
        = [5, 7, 0, 5, 7] := by
  decide

/-! ## The start of a machine of the snapshot program -/

/-- C23. Loading a snapshot leaves the control state as it is: for every machine and every
content of the snapshot file (or none), `loadSnapshot` leaves the program counter, the
instructions, the slice, the flag `shouldContinue` and the output unchanged, and every entry
of the register file whose name is not one of `$0` to `$31`; and the machine that `main` sets
up, whatever its snapshot file and its binary, has the program counter 0. -/
theorem load_snapshot_keeps_control (e : Endian) (vm : VirtualMachine)
    (file : Option (List Nat)) :
    (Snapshot.loadSnapshot e vm file).programCounter = vm.programCounter
      ∧ (Snapshot.loadSnapshot e vm file).instructions = vm.instructions
      ∧ (Snapshot.loadSnapshot e vm file).virtualMachineExecSliceInInstructions
        = vm.virtualMachineExecSliceInInstructions
      ∧ (Snapshot.loadSnapshot e vm file).shouldContinue = vm.shouldContinue
      ∧ (Snapshot.loadSnapshot e vm file).out = vm.out
      ∧ (∀ n, (∀ i, i < 32 → n ≠ regName i) →
          RegistersMap.find n (Snapshot.loadSnapshot e vm file).registers = vm.registers.find n)
      ∧ ∀ execSlice binary, (Snapshot.setUp e execSlice file binary).programCounter = 0 := by
  obtain ⟨h1, h2, h3, h4, h5⟩ := Snapshot.loadSnapshot_control e vm file
  refine ⟨h1, h2, h3, h4, h5, ?_, fun s b => Snapshot.setUp_programCounter e s file b⟩
  intro n hn
  cases file with
  | none => rfl
  | some bytes =>
    have := Snapshot.readLoop_find_other e 32 0 (some bytes) vm.registers n (by
      intro j hj; simpa using hn j hj)
    simpa [Snapshot.loadSnapshot] using this

/-- C24, the set-up of a machine whose snapshot file is there and empty: the binary is not
read, so the machine has no instruction and cannot run; with no snapshot file the same binary
is read. The registers are those of a fresh machine both times. -/
theorem empty_snapshot_skips_binary (e : Endian) (execSlice : Int) (line : Str)
    (lines : List Str) :
    Snapshot.setUp e execSlice (some []) (some (line :: lines))
        = VirtualMachine.init.configureVirtualMachine execSlice
      ∧ (Snapshot.setUp e execSlice (some []) (some (line :: lines))).instructions = []
      ∧ Snapshot.runnable (Snapshot.setUp e execSlice (some []) (some (line :: lines))) = false
      ∧ Snapshot.setUp e execSlice none (some (line :: lines))
        = { VirtualMachine.init.configureVirtualMachine execSlice with
            instructions := line :: lines }
      ∧ Snapshot.runnable (Snapshot.setUp e execSlice none (some (line :: lines))) = true := by
  refine ⟨rfl, rfl, rfl, rfl, ?_⟩
  simp [Snapshot.setUp, Snapshot.runnable, VirtualMachine.readAssemblyInstructions,
    VirtualMachine.configureVirtualMachine, VirtualMachine.init, toSizeT]


/-! ## Buffers that are not a complete encoding -/

theorem deserializeLoop_outcomes (e : Endian) (buffer : List Nat) (fuel pos : Nat)
    (regs : RegistersMap) (h : buffer.length ≤ pos + fuel) :
    (∃ r, deserializeLoop e buffer fuel pos regs = .ok r)
      ∨ deserializeLoop e buffer fuel pos regs = .fault .outOfBounds := by
  induction fuel generalizing pos regs with
  | zero =>
    rw [deserializeLoop, if_neg (by omega)]
    exact Or.inl ⟨_, rfl⟩
  | succ f ih =>
    rw [deserializeLoop]
    split
    · split
      · exact Or.inr rfl
      · simp only
        split
        · exact Or.inr rfl
        · split
          · exact Or.inr rfl
          · split
            · exact Or.inr rfl
            · apply ih
              omega
    · exact Or.inl ⟨_, rfl⟩

theorem deserialize_outcomes (e : Endian) (buffer : List Nat) :
    (∃ r, deserialize e buffer = .ok r) ∨ deserialize e buffer = .fault .outOfBounds := by
  unfold deserialize
  split
  · exact Or.inr rfl
  · rcases deserializeLoop_outcomes e buffer buffer.length 4 [] (by omega) with ⟨r, hr⟩ | hr
    · rw [hr]; exact Or.inl ⟨_, rfl⟩
    · rw [hr]; exact Or.inr rfl

/-- C22, the reads of `deserialize` on buffers that are not a complete encoding: a buffer
of 2 bytes, a buffer that ends within a key length, within a name, within a value, and a
buffer whose key length is larger than what is left. Each time a read leaves the buffer. No
buffer makes `deserialize` end in another way than with a result or with such a read. -/
theorem truncated_buffer_is_read_past_its_end :
    deserialize .little [1, 0] = .fault .outOfBounds
      ∧ deserialize .little [3, 0, 0, 0, 2, 0] = .fault .outOfBounds
      ∧ deserialize .little [3, 0, 0, 0, 2, 0, 0, 0, 36] = .fault .outOfBounds
      ∧ deserialize .little [3, 0, 0, 0, 2, 0, 0, 0, 36, 49, 5, 0] = .fault .outOfBounds
      ∧ deserialize .little [3, 0, 0, 0, 100, 0, 0, 0, 36, 49, 5, 0, 0, 0]
        = .fault .outOfBounds
      ∧ deserialize .little [3, 0, 0, 0, 2, 0, 0, 0, 36, 49, 5, 0, 0, 0]
        = .ok (RegistersMap.assign "$1".toList 5 [], 3)
      ∧ ∀ e buffer, (∃ r, deserialize e buffer = .ok r)
          ∨ deserialize e buffer = .fault .outOfBounds :=
  ⟨by decide, by decide, by decide, by decide, by decide, by decide, deserialize_outcomes⟩

/-! ## The halt check of the sender -/

/-- C26, the index of the halt check at program counter 0: `programCounter - 1` converted
to `size_t` is `2^64 - 1`, outside every vector; when the read traps the first slice of a
fresh sender ends there. At a program counter from 1 on the index is `programCounter - 1`. -/
theorem halt_check_index_at_zero :
    Sender.haltCheckIndex 0 = 18446744073709551615
      ∧ ¬ Sender.haltCheckIndex 0 < exampleShort.length
      ∧ (freshMachine 1 exampleShort).programCounter = 0
      ∧ Sender.executeAssemblyInstructions .little none [] (freshMachine 1 exampleShort)
        = .fault .outOfBounds
      ∧ Sender.haltCheckIndex 1 = 0 ∧ Sender.haltCheckIndex 2 = 1 := by
  decide

/-- C27, two lines on which the halt check and the dispatch differ. `MIGRATEX 10.0.0.2`
starts with `MIGRATE` and has the opcode `MIGRATEX`: the sender runs `exampleLongOpcode` up
to this line, sends nothing and stops. ` MIGRATE 10.0.0.2`, behind a blank, has the opcode
`MIGRATE` and does not start with it: the sender of `exampleIndented` sends its state and then
runs `li $1, 5`. -/
theorem halt_and_send_disagree :
    (BeginsWithMigrate "MIGRATEX 10.0.0.2".toList
        ∧ ¬ DispatchesMigrate "MIGRATEX 10.0.0.2".toList
        ∧ (Sender.runLoop .little (some []) 5 (freshMachine 1 exampleLongOpcode)).map
            (fun v => (v.programCounter, v.shouldContinue, v.out,
              v.registers.get (regName 1), v.registers.get (regName 2)))
          = .ok (2, false, [], 5, 0))
      ∧ (¬ BeginsWithMigrate " MIGRATE 10.0.0.2".toList
        ∧ DispatchesMigrate " MIGRATE 10.0.0.2".toList
        ∧ (Sender.runLoop .little (some []) 5 (freshMachine 1 exampleIndented)).map
            (fun v => (v.programCounter, v.shouldContinue, v.out,
              v.registers.get (regName 1)))
          = .ok (2, true,
              [.send "10.0.0.2".toList
                (sendFrame .little (serialize .little VirtualMachine.init.registers 0))],
              5)) := by
  decide


/-! ## A slice that is not positive -/

theorem sliceLoop_nonpositive (exec : Str → VirtualMachine → Res VirtualMachine) (fuel : Nat)
    (vm : VirtualMachine) (h : vm.virtualMachineExecSliceInInstructions ≤ 0) :
    sliceLoop exec fuel 0 vm = .ok vm := by
  cases fuel with
  | zero => rw [sliceLoop, if_neg (by omega)]
  | succ f => rw [sliceLoop, if_neg (by omega)]

namespace Snapshot

theorem slice_nonpositive (e : Endian) (name : Str) (vm : VirtualMachine)
    (h : vm.virtualMachineExecSliceInInstructions ≤ 0) :
    executeAssemblyInstructions e name vm = .ok vm :=
  sliceLoop_nonpositive _ _ vm h

theorem round_nonpositive_1 (e : Endian) (S S' : Machines)
    (h : S.virtual_machine_1.virtualMachineExecSliceInInstructions ≤ 0)
    (hr : round e S = .ok S') : S'.virtual_machine_1 = S.virtual_machine_1 := by
  unfold round at hr
  rw [slice_nonpositive e _ _ h] at hr
  by_cases c1 : runnable S.virtual_machine_1 = true
  · rw [if_pos c1] at hr
    simp only [Res.bind] at hr
    split at hr
    · cases hx : executeAssemblyInstructions e "Virtual Machine 2".toList S.virtual_machine_2 with
      | fault f => rw [hx] at hr; exact Res.noConfusion hr
      | ok v =>
        rw [hx] at hr
        rw [← Res.ok.inj hr]
    · rw [← Res.ok.inj hr]
  · rw [if_neg c1] at hr
    simp only [Res.bind] at hr
    split at hr
    · cases hx : executeAssemblyInstructions e "Virtual Machine 2".toList S.virtual_machine_2 with
      | fault f => rw [hx] at hr; exact Res.noConfusion hr
      | ok v =>
        rw [hx] at hr
        rw [← Res.ok.inj hr]
    · rw [← Res.ok.inj hr]

theorem round_nonpositive_2 (e : Endian) (S S' : Machines)
    (h : S.virtual_machine_2.virtualMachineExecSliceInInstructions ≤ 0)
    (hr : round e S = .ok S') : S'.virtual_machine_2 = S.virtual_machine_2 := by
  unfold round at hr
  by_cases c1 : runnable S.virtual_machine_1 = true
  · rw [if_pos c1] at hr
    cases hx : executeAssemblyInstructions e "Virtual Machine 1".toList S.virtual_machine_1 with
    | fault f => rw [hx] at hr; exact Res.noConfusion hr
    | ok v =>
      rw [hx] at hr
      simp only [Res.bind] at hr
      rw [slice_nonpositive e _ _ h] at hr
      split at hr
      · rw [← Res.ok.inj hr]
      · rw [← Res.ok.inj hr]
  · rw [if_neg c1] at hr
    simp only [Res.bind] at hr
    rw [slice_nonpositive e _ _ h] at hr
    split at hr
    · rw [← Res.ok.inj hr]
    · rw [← Res.ok.inj hr]

theorem rounds_nonpositive_1 (e : Endian) (n : Nat) (S S' : Machines)
    (h : S.virtual_machine_1.virtualMachineExecSliceInInstructions ≤ 0)
    (hr : rounds e n S = .ok S') : S'.virtual_machine_1 = S.virtual_machine_1 := by
  induction n generalizing S with
  | zero => rw [rounds] at hr; rw [← Res.ok.inj hr]
  | succ n ih =>
    rw [rounds] at hr
    cases hx : round e S with
    | fault f => rw [hx] at hr; exact Res.noConfusion hr
    | ok S1 =>
      rw [hx] at hr
      have h1 := round_nonpositive_1 e S S1 h hx
      rw [ih S1 (by rw [h1]; exact h) hr, h1]

theorem rounds_nonpositive_2 (e : Endian) (n : Nat) (S S' : Machines)
    (h : S.virtual_machine_2.virtualMachineExecSliceInInstructions ≤ 0)
    (hr : rounds e n S = .ok S') : S'.virtual_machine_2 = S.virtual_machine_2 := by
  induction n generalizing S with
  | zero => rw [rounds] at hr; rw [← Res.ok.inj hr]
  | succ n ih =>
    rw [rounds] at hr
    cases hx : round e S with
    | fault f => rw [hx] at hr; exact Res.noConfusion hr
    | ok S1 =>
      rw [hx] at hr
      have h1 := round_nonpositive_2 e S S1 h hx
      rw [ih S1 (by rw [h1]; exact h) hr, h1]

/-- A round of two machines whose slices are not positive ends normally and changes the
report only. -/
theorem round_both_nonpositive (e : Endian) (S : Machines)
    (h1 : S.virtual_machine_1.virtualMachineExecSliceInInstructions ≤ 0)
    (h2 : S.virtual_machine_2.virtualMachineExecSliceInInstructions ≤ 0) :
    ∃ log, round e S = .ok { S with log := log } := by
  unfold round
  rw [slice_nonpositive e _ _ h1]
  by_cases c1 : runnable S.virtual_machine_1 = true
  · rw [if_pos c1]
    simp only [Res.bind]
    rw [slice_nonpositive e _ _ h2]
    split
    · exact ⟨_, rfl⟩
    · exact ⟨_, rfl⟩
  · rw [if_neg c1]
    simp only [Res.bind]
    rw [slice_nonpositive e _ _ h2]
    split
    · exact ⟨_, rfl⟩
    · exact ⟨_, rfl⟩

theorem rounds_both_nonpositive (e : Endian) (n : Nat) (S : Machines)
    (h1 : S.virtual_machine_1.virtualMachineExecSliceInInstructions ≤ 0)
    (h2 : S.virtual_machine_2.virtualMachineExecSliceInInstructions ≤ 0) :
    ∃ log, rounds e n S = .ok { S with log := log } := by
  induction n generalizing S with
  | zero => exact ⟨S.log, rfl⟩
  | succ n ih =>
    obtain ⟨l1, hl1⟩ := round_both_nonpositive e S h1 h2
    obtain ⟨l2, hl2⟩ := ih { S with log := l1 } h1 h2
    exact ⟨l2, by rw [rounds, hl1]; exact hl2⟩

/-- The scheduler loop does not end while a machine that can run has a slice that is not
positive. -/
theorem schedulerLoop_nonpositive_1 (e : Endian) (fuel : Nat) (S final : Machines)
    (h : S.virtual_machine_1.virtualMachineExecSliceInInstructions ≤ 0)
    (hr : runnable S.virtual_machine_1 = true) : schedulerLoop e fuel S ≠ .ok final := by
  induction fuel generalizing S with
  | zero =>
    rw [schedulerLoop, if_pos (Or.inl hr)]
    exact fun h => Res.noConfusion h
  | succ f ih =>
    rw [schedulerLoop, if_pos (Or.inl hr)]
    cases hx : round e S with
    | fault g => exact fun h => Res.noConfusion h
    | ok S1 =>
      have h1 := round_nonpositive_1 e S S1 h hx
      exact ih S1 (by rw [h1]; exact h) (by rw [h1]; exact hr)

theorem schedulerLoop_nonpositive_2 (e : Endian) (fuel : Nat) (S final : Machines)
    (h : S.virtual_machine_2.virtualMachineExecSliceInInstructions ≤ 0)
    (hr : runnable S.virtual_machine_2 = true) : schedulerLoop e fuel S ≠ .ok final := by
  induction fuel generalizing S with
  | zero =>
    rw [schedulerLoop, if_pos (Or.inr hr)]
    exact fun h => Res.noConfusion h
  | succ f ih =>
    rw [schedulerLoop, if_pos (Or.inr hr)]
    cases hx : round e S with
    | fault g => exact fun h => Res.noConfusion h
    | ok S1 =>
      have h1 := round_nonpositive_2 e S S1 h hx
      exact ih S1 (by rw [h1]; exact h) (by rw [h1]; exact hr)

end Snapshot

/-- C28. A slice that is not positive makes no progress: for every machine `vm` of the
snapshot program whose slice is at most 0 (a fresh machine has the slice 0, and `main` passes
0 when the configuration has no line for it), `executeAssemblyInstructions` returns the
machine as it is, with no instruction run. So in the scheduler, as machine 1 or as machine 2,
`vm` is the same after any number of rounds that end normally, and can run then if it could
before; when both machines have such a slice every number of rounds ends normally and changes
the report only; and when `vm` can run the scheduler loop never ends. -/
theorem nonpositive_slice_no_progress (e : Endian) (name : Str) (vm : VirtualMachine)
    (h : vm.virtualMachineExecSliceInInstructions ≤ 0) :
    Snapshot.executeAssemblyInstructions e name vm = .ok vm
      ∧ (∀ n S S', S.virtual_machine_1 = vm → Snapshot.rounds e n S = .ok S' →
          S'.virtual_machine_1 = vm
            ∧ Snapshot.runnable S'.virtual_machine_1 = Snapshot.runnable vm)
      ∧ (∀ n S S', S.virtual_machine_2 = vm → Snapshot.rounds e n S = .ok S' →
          S'.virtual_machine_2 = vm
            ∧ Snapshot.runnable S'.virtual_machine_2 = Snapshot.runnable vm)
      ∧ (∀ n S, S.virtual_machine_1 = vm →
          S.virtual_machine_2.virtualMachineExecSliceInInstructions ≤ 0 →
          ∃ log, Snapshot.rounds e n S = .ok { S with log := log })
      ∧ (∀ fuel S final, (S.virtual_machine_1 = vm ∨ S.virtual_machine_2 = vm) →
          Snapshot.runnable vm = true → Snapshot.schedulerLoop e fuel S ≠ .ok final)
      ∧ VirtualMachine.init.virtualMachineExecSliceInInstructions = 0 := by
  refine ⟨Snapshot.slice_nonpositive e name vm h, ?_, ?_, ?_, ?_, rfl⟩
  · intro n S S' hS hr
    have := Snapshot.rounds_nonpositive_1 e n S S' (by rw [hS]; exact h) hr
    rw [this, hS]
    exact ⟨rfl, rfl⟩
  · intro n S S' hS hr
    have := Snapshot.rounds_nonpositive_2 e n S S' (by rw [hS]; exact h) hr
    rw [this, hS]
    exact ⟨rfl, rfl⟩
  · intro n S hS h2
    exact Snapshot.rounds_both_nonpositive e n S (by rw [hS]; exact h) h2
  · intro fuel S final hS hr
    rcases hS with hS | hS
    · exact Snapshot.schedulerLoop_nonpositive_1 e fuel S final (by rw [hS]; exact h)
        (by rw [hS]; exact hr)
    · exact Snapshot.schedulerLoop_nonpositive_2 e fuel S final (by rw [hS]; exact h)
        (by rw [hS]; exact hr)

theorem nonpositive_slice_no_progress_witness :
    (freshMachine 0 exampleSum).virtualMachineExecSliceInInstructions ≤ 0
      ∧ (Snapshot.executeAssemblyInstructions .little "Virtual Machine 1".toList
            (freshMachine 0 exampleSum) = .ok (freshMachine 0 exampleSum)
        ∧ (∀ n S S', S.virtual_machine_1 = freshMachine 0 exampleSum →
            Snapshot.rounds .little n S = .ok S' →
            S'.virtual_machine_1 = freshMachine 0 exampleSum
              ∧ Snapshot.runnable S'.virtual_machine_1
                = Snapshot.runnable (freshMachine 0 exampleSum))
        ∧ (∀ n S S', S.virtual_machine_2 = freshMachine 0 exampleSum →
            Snapshot.rounds .little n S = .ok S' →
            S'.virtual_machine_2 = freshMachine 0 exampleSum
              ∧ Snapshot.runnable S'.virtual_machine_2
                = Snapshot.runnable (freshMachine 0 exampleSum))
        ∧ (∀ n S, S.virtual_machine_1 = freshMachine 0 exampleSum →
            S.virtual_machine_2.virtualMachineExecSliceInInstructions ≤ 0 →
            ∃ log, Snapshot.rounds .little n S = .ok { S with log := log })
        ∧ (∀ fuel S final, (S.virtual_machine_1 = freshMachine 0 exampleSum
              ∨ S.virtual_machine_2 = freshMachine 0 exampleSum) →
            Snapshot.runnable (freshMachine 0 exampleSum) = true →
            Snapshot.schedulerLoop .little fuel S ≠ .ok final)
        ∧ VirtualMachine.init.virtualMachineExecSliceInInstructions = 0) :=
  ⟨by decide, nonpositive_slice_no_progress .little "Virtual Machine 1".toList
    (freshMachine 0 exampleSum) (by decide)⟩


/-! ## The run of the sender up to its `MIGRATE` instruction -/

theorem runList_append (exec : Str → VirtualMachine → Res VirtualMachine) (a b : List Str)
    (vm : VirtualMachine) :
    runList exec (a ++ b) vm = (runList exec a vm).bind (runList exec b) := by
  induction a generalizing vm with
  | nil => rfl
  | cons i rest ih =>
    simp only [List.cons_append, runList]
    cases exec i vm with
    | fault f => rfl
    | ok v =>
      simp only [Res.bind]
      exact ih _

theorem Res.ok_bind {α β : Type} (a : α) (f : α → Res β) : (Res.ok a).bind f = f a := rfl

namespace Sender

theorem exec_keeps (e : Endian) (name i : Str) (v v' : VirtualMachine)
    (h : executeAssemblyInstruction e i name v = .ok v') :
    v'.programCounter = v.programCounter ∧ v'.instructions = v.instructions
      ∧ v'.virtualMachineExecSliceInInstructions = v.virtualMachineExecSliceInInstructions
      ∧ v'.shouldContinue = v.shouldContinue := by
  simp only [executeAssemblyInstruction] at h
  split at h
  · rename_i r _
    cases r with
    | ok R =>
      rw [← Res.ok.inj h]
      exact ⟨rfl, rfl, rfl, rfl⟩
    | fault f => exact Res.noConfusion h
  · split at h
    · rw [← Res.ok.inj h]
      simp only [VirtualMachine.dumpProcessorState, and_self]
    · split at h
      · rw [← Res.ok.inj h]
        simp only [VirtualMachine.sendDataToIpAddress, and_self]
      · rw [← Res.ok.inj h]
        exact ⟨rfl, rfl, rfl, rfl⟩

theorem runList_keeps (e : Endian) (name : Str) (l : List Str) (vm vm' : VirtualMachine)
    (h : runList (fun i v => executeAssemblyInstruction e i name v) l vm = .ok vm') :
    vm'.programCounter = vm.programCounter + l.length ∧ vm'.instructions = vm.instructions
      ∧ vm'.virtualMachineExecSliceInInstructions = vm.virtualMachineExecSliceInInstructions
      ∧ vm'.shouldContinue = vm.shouldContinue := by
  induction l generalizing vm with
  | nil =>
    simp only [runList] at h
    rw [← Res.ok.inj h]
    simp
  | cons i rest ih =>
    simp only [runList] at h
    cases hex : executeAssemblyInstruction e i name vm with
    | fault f => rw [hex] at h; exact Res.noConfusion h
    | ok v =>
      rw [hex] at h
      simp only [Res.bind] at h
      obtain ⟨h1, h2, h3, h4⟩ := exec_keeps e name i vm v hex
      obtain ⟨g1, g2, g3, g4⟩ := ih _ h
      simp only at g1 g2 g3 g4
      refine ⟨?_, by rw [g2, h2], by rw [g3, h3], by rw [g4, h4]⟩
      rw [g1, h1, List.length_cons]
      push_cast
      omega

/-- One slice of the sender on the way to the instruction at index `k`, the first that starts
with `MIGRATE`: the instructions run, and the flag `shouldContinue` cleared when the slice
reaches the halt check behind that instruction. -/
theorem executeLoop_spec (e : Endian) (stray : Option Str) (name : Str) (k fuel : Nat)
    (c : Int) (vm : VirtualMachine) (j : Nat)
    (hpc : vm.programCounter = (j : Int)) (hj : j ≤ k + 1) (hk : k < vm.instructions.length)
    (hlen : vm.instructions.length < 2147483648) (hsc : vm.shouldContinue = true)
    (hprev : ∀ p : Nat, p ≤ k → ∃ x,
      previousInstruction stray vm.instructions (p : Int) = some x
        ∧ x.take 7 ≠ "MIGRATE".toList)
    (hmig : ∃ x, previousInstruction stray vm.instructions ((k + 1 : Nat) : Int) = some x
      ∧ x.take 7 = "MIGRATE".toList)
    (hfuel : vm.instructions.length ≤ fuel + j) (hc : 0 ≤ c) :
    executeLoop e stray name fuel c vm
      = (runList (fun i v => executeAssemblyInstruction e i name v)
          ((vm.instructions.drop j).take
            (min (vm.virtualMachineExecSliceInInstructions - c).toNat (k + 1 - j))) vm).bind
          (fun v => .ok
            (if k + 1 - j < (vm.virtualMachineExecSliceInInstructions - c).toNat
                ∧ k + 1 < vm.instructions.length then { v with shouldContinue := false }
              else v)) := by
  induction fuel generalizing c vm j with
  | zero =>
    have hnot : ¬ (toSizeT vm.programCounter < vm.instructions.length
        ∧ c < vm.virtualMachineExecSliceInInstructions ∧ vm.shouldContinue = true) := by
      rw [hpc, toSizeT_natCast j (by omega)]
      omega
    have ht : min (vm.virtualMachineExecSliceInInstructions - c).toNat (k + 1 - j) = 0 := by
      omega
    have hno : ¬ (k + 1 - j < (vm.virtualMachineExecSliceInInstructions - c).toNat
        ∧ k + 1 < vm.instructions.length) := by omega
    rw [executeLoop, if_neg hnot, ht, List.take_zero]
    simp only [if_neg hno]
    rfl
  | succ fuel ih =>
    have hts : toSizeT vm.programCounter = j := by
      rw [hpc]; exact toSizeT_natCast j (by omega)
    rw [executeLoop]
    by_cases hcond : toSizeT vm.programCounter < vm.instructions.length
        ∧ c < vm.virtualMachineExecSliceInInstructions ∧ vm.shouldContinue = true
    · rw [if_pos hcond]
      rw [hts] at hcond ⊢
      obtain ⟨hjl, hcs, _⟩ := hcond
      by_cases hjk : j ≤ k
      · obtain ⟨x, hx, hxn⟩ := hprev j hjk
        have hx' : previousInstruction stray vm.instructions vm.programCounter = some x := by
          rw [hpc]; exact hx
        rw [hx']
        simp only
        rw [if_neg hxn]
        have hget : vm.instructions.get? j = some (vm.instructions[j]) := by
          rw [List.get?_eq_getElem?]
          exact List.getElem?_eq_getElem hjl
        have hdrop : vm.instructions.drop j
            = vm.instructions[j] :: vm.instructions.drop (j + 1) :=
          List.drop_eq_getElem_cons hjl
        obtain ⟨m, hm⟩ : ∃ m,
            min (vm.virtualMachineExecSliceInInstructions - c).toNat (k + 1 - j) = m + 1 :=
          ⟨min (vm.virtualMachineExecSliceInInstructions - c).toNat (k + 1 - j) - 1, by omega⟩
        have hm' : min (vm.virtualMachineExecSliceInInstructions - (c + 1)).toNat
            (k + 1 - (j + 1)) = m := by omega
        rw [hget, hdrop, hm, List.take_succ_cons, runList]
        simp only
        cases hex : executeAssemblyInstruction e vm.instructions[j] name vm with
        | fault f => rfl
        | ok v =>
          obtain ⟨h1, h2, h3, h4⟩ := exec_keeps e name _ vm v hex
          rw [Res.ok_bind, Res.ok_bind]
          have := ih (c + 1) { v with programCounter := v.programCounter + 1 } (j + 1)
            (by simp only [h1, hpc]; push_cast; rfl) (by omega) (by simp only [h2]; exact hk)
            (by simp only [h2]; exact hlen) (by simp only [h4]; exact hsc)
            (by simp only [h2]; exact hprev) (by simp only [h2]; exact hmig)
            (by simp only [h2]; omega) (by omega)
          simp only at this
          rw [this, ← h2, ← h3]
          rw [← h3] at hm'
          rw [hm']
          by_cases hh : k + 1 - j < (v.virtualMachineExecSliceInInstructions - c).toNat
              ∧ k + 1 < v.instructions.length
          · have hh' : k + 1 - (j + 1)
                < (v.virtualMachineExecSliceInInstructions - (c + 1)).toNat
                ∧ k + 1 < v.instructions.length := by omega
            simp only [if_pos hh, if_pos hh']
          · have hh' : ¬ (k + 1 - (j + 1)
                < (v.virtualMachineExecSliceInInstructions - (c + 1)).toNat
                ∧ k + 1 < v.instructions.length) := by omega
            simp only [if_neg hh, if_neg hh']
      · have hjk1 : j = k + 1 := by omega
        obtain ⟨x, hx, hxm⟩ := hmig
        have hx' : previousInstruction stray vm.instructions vm.programCounter = some x := by
          rw [hpc, hjk1]; exact hx
        rw [hx', hjk1]
        simp only
        rw [if_pos hxm]
        have ht : min (vm.virtualMachineExecSliceInInstructions - c).toNat (k + 1 - (k + 1))
            = 0 := by omega
        have hyes : k + 1 - (k + 1) < (vm.virtualMachineExecSliceInInstructions - c).toNat
            ∧ k + 1 < vm.instructions.length := by omega
        rw [ht, List.take_zero]
        simp only [if_pos hyes]
        rfl
    · rw [if_neg hcond]
      rw [hts] at hcond
      have hcond' : ¬ (j < vm.instructions.length
          ∧ c < vm.virtualMachineExecSliceInInstructions) := fun h => hcond ⟨h.1, h.2, hsc⟩
      have ht : min (vm.virtualMachineExecSliceInInstructions - c).toNat (k + 1 - j) = 0 := by
        omega
      have hno : ¬ (k + 1 - j < (vm.virtualMachineExecSliceInInstructions - c).toNat
          ∧ k + 1 < vm.instructions.length) := by omega
      rw [ht, List.take_zero]
      simp only [if_neg hno]
      rfl

theorem runLoop_stopped (e : Endian) (stray : Option Str) (fuel : Nat) (vm : VirtualMachine)
    (hsc : vm.shouldContinue = false) : runLoop e stray fuel vm = .ok vm := by
  cases fuel with
  | zero => rw [runLoop, if_neg (by rw [hsc]; simp)]
  | succ f => rw [runLoop, if_neg (by rw [hsc]; simp)]

/-- The run loop of the sender from the program counter `j` on, on the way to the instruction
at index `k`, the first that starts with `MIGRATE`: the instructions `j` to `k` run, and the
loop stops. -/
theorem runLoop_spec (e : Endian) (stray : Option Str) (k s fuel : Nat) (vm : VirtualMachine)
    (j : Nat) (hpc : vm.programCounter = (j : Int)) (hj : j ≤ k + 1)
    (hk : k < vm.instructions.length) (hlen : vm.instructions.length < 2147483648)
    (hsc : vm.shouldContinue = true)
    (hs : vm.virtualMachineExecSliceInInstructions = (s : Int)) (hs1 : 1 ≤ s)
    (hprev : ∀ p : Nat, p ≤ k → ∃ x,
      previousInstruction stray vm.instructions (p : Int) = some x
        ∧ x.take 7 ≠ "MIGRATE".toList)
    (hmig : ∃ x, previousInstruction stray vm.instructions ((k + 1 : Nat) : Int) = some x
      ∧ x.take 7 = "MIGRATE".toList)
    (hfuel : k + 2 ≤ fuel + j) :
    runLoop e stray fuel vm
      = (runList (fun i v => executeAssemblyInstruction e i "Local Machine".toList v)
          ((vm.instructions.drop j).take (k + 1 - j)) vm).bind
          (fun v => .ok (stopped k v)) := by
  induction fuel generalizing vm j with
  | zero => omega
  | succ f ih =>
    have hts : toSizeT vm.programCounter = j := by
      rw [hpc]; exact toSizeT_natCast j (by omega)
    have hst : (vm.virtualMachineExecSliceInInstructions - 0).toNat = s := by
      rw [Int.sub_zero, hs]; exact Int.toNat_ofNat s
    rw [runLoop]
    by_cases hjk : j ≤ k
    · have hcond : toSizeT vm.programCounter < vm.instructions.length
          ∧ vm.shouldContinue = true := by
        rw [hts]; exact ⟨by omega, hsc⟩
      rw [if_pos hcond]
      unfold executeAssemblyInstructions
      rw [executeLoop_spec e stray _ k vm.instructions.length 0 vm j hpc hj hk hlen hsc hprev
        hmig (by omega) (le_refl 0), hst]
      obtain ⟨t, ht, ht1, htk⟩ : ∃ t, min s (k + 1 - j) = t ∧ 1 ≤ t ∧ j + t ≤ k + 1 :=
        ⟨_, rfl, by omega, by omega⟩
      rw [ht]
      have hsplit : (vm.instructions.drop j).take (k + 1 - j)
          = (vm.instructions.drop j).take t
            ++ (vm.instructions.drop (j + t)).take (k + 1 - (j + t)) := by
        have h1 : k + 1 - j = t + (k + 1 - (j + t)) := by omega
        rw [h1, List.take_add, List.drop_drop]
      rw [hsplit, runList_append]
      cases hrun : runList (fun i v => executeAssemblyInstruction e i "Local Machine".toList v)
          ((vm.instructions.drop j).take t) vm with
      | fault g => rfl
      | ok v =>
        obtain ⟨g1, g2, g3, g4⟩ := runList_keeps e _ _ vm v hrun
        have hl : ((vm.instructions.drop j).take t).length = t := by
          rw [List.length_take, List.length_drop]; omega
        rw [hl] at g1
        rw [Res.ok_bind, Res.ok_bind, Res.ok_bind]
        by_cases hh : k + 1 - j < s ∧ k + 1 < vm.instructions.length
        · rw [if_pos hh, runLoop_stopped _ _ _ _ rfl]
          have h0 : k + 1 - (j + t) = 0 := by omega
          rw [h0, List.take_zero]
          have hd : decide (v.instructions.length ≤ k + 1) = false := by
            rw [g2]; exact decide_eq_false (by omega)
          simp only [runList, Res.bind, stopped, hd]
        · rw [if_neg hh]
          have := ih v (j + t) (by rw [g1, hpc]; push_cast; rfl) htk (by rw [g2]; exact hk)
            (by rw [g2]; exact hlen) (by rw [g4]; exact hsc) (by rw [g3]; exact hs)
            (by rw [g2]; exact hprev) (by rw [g2]; exact hmig) (by omega)
          rw [g2] at this
          exact this
    · have hjk1 : j = k + 1 := by omega
      have h0 : k + 1 - j = 0 := by omega
      rw [h0, List.take_zero]
      by_cases hend : k + 1 < vm.instructions.length
      · have hcond : toSizeT vm.programCounter < vm.instructions.length
            ∧ vm.shouldContinue = true := by
          rw [hts]; exact ⟨by omega, hsc⟩
        rw [if_pos hcond]
        unfold executeAssemblyInstructions
        rw [executeLoop_spec e stray _ k vm.instructions.length 0 vm j hpc hj hk hlen hsc hprev
          hmig (by omega) (le_refl 0), hst, h0, Nat.min_zero, List.take_zero]
        have hh : 0 < s ∧ k + 1 < vm.instructions.length := ⟨by omega, hend⟩
        have hd : decide (vm.instructions.length ≤ k + 1) = false :=
          decide_eq_false (by omega)
        simp only [if_pos hh, runList, Res.bind, stopped, hd]
        exact runLoop_stopped _ _ _ _ rfl
      · have hcond : ¬ (toSizeT vm.programCounter < vm.instructions.length
            ∧ vm.shouldContinue = true) := by
          rw [hts]; omega
        have hd : decide (vm.instructions.length ≤ k + 1) = true :=
          decide_eq_true (by omega)
        rw [if_neg hcond]
        simp only [runList, Res.bind, stopped, hd]
        rw [← hsc]

theorem haltCheckIndex_succ (p : Nat) (hp : p < 2147483648) :
    haltCheckIndex ((p + 1 : Nat) : Int) = p := by
  unfold haltCheckIndex
  rw [show ((p + 1 : Nat) : Int) - 1 = (p : Int) by push_cast; omega]
  exact toSizeT_natCast p hp

theorem haltCheckIndex_zero : haltCheckIndex ((0 : Nat) : Int) = 18446744073709551615 := by
  decide

end Sender

theorem take_migrateLine (w o1 o2 o3 o4 : Str) :
    BeginsWithMigrate (migrateLine w o1 o2 o3 o4) := by
  unfold BeginsWithMigrate migrateLine
  exact List.take_left "MIGRATE".toList _


theorem sender_previous_ok (previous : Str) (pre : List Str) (mig : Str) (post : List Str)
    (hlen : (pre ++ mig :: post).length < 2147483648)
    (hpre : ∀ l ∈ pre, ¬ BeginsWithMigrate l) (hprevious : ¬ BeginsWithMigrate previous)
    (p : Nat) (hp : p ≤ pre.length) :
    ∃ x, Sender.previousInstruction (some previous) (pre ++ mig :: post) (p : Int) = some x
      ∧ x.take 7 ≠ "MIGRATE".toList := by
  unfold Sender.previousInstruction
  cases p with
  | zero =>
    rw [Sender.haltCheckIndex_zero, List.get?_eq_none.mpr (by omega)]
    exact ⟨previous, rfl, hprevious⟩
  | succ q =>
    have hq : q < pre.length := by omega
    rw [Sender.haltCheckIndex_succ q (by simp only [List.length_append] at hlen; omega),
      List.get?_eq_getElem?, List.getElem?_append_left hq, List.getElem?_eq_getElem hq]
    exact ⟨pre[q], rfl, hpre _ (List.getElem_mem _)⟩

theorem sender_previous_migrate (previous : Str) (pre : List Str) (mig : Str)
    (post : List Str) (hlen : (pre ++ mig :: post).length < 2147483648)
    (hmig : BeginsWithMigrate mig) :
    ∃ x, Sender.previousInstruction (some previous) (pre ++ mig :: post)
        ((pre.length + 1 : Nat) : Int) = some x
      ∧ x.take 7 = "MIGRATE".toList := by
  unfold Sender.previousInstruction
  rw [Sender.haltCheckIndex_succ pre.length
      (by simp only [List.length_append] at hlen; omega),
    List.get?_eq_getElem?, List.getElem?_append_right (le_refl _), Nat.sub_self,
    List.getElem?_cons_zero]
  exact ⟨mig, rfl, hmig⟩

/-- The run of the sender up to its `MIGRATE` instruction, for the runs in which the halt
check made at program counter 0, on the string read in front of the program, does not fire.
Take a program `pre ++ mig :: post` in which `mig`, at index `k = pre.length`, is the first
line that starts with `MIGRATE`, and a slice of at least 1. Then the run loop of `main`, given
`k + 2` turns or more, ends, and its result is that of running the instructions `0` to `k` one
after the other, each once, with `shouldContinue` cleared unless the program ends at `k`. When
`mig` is a `MIGRATE <ipv4>` instruction and no instruction in front of it faults, the run ends
with the program counter `k + 1` and the register file `R` that the instructions `0` to
`k - 1` leave, and the last thing the sender did was to send the frame of
`serialize (R, k)`. -/
theorem sender_runs_up_to_migrate (e : Endian) (previous : Str) (vm : VirtualMachine) (s : Nat)
    (pre : List Str) (mig : Str) (post : List Str) (fuel : Nat)
    (hpc : vm.programCounter = 0) (hsc : vm.shouldContinue = true)
    (hs : vm.virtualMachineExecSliceInInstructions = (s : Int)) (hs1 : 1 ≤ s)
    (hI : vm.instructions = pre ++ mig :: post) (hlen : vm.instructions.length < 2147483648)
    (hpre : ∀ l ∈ pre, ¬ BeginsWithMigrate l) (hmig : BeginsWithMigrate mig)
    (hprevious : ¬ BeginsWithMigrate previous) (hfuel : pre.length + 2 ≤ fuel) :
    Sender.runLoop e (some previous) fuel vm
        = (runList (fun i v => Sender.executeAssemblyInstruction e i "Local Machine".toList v)
            (pre ++ [mig]) vm).bind (fun v => .ok (Sender.stopped pre.length v))
      ∧ ∀ w o1 o2 o3 o4, mig = migrateLine w o1 o2 o3 o4 → w ≠ [] → IsBlank w →
          IsOctet o1 → IsOctet o2 → IsOctet o3 → IsOctet o4 →
          NoFault (fun i v => Sender.executeAssemblyInstruction e i "Local Machine".toList v)
            pre →
          ∃ mid,
            runList (fun i v => Sender.executeAssemblyInstruction e i "Local Machine".toList v)
                pre vm = .ok mid
              ∧ Sender.runLoop e (some previous) fuel vm
                = .ok { mid with
                    programCounter := (pre.length : Int) + 1
                    shouldContinue := decide (post = [])
                    out := mid.out ++ [.send (ipText o1 o2 o3 o4)
                      (sendFrame e (serialize e mid.registers pre.length))] } := by
  have hlen' : (pre ++ mig :: post).length < 2147483648 := by rw [← hI]; exact hlen
  have hk : pre.length < vm.instructions.length := by
    rw [hI, List.length_append, List.length_cons]; omega
  have hrun := Sender.runLoop_spec e (some previous) pre.length s fuel vm 0
    (by rw [hpc]; rfl) (by omega) hk hlen hsc hs hs1
    (by rw [hI]; exact sender_previous_ok previous pre mig post hlen' hpre hprevious)
    (by rw [hI]; exact sender_previous_migrate previous pre mig post hlen' hmig) (by omega)
  have htake : (vm.instructions.drop 0).take (pre.length + 1 - 0) = pre ++ [mig] := by
    rw [hI, List.drop_zero, Nat.sub_zero, List.take_append_eq_append_take, List.take_of_length_le
      (by omega), show pre.length + 1 - pre.length = 1 by omega]
    rfl
  rw [htake] at hrun
  refine ⟨hrun, ?_⟩
  intro w o1 o2 o3 o4 hm h1 hw ho1 ho2 ho3 ho4 hnf
  obtain ⟨mid, hmid⟩ := runList_ok _ _ hnf vm
  obtain ⟨g1, g2, g3, g4⟩ := Sender.runList_keeps e _ _ vm mid hmid
  refine ⟨mid, hmid, ?_⟩
  rw [hrun, runList_append, hmid, Res.ok_bind, hm]
  simp only [runList]
  rw [sender_exec_migrate e _ w o1 o2 o3 o4 mid h1 hw ho1 ho2 ho3 ho4]
  have hd : decide ((pre ++ migrateLine w o1 o2 o3 o4 :: post).length ≤ pre.length + 1)
      = decide (post = []) := by
    rw [decide_eq_decide, List.length_append, List.length_cons]
    constructor
    · intro h
      exact List.eq_nil_of_length_eq_zero (by omega)
    · intro h
      rw [h]; simp
  have hpcm : mid.programCounter = (pre.length : Int) := by rw [g1, hpc]; simp
  rw [hm] at hI
  simp only [Res.bind, Sender.stopped, g2, hI, hd, hpcm]

theorem sender_runs_up_to_migrate_witness :
    (freshMachine 2 exampleProgram).programCounter = 0
      ∧ (freshMachine 2 exampleProgram).shouldContinue = true
      ∧ (freshMachine 2 exampleProgram).virtualMachineExecSliceInInstructions = ((2 : Nat) : Int)
      ∧ 1 ≤ 2
      ∧ (freshMachine 2 exampleProgram).instructions
        = exampleProgram.take 3 ++ "MIGRATE 127.0.0.1".toList :: exampleProgram.drop 4
      ∧ (freshMachine 2 exampleProgram).instructions.length < 2147483648
      ∧ (∀ l ∈ exampleProgram.take 3, ¬ BeginsWithMigrate l)
      ∧ BeginsWithMigrate "MIGRATE 127.0.0.1".toList
      ∧ ¬ BeginsWithMigrate []
      ∧ (exampleProgram.take 3).length + 2 ≤ 5
      ∧ (Sender.runLoop .little (some []) 5 (freshMachine 2 exampleProgram)
          = (runList
              (fun i v => Sender.executeAssemblyInstruction .little i "Local Machine".toList v)
              (exampleProgram.take 3 ++ ["MIGRATE 127.0.0.1".toList])
              (freshMachine 2 exampleProgram)).bind
              (fun v => .ok (Sender.stopped (exampleProgram.take 3).length v))
        ∧ ∀ w o1 o2 o3 o4, "MIGRATE 127.0.0.1".toList = migrateLine w o1 o2 o3 o4 → w ≠ [] →
            IsBlank w → IsOctet o1 → IsOctet o2 → IsOctet o3 → IsOctet o4 →
            NoFault
              (fun i v => Sender.executeAssemblyInstruction .little i "Local Machine".toList v)
              (exampleProgram.take 3) →
            ∃ mid,
              runList
                  (fun i v =>
                    Sender.executeAssemblyInstruction .little i "Local Machine".toList v)
                  (exampleProgram.take 3) (freshMachine 2 exampleProgram) = .ok mid
                ∧ Sender.runLoop .little (some []) 5 (freshMachine 2 exampleProgram)
                  = .ok { mid with
                      programCounter := ((exampleProgram.take 3).length : Int) + 1
                      shouldContinue := decide (exampleProgram.drop 4 = [])
                      out := mid.out ++ [.send (ipText o1 o2 o3 o4)
                        (sendFrame .little
                          (serialize .little mid.registers
                            (exampleProgram.take 3).length))] }) :=
  ⟨by decide, by decide, by decide, by decide, by decide, by decide, by decide, by decide,
    by decide, by decide,
    sender_runs_up_to_migrate .little [] (freshMachine 2 exampleProgram) 2
      (exampleProgram.take 3) "MIGRATE 127.0.0.1".toList (exampleProgram.drop 4) 5
      (by decide) (by decide) (by decide) (by decide) (by decide) (by decide) (by decide)
      (by decide) (by decide) (by decide)⟩

/-- C25, the run of the sender on `exampleProgram`, whose first line that starts with
`MIGRATE` is at index 3, with the slice 2. The halt check of the first iteration reads
`instructions[-1]`, outside the vector, and the run depends on what this read does. When it
traps, the run ends there with nothing run. When it yields a string that starts with
`MIGRATE`, the loop stops at program counter 0: no instruction is run and nothing is sent.
When it yields the empty string, the instructions 0 to 3 run, each once, and the sender
stops at program counter 4 with the registers it has sent. -/
theorem sender_run_hangs_on_first_halt_check :
    Sender.runLoop .little none 5 (freshMachine 2 exampleProgram) = .fault .outOfBounds
      ∧ (Sender.runLoop .little (some "MIGRATE".toList) 5 (freshMachine 2 exampleProgram)).map
          (fun v => (v.programCounter, v.shouldContinue, v.out,
            (List.range 4).map (fun i => v.registers.get (regName i))))
        = .ok (0, false, [], [0, 0, 0, 0])
      ∧ (Sender.runLoop .little (some []) 5 (freshMachine 2 exampleProgram)).map
          (fun v => (v.programCounter, v.shouldContinue,
            decide (v.out = [.send "127.0.0.1".toList
              (sendFrame .little (serialize .little v.registers 3))]),
            (List.range 6).map (fun i => v.registers.get (regName i))))
        = .ok (4, false, true, [0, 42, 20, 62, 0, 0]) := by
  decide


end VMM
